import Mathlib

/-!
# Expression-to-SQL compilation (`runtime/metricsview/astexpr.go`)

A shallow embedding of the expression compiler of the metrics-view query
engine, followed by theorems about it.

Conventions of the embedding

* Go strings are Lean `String`s.  Every byte the compiler writes itself is
  ASCII, so counting the byte `?` in the Go output and counting the character
  `?` in the Lean output agree.
* A Go `any` literal is a `Val`; `Val.null` is the nil interface and
  `Val.list` is `[]any`.
* A `*Expression` is an `Option Expression`; `none` is the nil pointer.  An
  `Expression` carries all four Go fields, so that expressions with no case or
  several cases populated are representable, as they are in Go.
* The builder methods return `error` in Go and mutate the builder in place.
  Here they take the builder and return `Except Failure sqlExprBuilder`:
  `Failure.error` is a returned Go error, `Failure.panic` a run-time fault
  (nil-pointer dereference).
* Line 158 stores the wrapped right operand into the caller's slice.  In the
  functions below this is the rebinding of a local list; expression trees are
  values without sharing.  An operand that is written twice (the left operand
  in the NULL clauses) is read again after the store; the store is idempotent
  (`legacyInOperands_idem`: a wrapped operand is a list and is not wrapped
  again), so the second write compiles the same operands.  The slice the
  caller holds after the store is `storedOperands`, and `InPlaceNormalized`
  relates a tree to the trees such stores can leave behind.
* The namespace `tracked` embeds the builder methods a second time, with the
  expression objects of the caller followed through the calls: every method
  also returns the objects as they stand after the call and the conditions on
  which `writeBinaryCondition` has run.  `tracked.agree_writeExpression` shows
  that both embeddings return the same builder or failure.
-/

namespace metricsview

/-- A Go `any` literal: nil, a scalar, or a list of literals (`[]any`). -/
inductive Val where
  | null
  | bool (b : Bool)
  | int (i : Int)
  | str (s : String)
  | list (vs : List Val)

/-- The test `v == nil` on an interface value. -/
def Val.isNull : Val → Bool
  | .null => true
  | _ => false

/-- The type assertion `v.([]any)`, with its ok flag as `Option`. -/
def Val.asList : Val → Option (List Val)
  | .list vs => some vs
  | _ => none

/-- The operator of a condition.  `Operator` is a string type in Go; the value
`unrecognized raw` stands for every string that is none of the twelve
declared constants. -/
inductive Operator where
  | Or | And
  | Eq | Neq | Lt | Lte | Gt | Gte
  | Ilike | Nilike
  | In | Nin
  | unrecognized (raw : String)
deriving DecidableEq, Repr

/-- Modelled from the spec: `Operator.Valid` is declared outside
`astexpr.go`.  The spec enumerates the twelve operators and says that an
unrecognized operator value is a compilation error. -/
def Operator.Valid : Operator → Bool
  | .unrecognized _ => false
  | _ => true

/-- A dimension of a query (only the name is read by the compiler). -/
structure Dimension where
  Name : String
deriving DecidableEq, Repr

/-- A measure of a query. -/
structure Measure where
  Name : String
deriving DecidableEq, Repr

/-- A time range of a query; its content is not inspected by the compiler. -/
structure TimeRange where
  raw : String
deriving DecidableEq, Repr

mutual
/-- An expression node with the four Go fields `Name`, `Value`, `Subquery`,
`Condition`. -/
inductive Expression where
  | mk (Name : String) (Value : Val) (Subquery : Option Subquery)
      (Condition : Option Condition)
/-- A correlated sub-selection. -/
inductive Subquery where
  | mk (Dimension : Dimension) (Measures : List Measure)
      (Where : Option Expression) (Having : Option Expression)
/-- A condition: an operator over child expression pointers. -/
inductive Condition where
  | mk (Operator : Operator) (Expressions : List (Option Expression))
end

def Expression.Name : Expression → String
  | .mk n _ _ _ => n

def Expression.Value : Expression → Val
  | .mk _ v _ _ => v

def Expression.Subquery : Expression → Option Subquery
  | .mk _ _ s _ => s

def Expression.Condition : Expression → Option Condition
  | .mk _ _ _ c => c

def Subquery.Dimension : Subquery → Dimension
  | .mk d _ _ _ => d

def Subquery.Measures : Subquery → List Measure
  | .mk _ m _ _ => m

def Subquery.Where : Subquery → Option Expression
  | .mk _ _ w _ => w

def Subquery.Having : Subquery → Option Expression
  | .mk _ _ _ h => h

def Condition.Operator : Condition → Operator
  | .mk op _ => op

def Condition.Expressions : Condition → List (Option Expression)
  | .mk _ es => es

/-- The query handed to the outer query compiler. -/
structure Query where
  MetricsView : String
  Dimensions : List Dimension
  Measures : List Measure
  PivotOn : List String
  SortFields : List String
  TimeRange : Option metricsview.TimeRange
  ComparisonTimeRange : Option metricsview.TimeRange
  Where : Option Expression
  Having : Option Expression
  Limit : Option Int
  Offset : Option Int
  TimeZone : String
  Label : Bool

/-- A dimension of the metrics-view catalog, as returned by
`lookupDimension`. -/
structure MetricsViewDimension where
  Name : String
  Column : String
  Expression : String
  Unnest : Bool
deriving DecidableEq, Repr

/-- A projected dimension field (`ast.dimFields`, `node.DimFields`). -/
structure DimensionField where
  Name : String
  Expr : String
  Unnest : Bool
  UnnestAlias : String
deriving DecidableEq, Repr

/-- A projected measure field (`node.MeasureFields`). -/
structure MeasureField where
  Name : String
  Expr : String
deriving DecidableEq, Repr

/-- The select node of a wrapped SELECT. -/
structure SelectNode where
  DimFields : List DimensionField
  MeasureFields : List MeasureField
deriving DecidableEq, Repr

/-- The dialect capability interface, as far as the compiler calls it.
`LateralUnnest expr alias name` is `(from, ok)` or an error. -/
structure Dialect where
  EscapeIdentifier : String → String
  SupportsILike : Bool
  LateralUnnest : String → String → String → Except String (String × Bool)
  MetricsViewDimensionExpression : MetricsViewDimension → String

/-- The AST built by the outer query compiler for a subquery: all the
expression compiler does with it is call `SQL()`. -/
structure InnerAST where
  SQL : Except String (String × List Val)

/-- The query context.  The collaborators that are declared outside
`astexpr.go` are fields: `sqlForMember`, `lookupDimension`, `NewAST` (already
applied to the metrics view, the security policy and the dialect), and the
identifier generator, given by its counter `nextIdentifier` and the name
`identifierName k` it issues in state `k`. -/
structure AST where
  query : Query
  dialect : Dialect
  dimFields : List DimensionField
  sqlForMember : String → String → String
  lookupDimension : String → Bool → Except String MetricsViewDimension
  NewAST : Query → Except String InnerAST
  identifierName : Nat → String
  nextIdentifier : Nat

/-- Modelled from the spec: `generateIdentifier` is declared outside
`astexpr.go`; the spec says it generates a fresh correlation identifier.  It
returns the name of the current generator state and advances the state. -/
def AST.generateIdentifier (a : AST) : String × AST :=
  (a.identifierName a.nextIdentifier, { a with nextIdentifier := a.nextIdentifier + 1 })

/-- The errors the compiler returns, one constructor per `errors.New` or
`fmt.Errorf` site (the line of `astexpr.go` is given), with the values that
are formatted into the message. -/
inductive Err where
  /-- Line 51: "invalid expression". -/
  | invalidExpression
  /-- Line 62: unnest "not supported for expressions of this structure". -/
  | unnestUnsupportedStructure (name : String)
  /-- Line 122: "invalid expression operator". -/
  | invalidOperator (op : Operator)
  /-- Line 171: "binary condition must have exactly 2 expressions". -/
  | binaryArity
  /-- Line 176: "left expression is nil". -/
  | leftNil
  /-- Line 181: "right expression is nil". -/
  | rightNil
  /-- Line 191: unnest "only supported for the left side of an operation". -/
  | unnestOnRight (name : String)
  /-- Line 276: "invalid binary condition operator". -/
  | invalidBinaryOperator (op : Operator)
  /-- Line 376: "the right value must be a list of values for an IN condition". -/
  | inRightNotList
  /-- Line 532: "invalid dimension reference", wrapping the lookup error. -/
  | invalidDimensionReference (name : String) (cause : String)
  /-- Line 552: "not a dimension available in the current context". -/
  | notDimensionInContext (name : String)
  /-- Line 562: "not a dimension or measure available in the current context". -/
  | notDimensionOrMeasureInContext (name : String)
  /-- Line 97: "failed to create AST for subquery". -/
  | subqueryAST (cause : String)
  /-- Line 101: "failed to generate SQL for subquery". -/
  | subquerySQL (cause : String)
  /-- Line 211: the error returned by `dialect.LateralUnnest`, passed on. -/
  | lateralUnnest (cause : String)
deriving DecidableEq, Repr

/-- How a builder method can fail: by returning an error, or by a run-time
fault. -/
inductive Failure where
  | error (err : Err)
  | panic
deriving DecidableEq, Repr

/-- The builder: context (`ast`, `node`, `pseudoHaving`) and the output
accumulated so far (`out`, `args`). -/
structure sqlExprBuilder where
  ast : AST
  node : Option SelectNode
  pseudoHaving : Bool
  out : String
  args : List Val

namespace sqlExprBuilder

def writeByte (b : sqlExprBuilder) (v : Char) : sqlExprBuilder :=
  { b with out := b.out.push v }

def writeString (b : sqlExprBuilder) (s : String) : sqlExprBuilder :=
  { b with out := b.out ++ s }

def writeParenthesizedString (b : sqlExprBuilder) (s : String) : sqlExprBuilder :=
  { b with out := ((b.out.push '(') ++ s).push ')' }

/-- The search `for _, f := range b.ast.dimFields` of the base scope. -/
def findDimField (name : String) : List DimensionField → Option DimensionField
  | [] => none
  | f :: fs => if f.Name = name then some f else findDimField name fs

/-- The search `for _, f := range b.node.MeasureFields`. -/
def findMeasureField (name : String) : List MeasureField → Option MeasureField
  | [] => none
  | f :: fs => if f.Name = name then some f else findMeasureField name fs

def sqlForName (b : sqlExprBuilder) (name : String) : Except Err (String × Bool) :=
  match b.node with
  | none =>
    match findDimField name b.ast.dimFields with
    | some f =>
      if f.Unnest then .ok (b.ast.sqlForMember f.UnnestAlias f.Name, false)
      else .ok (f.Expr, false)
    | none =>
      match b.ast.lookupDimension name true with
      | .error err => .error (.invalidDimensionReference name err)
      | .ok dim => .ok (b.ast.dialect.MetricsViewDimensionExpression dim, dim.Unnest)
  | some node =>
    match findDimField name node.DimFields with
    | some f => .ok (f.Expr, false)
    | none =>
      if !b.pseudoHaving then .error (.notDimensionInContext name)
      else
        match findMeasureField name node.MeasureFields with
        | some f => .ok (f.Expr, false)
        | none => .error (.notDimensionOrMeasureInContext name)

/-- The statement `b.args = append(b.args, vals...)`. -/
def appendArgs (b : sqlExprBuilder) (vals : List Val) : sqlExprBuilder :=
  { b with args := b.args ++ vals }

/-- The call `b.ast.generateIdentifier()`: the identifier, and the builder
whose AST has the generator advanced. -/
def generateIdentifier (b : sqlExprBuilder) : String × sqlExprBuilder :=
  (b.ast.generateIdentifier.1, { b with ast := b.ast.generateIdentifier.2 })

/-- An error of name resolution or of the dialect, returned by a builder
method. -/
def returned {α : Type} (r : Except Err α) : Except Failure α :=
  match r with
  | .error err => .error (.error err)
  | .ok a => .ok a

def writeName (b : sqlExprBuilder) (name : String) : Except Failure sqlExprBuilder := do
  let r ← returned (b.sqlForName name)
  if r.2 then .error (.error (.unnestUnsupportedStructure name))
  else .ok (b.writeParenthesizedString r.1)

def writeValue (b : sqlExprBuilder) (val : Val) : Except Failure sqlExprBuilder :=
  let b := b.writeString "?"
  .ok (b.appendArgs [val])

def writeSubquery (b : sqlExprBuilder) (sub : Subquery) : Except Failure sqlExprBuilder :=
  let outer := b.ast.query
  let inner : Query :=
    { MetricsView := outer.MetricsView
      Dimensions := [sub.Dimension]
      Measures := sub.Measures
      PivotOn := []
      SortFields := []
      TimeRange := outer.TimeRange
      ComparisonTimeRange := outer.ComparisonTimeRange
      Where := sub.Where
      Having := sub.Having
      Limit := none
      Offset := none
      TimeZone := outer.TimeZone
      Label := false }
  match b.ast.NewAST inner with
  | .error err => .error (.error (.subqueryAST err))
  | .ok innerAST =>
    match innerAST.SQL with
    | .error err => .error (.error (.subquerySQL err))
    | .ok (sql, args) =>
      let b := b.writeString "(SELECT "
      let b := b.writeString (b.ast.dialect.EscapeIdentifier sub.Dimension.Name)
      let b := b.writeString " FROM ("
      let b := b.writeString sql
      let b := b.writeString "))"
      .ok (b.appendArgs args)

/-- The literal list `(?,?,...)` without its brackets: the loop of lines
444 to 450, `i` being the loop index of the first of the `n` rounds left. -/
def writePlaceholders (b : sqlExprBuilder) (i : Nat) : Nat → sqlExprBuilder
  | 0 => b
  | n + 1 =>
    writePlaceholders (if i = 0 then b.writeString "?" else b.writeString ",?") (i + 1) n

/-- The loop `for _, v := range vals` of lines 407 to 412. -/
def hasNull : List Val → Bool
  | [] => false
  | v :: vs => if v.isNull then true else hasNull vs

/-- The loop of lines 163 to 165, collecting `e.Value` of every operand after
the first; a nil operand is a nil-pointer dereference. -/
def collectValues : List (Option Expression) → Except Failure (List Val)
  | [] => .ok []
  | none :: _ => .error .panic
  | some e :: es =>
    match collectValues es with
    | .error f => .error f
    | .ok vals => .ok (e.Value :: vals)

/-- The switch of lines 220 to 231 of `writeBinaryCondition`: the operator used
inside the unnest subquery, and whether a `NOT` goes in front of it. -/
def hoistNot (op : Operator) : Operator × Bool :=
  match op with
  | .Neq => (.Eq, true)
  | .Nin => (.In, true)
  | .Nilike => (.Ilike, true)
  | _ => (op, false)

/-- The backwards-compatibility block of `writeBinaryCondition`, lines 151 to
168: the operand list as it stands at line 170. -/
def legacyInOperands (exprs : List (Option Expression)) (op : Operator) :
    Except Failure (List (Option Expression)) :=
  if op = .In ∨ op = .Nin then
    match exprs with
    | [left, rhs] =>
      match rhs with
      | none => .error .panic
      | some r =>
        if r.Name = "" ∧ r.Value.asList.isNone ∧ r.Condition.isNone ∧ r.Subquery.isNone then
          .ok [left, some (.mk "" (.list [r.Value]) none none)]
        else .ok [left, some r]
    | left :: e1 :: e2 :: es =>
      match collectValues (e1 :: e2 :: es) with
      | .error f => .error f
      | .ok vals => .ok [left, some (.mk "" (.list vals) none none)]
    | _ => .ok exprs
  else .ok exprs

end sqlExprBuilder

mutual
/-- A termination measure: the number of expression nodes, condition nodes and
operand slots of a tree (subqueries are not entered). -/
def Expression.rank : Expression → Nat
  | .mk _ _ _ c => 1 + rankOptCondition c
def rankOptCondition : Option Condition → Nat
  | none => 0
  | some c => c.rank
def Condition.rank : Condition → Nat
  | .mk _ es => 8 + rankList es
def rankList : List (Option Expression) → Nat
  | [] => 0
  | e :: es => 1 + rankOpt e + rankList es
def rankOpt : Option Expression → Nat
  | none => 0
  | some e => e.rank
end

theorem Expression.rank_pos (e : Expression) : 1 ≤ e.rank := by
  cases e
  simp [Expression.rank]

theorem rank_legacyInOperands (exprs exprs2 : List (Option Expression)) (op : Operator)
    (h : sqlExprBuilder.legacyInOperands exprs op = .ok exprs2) :
    rankList exprs2 ≤ rankList exprs := by
  unfold sqlExprBuilder.legacyInOperands at h
  split at h
  · split at h
    · split at h
      · simp at h
      · rename_i r
        have hr := r.rank_pos
        split at h
        · simp at h
          subst h
          simp [rankList, rankOpt, Expression.rank, rankOptCondition]
          omega
        · simp at h
          subst h
          exact le_refl _
    · split at h
      · simp at h
      · simp at h
        subst h
        simp [rankList, rankOpt, Expression.rank, rankOptCondition]
        omega
    · simp at h
      subst h
      exact le_refl _
  · simp at h
    subst h
    exact le_refl _

namespace sqlExprBuilder

mutual
def writeExpression (b : sqlExprBuilder) : Option Expression → Except Failure sqlExprBuilder
  | none => .ok b
  | some (.mk name value subquery condition) =>
    if name ≠ "" then b.writeName name
    else if !value.isNull then b.writeValue value
    else
      match subquery with
      | some sub => b.writeSubquery sub
      | none =>
        match condition with
        | some cond => writeCondition b cond
        | none => .error (.error .invalidExpression)
termination_by e => rankOpt e
decreasing_by
  all_goals simp_wf
  all_goals simp [rankOpt, rankList, Expression.rank, Condition.rank, rankOptCondition]

def writeCondition (b : sqlExprBuilder) : Condition → Except Failure sqlExprBuilder
  | .mk op exprs =>
    match op with
    | .Or => writeJoinedExpressions b exprs " OR "
    | .And => writeJoinedExpressions b exprs " AND "
    | op =>
      if !op.Valid then .error (.error (.invalidOperator op))
      else writeBinaryCondition b exprs op
termination_by c => c.rank
decreasing_by
  all_goals simp_wf
  all_goals simp [rankOpt, rankList, Expression.rank, Condition.rank, rankOptCondition]
  all_goals omega

def writeJoinedExpressions (b : sqlExprBuilder) (exprs : List (Option Expression))
    (joiner : String) : Except Failure sqlExprBuilder :=
  if exprs.length = 0 then .ok b
  else do
    let b := b.writeByte '('
    let b ← writeJoinedLoop b exprs joiner 0
    .ok (b.writeByte ')')
termination_by rankList exprs + 1
decreasing_by
  all_goals simp_wf

/-- The loop `for i, e := range exprs` of `writeJoinedExpressions`, lines 135
to 143; `i` is the index of the first expression of the list. -/
def writeJoinedLoop (b : sqlExprBuilder) (exprs : List (Option Expression))
    (joiner : String) (i : Nat) : Except Failure sqlExprBuilder :=
  match exprs with
  | [] => .ok b
  | e :: rest => do
    let b := if i > 0 then b.writeString joiner else b
    let b ← writeExpression b e
    writeJoinedLoop b rest joiner (i + 1)
termination_by rankList exprs
decreasing_by
  all_goals simp_wf
  all_goals simp [rankOpt, rankList, Expression.rank, Condition.rank, rankOptCondition]
  all_goals omega

def writeBinaryCondition (b : sqlExprBuilder) (exprs : List (Option Expression))
    (op : Operator) : Except Failure sqlExprBuilder :=
  match _hn : legacyInOperands exprs op with
  | .error f => .error f
  | .ok [left, right] =>
    match left with
    | none => .error (.error .leftNil)
    | some l =>
      match right with
      | none => .error (.error .rightNil)
      | some r => do
        -- Check there isn't an unnest on the right side
        let _ ← (if r.Name ≠ "" then do
            let res ← returned (b.sqlForName r.Name)
            if res.2 then .error (.error (.unnestOnRight r.Name)) else .ok ()
          else .ok () : Except Failure Unit)
        -- Handle unnest on the left side
        if l.Name ≠ "" then do
          let res ← returned (b.sqlForName l.Name)
          let leftExpr := res.1
          if !res.2 then writeBinaryConditionInner b none (some r) leftExpr op
          else do
            let unnestTableAlias := b.generateIdentifier.1
            let b := b.generateIdentifier.2
            let lat ← returned
              ((b.ast.dialect.LateralUnnest leftExpr unnestTableAlias l.Name).mapError
                Err.lateralUnnest)
            let unnestFrom := lat.1
            if !lat.2 then writeBinaryConditionInner b none (some r) leftExpr op
            else do
              let unnestColAlias := b.ast.sqlForMember unnestTableAlias l.Name
              -- Need to move "NOT" to outside of the subquery
              let opNot := hoistNot op
              let b := if opNot.2 then b.writeString "NOT " else b
              let b := b.writeString "EXISTS (SELECT 1 FROM "
              let b := b.writeString unnestFrom
              let b := b.writeString " WHERE "
              let b ← writeBinaryConditionInner b none (some r) unnestColAlias opNot.1
              .ok (b.writeString ")")
        else writeBinaryConditionInner b (some l) (some r) "" op
  | .ok _ => .error (.error .binaryArity)
termination_by rankList exprs + 5
decreasing_by
  all_goals simp_wf
  all_goals have hr := rank_legacyInOperands _ _ _ _hn
  all_goals simp [rankOpt, rankList, Expression.rank, Condition.rank, rankOptCondition] at hr ⊢
  all_goals omega

def writeBinaryConditionInner (b : sqlExprBuilder) (left right : Option Expression)
    (leftOverride : String) (op : Operator) : Except Failure sqlExprBuilder :=
  match op with
  | .Ilike => writeILikeCondition b left right leftOverride false
  | .Nilike => writeILikeCondition b left right leftOverride true
  | .In => writeInCondition b left right leftOverride false
  | .Nin => writeInCondition b left right leftOverride true
  | op =>
    let joiner : Option String :=
      match op with
      | .Eq => some " = "
      | .Neq => some " != "
      | .Lt => some " < "
      | .Lte => some " <= "
      | .Gt => some " > "
      | .Gte => some " >= "
      | _ => none
    match joiner with
    | none => .error (.error (.invalidBinaryOperator op))
    | some joiner => do
      let b ← if leftOverride ≠ "" then .ok (b.writeParenthesizedString leftOverride)
              else writeExpression b left
      let b := b.writeString joiner
      writeExpression b right
termination_by rankOpt left + rankOpt right + 3
decreasing_by
  all_goals simp_wf
  all_goals omega

def writeILikeCondition (b : sqlExprBuilder) (left right : Option Expression)
    (leftOverride : String) (not : Bool) : Except Failure sqlExprBuilder := do
  let b := if not then b.writeByte '(' else b
  let b ←
    if b.ast.dialect.SupportsILike then do
      -- Output: <left> [NOT] ILIKE <right>
      let b ← if leftOverride ≠ "" then .ok (b.writeParenthesizedString leftOverride)
              else writeExpression b left
      let b := if not then b.writeString " NOT ILIKE " else b.writeString " ILIKE "
      writeExpression b right
    else do
      -- Output: LOWER(<left>) [NOT] LIKE LOWER(<right>)
      let b := b.writeString "LOWER("
      let b ← if leftOverride ≠ "" then .ok (b.writeString leftOverride)
              else writeExpression b left
      let b := b.writeString ")"
      let b := if not then b.writeString " NOT ILIKE " else b.writeString " ILIKE "
      let b := b.writeString "LOWER("
      let b ← writeExpression b right
      .ok (b.writeString ")")
  let b ←
    if not then do
      let b := b.writeString " OR "
      let b ← if leftOverride ≠ "" then .ok (b.writeParenthesizedString leftOverride)
              else writeExpression b left
      .ok (b.writeString " IS NULL")
    else .ok b
  -- Closes the parens opened at the start
  .ok (if not then b.writeByte ')' else b)
termination_by rankOpt left + rankOpt right + 2
decreasing_by
  all_goals simp_wf
  all_goals omega

def writeInCondition (b : sqlExprBuilder) (left right : Option Expression)
    (leftOverride : String) (not : Bool) : Except Failure sqlExprBuilder :=
  match right with
  | none => .error .panic
  | some r =>
    if !r.Value.isNull then
      match r.Value.asList with
      | none => .error (.error .inRightNotList)
      | some vals => writeInConditionForValues b left leftOverride vals not
    else do
      let b ← if leftOverride ≠ "" then .ok (b.writeParenthesizedString leftOverride)
              else writeExpression b left
      let b := if not then b.writeString " NOT IN " else b.writeString " IN "
      writeExpression b (some r)
termination_by rankOpt left + rankOpt right + 2
decreasing_by
  all_goals simp_wf
  all_goals omega

def writeInConditionForValues (b : sqlExprBuilder) (left : Option Expression)
    (leftOverride : String) (vals : List Val) (not : Bool) : Except Failure sqlExprBuilder :=
  let hasNull := hasNull vals
  if vals.length = 0 then
    if not then .ok (b.writeString "TRUE") else .ok (b.writeString "FALSE")
  else do
    let wrapParens := not || hasNull
    let b := if wrapParens then b.writeByte '(' else b
    let b ← if leftOverride ≠ "" then .ok (b.writeParenthesizedString leftOverride)
            else writeExpression b left
    let b := if not then b.writeString " NOT IN " else b.writeString " IN "
    let b := b.writeByte '('
    let b := b.writePlaceholders 0 vals.length
    let b := b.writeByte ')'
    let b := b.appendArgs vals
    let b ←
      if hasNull then do
        let b := if not then b.writeString " AND " else b.writeString " OR "
        let b ← if leftOverride ≠ "" then .ok (b.writeParenthesizedString leftOverride)
                else writeExpression b left
        .ok (if not then b.writeString " IS NOT NULL" else b.writeString " IS NULL")
      else .ok b
    -- Include NULL rows for "dim NOT IN (...)"
    let b ←
      if not && !hasNull then do
        let b := b.writeString " OR "
        let b ← if leftOverride ≠ "" then .ok (b.writeParenthesizedString leftOverride)
                else writeExpression b left
        .ok (b.writeString " IS NULL")
      else .ok b
    .ok (if wrapParens then b.writeByte ')' else b)
termination_by rankOpt left + 1
decreasing_by
  all_goals simp_wf
end

end sqlExprBuilder

/-- What a Go function returning `(string, []any, error)` yields: the returned
triple, or a run-time fault that unwinds the call. -/
inductive GoResult where
  | returned (sql : String) (params : List Val) (err : Option Err)
  | panicked

/-- The builder `sqlForExpression` starts from (lines 12 to 17). -/
def sqlExprBuilder.start (ast : AST) (n : Option SelectNode) (pseudoHaving : Bool) :
    sqlExprBuilder :=
  { ast := ast, node := n, pseudoHaving := pseudoHaving, out := "", args := [] }

def AST.sqlForExpression (ast : AST) (e : Option Expression) (n : Option SelectNode)
    (pseudoHaving : Bool) : GoResult :=
  let b := sqlExprBuilder.start ast n pseudoHaving
  match b.writeExpression e with
  | .error (.error err) => .returned "" [] (some err)
  | .error .panic => .panicked
  | .ok b => .returned b.out b.args none


/-! ## Definitions used to state the properties -/

/-- The Go literal `&Expression{Name: name}`. -/
def Expression.ofName (name : String) : Expression := .mk name .null none none

/-- The Go literal `&Expression{Value: v}`. -/
def Expression.ofValue (v : Val) : Expression := .mk "" v none none

/-- The Go literal `&Expression{Condition: &Condition{Operator: op, Expressions: exprs}}`. -/
def Expression.ofCondition (op : Operator) (exprs : List (Option Expression)) : Expression :=
  .mk "" .null none (some (.mk op exprs))

/-- `k` placeholders separated by commas: `?,?,...,?`. -/
def placeholders (k : Nat) : String := ",".intercalate (List.replicate k "?")

mutual
/-- The tree contains no Subquery node. -/
def Expression.noSubquery : Expression → Bool
  | .mk _ _ s c => s.isNone && noSubqueryOptCondition c
def noSubqueryOptCondition : Option Condition → Bool
  | none => true
  | some c => c.noSubquery
def Condition.noSubquery : Condition → Bool
  | .mk _ es => noSubqueryList es
def noSubqueryList : List (Option Expression) → Bool
  | [] => true
  | e :: es => noSubqueryOpt e && noSubqueryList es
def noSubqueryOpt : Option Expression → Bool
  | none => true
  | some e => e.noSubquery
end

/-- The builder `b` with `o` put in front of its output and `a` in front of
its parameters. -/
def sqlExprBuilder.prepend (o : String) (a : List Val) (b : sqlExprBuilder) : sqlExprBuilder :=
  { b with out := o ++ b.out, args := a ++ b.args }

/-- A builder method is prefix-independent when running it after a longer
prefix gives the same result behind that prefix. -/
def Shift (w : sqlExprBuilder → Except Failure sqlExprBuilder) : Prop :=
  ∀ o a b, w (sqlExprBuilder.prepend o a b) = (w b).map (sqlExprBuilder.prepend o a)

/-- The number of `?` placeholders of a SQL text. -/
def countPlaceholders (s : String) : Nat := s.data.count '?'

/-- Placeholders written minus parameters bound. -/
def sqlExprBuilder.weight (b : sqlExprBuilder) : Int :=
  (countPlaceholders b.out : Int) - (b.args.length : Int)

/-- No fragment that the compiler can copy into the output contains the
character `?`: no resolved name fragment, and, for a name that requires
unnesting and an alias `identifierName k` of the identifier generator, neither
the lateral-unnest FROM clause of the dialect nor the correlated column
reference `sqlForMember`. -/
def sqlExprBuilder.Quiet (b : sqlExprBuilder) : Prop :=
  (∀ name x u, b.sqlForName name = .ok (x, u) → countPlaceholders x = 0) ∧
  (∀ k name x fr ok, b.sqlForName name = .ok (x, true) →
    b.ast.dialect.LateralUnnest x (b.ast.identifierName k) name = .ok (fr, ok) →
    countPlaceholders fr = 0) ∧
  (∀ k name x, b.sqlForName name = .ok (x, true) →
    countPlaceholders (b.ast.sqlForMember (b.ast.identifierName k) name) = 0)

/-- A builder method keeps the placeholders aligned with the parameters. -/
def sqlExprBuilder.Aligned (w : sqlExprBuilder → Except Failure sqlExprBuilder) : Prop :=
  ∀ b d, b.Quiet → w b = .ok d → d.Quiet ∧ d.weight = b.weight


/-- The text of a list membership test of the fragment `e` against `k`
values: the test `(e) [NOT] IN (?,...,?)`, then the NULL clause (`AND (e) IS
NOT NULL` or `OR (e) IS NULL` when the list has a NULL, `OR (e) IS NULL` when
the test is negated and the list has none), the whole in parentheses exactly
when the test is negated or the list has a NULL. -/
def membershipSQL (e : String) (k : Nat) (not hasNull : Bool) : String :=
  let test := "(" ++ e ++ ")" ++ (if not then " NOT IN " else " IN ") ++ "("
    ++ placeholders k ++ ")"
  let nullClause :=
    if hasNull then
      if not then " AND (" ++ e ++ ") IS NOT NULL" else " OR (" ++ e ++ ") IS NULL"
    else if not then " OR (" ++ e ++ ") IS NULL"
    else ""
  if not || hasNull then "(" ++ test ++ nullClause ++ ")" else test ++ nullClause

/-- The membership operator: `Nin` when negated, `In` otherwise. -/
def membershipOp (not : Bool) : Operator := if not then .Nin else .In

/-- The text written before the right operand of a case-insensitive match
whose left side is the fragment `e`: the opening parenthesis of the negated
form, the left side (`(e)`, or `LOWER(e)` in the fallback), the keyword as the
code writes it, and `LOWER(` in the fallback. -/
def ilikeOpen (e : String) (not native : Bool) : String :=
  (if not then "(" else "") ++ (if native then "(" ++ e ++ ")" else "LOWER(" ++ e ++ ")")
    ++ (if not then " NOT ILIKE " else " ILIKE ") ++ (if native then "" else "LOWER(")

/-- The text written after the right operand of a case-insensitive match: the
closing `)` of the fallback, and the NULL clause with the closing parenthesis
of the negated form. -/
def ilikeClose (e : String) (not native : Bool) : String :=
  (if native then "" else ")") ++ (if not then " OR (" ++ e ++ ") IS NULL)" else "")

/-- The case-insensitive match operator: `Nilike` when negated. -/
def ilikeOp (not : Bool) : Operator := if not then .Nilike else .Ilike

/-- The result with `NOT ` put in front of a successfully returned SQL text;
a returned error and a run-time fault are left as they are. -/
def GoResult.withNot : GoResult → GoResult
  | .returned sql params none => .returned ("NOT " ++ sql) params none
  | r => r

/-- A relation between a reference builder and a current builder that
survives every elementary step of the builder methods: writing text, binding
parameters and issuing an identifier. -/
structure StepClosed (R : sqlExprBuilder → sqlExprBuilder → Prop) : Prop where
  writeString : ∀ b0 b s, R b0 b → R b0 (b.writeString s)
  writeByte : ∀ b0 b c, R b0 b → R b0 (b.writeByte c)
  writeParenthesizedString : ∀ b0 b s, R b0 b → R b0 (b.writeParenthesizedString s)
  appendArgs : ∀ b0 b vals, R b0 b → R b0 (b.appendArgs vals)
  generateIdentifier : ∀ b0 b, R b0 b → R b0 b.generateIdentifier.2

/-- A builder method keeps the relation `R` to a reference builder. -/
def Preserves (R : sqlExprBuilder → sqlExprBuilder → Prop)
    (w : sqlExprBuilder → Except Failure sqlExprBuilder) : Prop :=
  ∀ b0 b d, R b0 b → w b = .ok d → R b0 d

/-- The builder `d` has the context of `b`: the same node, the same
`pseudoHaving`, and the same AST up to the state of the identifier generator,
which has not gone back. -/
def sqlExprBuilder.SameContext (b d : sqlExprBuilder) : Prop :=
  d.node = b.node ∧ d.pseudoHaving = b.pseudoHaving ∧
    d.ast = { b.ast with nextIdentifier := d.ast.nextIdentifier } ∧
    b.ast.nextIdentifier ≤ d.ast.nextIdentifier

/-- The AST with the identifier generator set to state `k`. -/
def AST.withNextIdentifier (ast : AST) (k : Nat) : AST := { ast with nextIdentifier := k }

/-- The state of the identifier generator after `sqlForExpression` has compiled
`e` (the state it started from when the compilation fails). -/
def AST.nextIdentifierAfter (ast : AST) (e : Option Expression) (n : Option SelectNode)
    (pseudoHaving : Bool) : Nat :=
  match (sqlExprBuilder.start ast n pseudoHaving).writeExpression e with
  | .ok b => b.ast.nextIdentifier
  | .error _ => ast.nextIdentifier

/-- The results of compiling the expressions one after another on the same
AST: each one starts from the state of the identifier generator that the
compilation of the one before it has left. -/
def AST.sqlForExpressions (ast : AST) (n : Option SelectNode) (pseudoHaving : Bool) :
    List (Option Expression) → List GoResult
  | [] => []
  | e :: es =>
    ast.sqlForExpression e n pseudoHaving ::
      (ast.withNextIdentifier (ast.nextIdentifierAfter e n pseudoHaving)).sqlForExpressions n
        pseudoHaving es

/-- The comparison operators of `writeBinaryConditionInner` with the token
each one writes (lines 254 to 266). -/
def comparisonTokens : List (Operator × String) :=
  [(.Eq, " = "), (.Neq, " != "), (.Lt, " < "), (.Lte, " <= "), (.Gt, " > "), (.Gte, " >= ")]

/-- The operators that take exactly two operands as given: the six
comparisons and the two case-insensitive matches. -/
def plainBinaryOperators : List Operator :=
  [.Eq, .Neq, .Lt, .Lte, .Gt, .Gte, .Ilike, .Nilike]

/-- The query that `writeSubquery` hands to the outer query compiler (lines
78 to 92): the subquery's dimension, measures and filters in the time and
metrics-view context of the parent query. -/
def Subquery.innerQuery (sub : Subquery) (outer : Query) : Query :=
  { MetricsView := outer.MetricsView
    Dimensions := [sub.Dimension]
    Measures := sub.Measures
    PivotOn := []
    SortFields := []
    TimeRange := outer.TimeRange
    ComparisonTimeRange := outer.ComparisonTimeRange
    Where := sub.Where
    Having := sub.Having
    Limit := none
    Offset := none
    TimeZone := outer.TimeZone
    Label := false }

/-- The operand slice of a condition as the caller sees it after
`writeBinaryCondition` has run on it: line 158 stores the wrapped right
operand into the slice it was given (`In` and `Nin` with two operands and a
bare scalar on the right); line 166 only rebinds the local variable. -/
def sqlExprBuilder.storedOperands (op : Operator) (exprs : List (Option Expression)) :
    List (Option Expression) :=
  if op = .In ∨ op = .Nin then
    match exprs with
    | [left, some r] =>
      if r.Name = "" ∧ r.Value.asList.isNone ∧ r.Condition.isNone ∧ r.Subquery.isNone then
        [left, some (.mk "" (.list [r.Value]) none none)]
      else exprs
    | _ => exprs
  else exprs

/-- The tree `t2` is the tree `t1` normalized in place: it comes from `t1` by
stores of line 158 at conditions of the tree, any number of them and at any
depth. -/
inductive InPlaceNormalized : Option Expression → Option Expression → Prop where
  | refl (t : Option Expression) : InPlaceNormalized t t
  | store (n : String) (v : Val) (s : Option Subquery) (op : Operator)
      (exprs : List (Option Expression)) :
      InPlaceNormalized (some (.mk n v s (some (.mk op exprs))))
        (some (.mk n v s (some (.mk op (sqlExprBuilder.storedOperands op exprs)))))
  | operand (n : String) (v : Val) (s : Option Subquery) (op : Operator)
      (front back : List (Option Expression)) (x y : Option Expression) :
      InPlaceNormalized x y →
      InPlaceNormalized (some (.mk n v s (some (.mk op (front ++ x :: back)))))
        (some (.mk n v s (some (.mk op (front ++ y :: back)))))
  | trans (t1 t2 t3 : Option Expression) :
      InPlaceNormalized t1 t2 → InPlaceNormalized t2 t3 → InPlaceNormalized t1 t3

/-- Two operands that the compiler cannot tell apart: both nil or both
non-nil with the same Name, Value and Subquery, both with or both without a
Condition, and written alike by every builder. -/
structure Alike (x y : Option Expression) : Prop where
  nil : x = none ↔ y = none
  fields : ∀ ex ey, x = some ex → y = some ey →
    ex.Name = ey.Name ∧ ex.Value = ey.Value ∧ ex.Subquery = ey.Subquery ∧
      ex.Condition.isNone = ey.Condition.isNone
  write : ∀ b : sqlExprBuilder, b.writeExpression x = b.writeExpression y

/-- The result is not a success: an error was returned, or the call ended in
a run-time fault. -/
def GoResult.failed : GoResult → Bool
  | .returned _ _ none => false
  | _ => true

/-- What `sqlForExpression` makes of the outcome of the builder (lines 19 to
24). -/
def GoResult.ofExcept : Except Failure sqlExprBuilder → GoResult
  | .error (.error err) => .returned "" [] (some err)
  | .error .panic => .panicked
  | .ok b => .returned b.out b.args none

/-- The text of a list membership test with `k` placeholders in its
NULL-inclusive form, the left side being written as `l1` in front of the
keyword and as `l2` in the NULL clause. -/
def nullInclusiveMembershipSQL (l1 l2 : String) (k : Nat) (not hasNull : Bool) : String :=
  "(" ++ l1 ++ (if not then " NOT IN " else " IN ") ++ "(" ++ placeholders k ++ ")"
    ++ (if hasNull then
          if not then " AND " ++ l2 ++ " IS NOT NULL" else " OR " ++ l2 ++ " IS NULL"
        else " OR " ++ l2 ++ " IS NULL")
    ++ ")"

/-- The nesting depth after reading the characters `cs` from depth `k`, or
`none` when a `)` is met at depth zero. -/
def parenDepth : List Char → Nat → Option Nat
  | [], k => some k
  | c :: cs, k =>
    if c = '(' then parenDepth cs (k + 1)
    else if c = ')' then
      match k with
      | 0 => none
      | k + 1 => parenDepth cs k
    else parenDepth cs k

/-- A text is parenthesis-balanced: no prefix has more `)` than `(`, and the
totals are equal. -/
def Balanced (s : String) : Prop :=
  (∀ p, p <+: s.data → p.count ')' ≤ p.count '(') ∧ s.data.count '(' = s.data.count ')'

/-- The nesting depth at the end of the output written so far. -/
def sqlExprBuilder.level (b : sqlExprBuilder) : Option Nat := parenDepth b.out.data 0

/-- Every fragment that the compiler can copy into the output is
parenthesis-balanced: every resolved name fragment, and, for a name that
requires unnesting and an alias `identifierName k` of the identifier
generator, the lateral-unnest FROM clause of the dialect and the correlated
column reference `sqlForMember`. -/
def sqlExprBuilder.Tidy (b : sqlExprBuilder) : Prop :=
  (∀ name x u, b.sqlForName name = .ok (x, u) → Balanced x) ∧
  (∀ k name x fr ok, b.sqlForName name = .ok (x, true) →
    b.ast.dialect.LateralUnnest x (b.ast.identifierName k) name = .ok (fr, ok) →
    Balanced fr) ∧
  (∀ k name x, b.sqlForName name = .ok (x, true) →
    Balanced (b.ast.sqlForMember (b.ast.identifierName k) name))

/-- A builder method keeps the nesting depth of the output. -/
def sqlExprBuilder.Levelled (w : sqlExprBuilder → Except Failure sqlExprBuilder) : Prop :=
  ∀ b d, b.Tidy → w b = .ok d → d.Tidy ∧ d.level = b.level

/-- The expression populates at most one of Name, Value, Subquery and
Condition. -/
def Expression.populatesAtMostOne : Expression → Bool
  | .mk name value subquery condition =>
    decide ((if name ≠ "" then 1 else 0) + (if value.isNull then 0 else 1)
      + (if subquery.isSome then 1 else 0) + (if condition.isSome then 1 else 0) ≤ 1)

/-- The right operand of a two-operand list populates at most one field. -/
def rightPopulatesAtMostOne : List (Option Expression) → Bool
  | [_, some r] => r.populatesAtMostOne
  | _ => true

mutual
/-- Every In/Nin condition of the tree with exactly two operands has a right
operand that populates at most one of Name, Value, Subquery and Condition
(the Where and Having trees of a subquery are not part of the tree: the outer
query compiler compiles them). -/
def Expression.inWellFormed : Expression → Bool
  | .mk _ _ _ c => inWellFormedOptCondition c
def inWellFormedOptCondition : Option Condition → Bool
  | none => true
  | some c => c.inWellFormed
def Condition.inWellFormed : Condition → Bool
  | .mk op es =>
    (if op = .In ∨ op = .Nin then rightPopulatesAtMostOne es else true) && inWellFormedList es
def inWellFormedList : List (Option Expression) → Bool
  | [] => true
  | e :: es => inWellFormedOpt e && inWellFormedList es
def inWellFormedOpt : Option Expression → Bool
  | none => true
  | some e => e.inWellFormed
end

/-- A builder method never returns the error of line 376, "the right value
must be a list of values for an IN condition". -/
def sqlExprBuilder.NoListError (w : sqlExprBuilder → Except Failure sqlExprBuilder) : Prop :=
  ∀ b, w b ≠ .error (.error .inRightNotList)

/-! ## The builder methods with the tree of the caller followed through the calls -/

/-- What a call of a builder method leaves behind when the expression objects
it is given are followed through the call: the builder or the failure
(`none` when the bound on the nesting of calls was reached), the objects as
they stand after the call, and the conditions on which `writeBinaryCondition`
has run, each as the list of operand indexes that leads to it. -/
structure Tracked (τ : Type) where
  result : Option (Except Failure sqlExprBuilder)
  tree : τ
  visited : List (List Nat)

namespace Tracked

/-- The method returns nil with the builder `b`. -/
def ok {τ : Type} (b : sqlExprBuilder) (t : τ) : Tracked τ := ⟨some (.ok b), t, []⟩

/-- The method fails before it touches an object. -/
def fail {τ : Type} (f : Failure) (t : τ) : Tracked τ := ⟨some (.error f), t, []⟩

/-- The statements `k` run after the call `x` when it has returned nil. -/
def andThen {τ : Type} (x : Tracked τ) (k : sqlExprBuilder → τ → Tracked τ) : Tracked τ :=
  match x.result with
  | some (.ok b) => ⟨(k b x.tree).result, (k b x.tree).tree, x.visited ++ (k b x.tree).visited⟩
  | _ => x

/-- The same call seen from an object that holds the objects of the call. -/
def mapTree {τ σ : Type} (x : Tracked τ) (f : τ → σ) : Tracked σ :=
  ⟨x.result, f x.tree, x.visited⟩

/-- A call on the left operand, seen from the pair of operands. -/
def asLeft (x : Tracked (Option Expression)) (right : Option Expression) :
    Tracked (Option Expression × Option Expression) :=
  ⟨x.result, (x.tree, right), x.visited.map (List.cons 0)⟩

/-- A call on the right operand, seen from the pair of operands. -/
def asRight (x : Tracked (Option Expression)) (left : Option Expression) :
    Tracked (Option Expression × Option Expression) :=
  ⟨x.result, (left, x.tree), x.visited.map (List.cons 1)⟩

end Tracked

/-- The function `f` applied to the element `i` of a list. -/
def modifyAt {α : Type} (f : α → α) : Nat → List α → List α
  | _, [] => []
  | 0, x :: xs => f x :: xs
  | i + 1, x :: xs => x :: modifyAt f i xs

/-- The store of line 158 made at the condition that the path `p` of operand
indexes leads to: its operand slice becomes `storedOperands`. -/
def storeAt : List Nat → Option Expression → Option Expression
  | [], some (.mk n v s (some (.mk op es))) =>
    some (.mk n v s (some (.mk op (sqlExprBuilder.storedOperands op es))))
  | i :: q, some (.mk n v s (some (.mk op es))) =>
    some (.mk n v s (some (.mk op (modifyAt (storeAt q) i es))))
  | _, e => e

/-- The tree after the stores of line 158 at the conditions `ps`, one after
another. -/
def applyStores (ps : List (List Nat)) (e : Option Expression) : Option Expression :=
  ps.foldl (fun t p => storeAt p t) e

/-- The path `p` of operand indexes leads to a condition of the tree. -/
def hasConditionAt : List Nat → Option Expression → Bool
  | [], some (.mk _ _ _ (some _)) => true
  | i :: q, some (.mk _ _ _ (some (.mk _ es))) =>
    match es[i]? with
    | some e => hasConditionAt q e
    | none => false
  | _, _ => false

namespace tracked

/-- The call `b.writeExpression(left)`, or the left override in parentheses:
the `if leftOverride != ""` of lines 279, 303, 353, 382, 428, 461 and 480. -/
def writeLeft (w : sqlExprBuilder → Option Expression → Tracked (Option Expression))
    (b : sqlExprBuilder) (left : Option Expression) (leftOverride : String) :
    Tracked (Option Expression) :=
  if leftOverride ≠ "" then .ok (b.writeParenthesizedString leftOverride) left
  else w b left

/-- The method `writeInConditionForValues` with the left operand followed
through its calls of `writeExpression`, which is `w`. -/
def writeInConditionForValues
    (w : sqlExprBuilder → Option Expression → Tracked (Option Expression))
    (b : sqlExprBuilder) (left : Option Expression) (leftOverride : String)
    (vals : List Val) (not : Bool) : Tracked (Option Expression) :=
  let hasNull := sqlExprBuilder.hasNull vals
  if vals.length = 0 then
    if not then .ok (b.writeString "TRUE") left else .ok (b.writeString "FALSE") left
  else
    let wrapParens := not || hasNull
    let b := if wrapParens then b.writeByte '(' else b
    (writeLeft w b left leftOverride).andThen fun b left =>
      let b := if not then b.writeString " NOT IN " else b.writeString " IN "
      let b := b.writeByte '('
      let b := b.writePlaceholders 0 vals.length
      let b := b.writeByte ')'
      let b := b.appendArgs vals
      (if hasNull then
          let b := if not then b.writeString " AND " else b.writeString " OR "
          (writeLeft w b left leftOverride).andThen fun b left =>
            .ok (if not then b.writeString " IS NOT NULL" else b.writeString " IS NULL") left
        else .ok b left).andThen fun b left =>
      (if not && !hasNull then
          let b := b.writeString " OR "
          (writeLeft w b left leftOverride).andThen fun b left =>
            .ok (b.writeString " IS NULL") left
        else .ok b left).andThen fun b left =>
      .ok (if wrapParens then b.writeByte ')' else b) left

/-- The method `writeInCondition` with both operands followed. -/
def writeInCondition (w : sqlExprBuilder → Option Expression → Tracked (Option Expression))
    (b : sqlExprBuilder) (left right : Option Expression) (leftOverride : String)
    (not : Bool) : Tracked (Option Expression × Option Expression) :=
  match right with
  | none => .fail .panic (left, right)
  | some r =>
    if !r.Value.isNull then
      match r.Value.asList with
      | none => .fail (.error .inRightNotList) (left, right)
      | some vals => (writeInConditionForValues w b left leftOverride vals not).asLeft right
    else
      ((writeLeft w b left leftOverride).asLeft right).andThen fun b ops =>
        let b := if not then b.writeString " NOT IN " else b.writeString " IN "
        (w b ops.2).asRight ops.1

/-- The method `writeILikeCondition` with both operands followed. -/
def writeILikeCondition (w : sqlExprBuilder → Option Expression → Tracked (Option Expression))
    (b : sqlExprBuilder) (left right : Option Expression) (leftOverride : String)
    (not : Bool) : Tracked (Option Expression × Option Expression) :=
  let b := if not then b.writeByte '(' else b
  (if b.ast.dialect.SupportsILike then
      ((writeLeft w b left leftOverride).asLeft right).andThen fun b ops =>
        let b := if not then b.writeString " NOT ILIKE " else b.writeString " ILIKE "
        (w b ops.2).asRight ops.1
    else
      let b := b.writeString "LOWER("
      ((if leftOverride ≠ "" then Tracked.ok (b.writeString leftOverride) left
        else w b left).asLeft right).andThen fun b ops =>
        let b := b.writeString ")"
        let b := if not then b.writeString " NOT ILIKE " else b.writeString " ILIKE "
        let b := b.writeString "LOWER("
        ((w b ops.2).asRight ops.1).andThen fun b ops =>
          .ok (b.writeString ")") ops).andThen fun b ops =>
  (if not then
      let b := b.writeString " OR "
      ((writeLeft w b ops.1 leftOverride).asLeft ops.2).andThen fun b ops =>
        .ok (b.writeString " IS NULL") ops
    else .ok b ops).andThen fun b ops =>
  .ok (if not then b.writeByte ')' else b) ops

/-- The method `writeBinaryConditionInner` with both operands followed. -/
def writeBinaryConditionInner
    (w : sqlExprBuilder → Option Expression → Tracked (Option Expression))
    (b : sqlExprBuilder) (left right : Option Expression) (leftOverride : String)
    (op : Operator) : Tracked (Option Expression × Option Expression) :=
  match op with
  | .Ilike => writeILikeCondition w b left right leftOverride false
  | .Nilike => writeILikeCondition w b left right leftOverride true
  | .In => writeInCondition w b left right leftOverride false
  | .Nin => writeInCondition w b left right leftOverride true
  | op =>
    let joiner : Option String :=
      match op with
      | .Eq => some " = "
      | .Neq => some " != "
      | .Lt => some " < "
      | .Lte => some " <= "
      | .Gt => some " > "
      | .Gte => some " >= "
      | _ => none
    match joiner with
    | none => .fail (.error (.invalidBinaryOperator op)) (left, right)
    | some joiner =>
      ((writeLeft w b left leftOverride).asLeft right).andThen fun b ops =>
        let b := b.writeString joiner
        (w b ops.2).asRight ops.1

/-- The operand slice of the caller after `writeBinaryConditionInner` has
run on `left` and `right`: `stored` is the slice after the
backwards-compatibility block; `shared` tells that the local slice still is
the slice of the caller (it is a new slice after line 166), so that `right` is
its element 1; `leftPassed` tells that `left` is its element 0 (with a left
override `nil` is passed).  The condition itself is visited. -/
def toCaller (stored : List (Option Expression)) (shared leftPassed : Bool)
    (t : Tracked (Option Expression × Option Expression)) :
    Tracked (List (Option Expression)) :=
  ⟨t.result,
    (match stored with
     | x :: y :: rest =>
       (if leftPassed then t.tree.1 else x) :: (if shared then t.tree.2 else y) :: rest
     | es => es),
    [] :: t.visited⟩

/-- The method `writeBinaryCondition` with the operand slice it is given
followed: line 158 stores into that slice, and the operands are mutated by
the calls of `writeExpression` on them. -/
def writeBinaryCondition (w : sqlExprBuilder → Option Expression → Tracked (Option Expression))
    (b : sqlExprBuilder) (exprs : List (Option Expression)) (op : Operator) :
    Tracked (List (Option Expression)) :=
  match sqlExprBuilder.legacyInOperands exprs op with
  | .error f => ⟨some (.error f), exprs, [[]]⟩
  | .ok [left, right] =>
    let stored := sqlExprBuilder.storedOperands op exprs
    let shared : Bool := exprs.length = 2
    match left with
    | none => ⟨some (.error (.error .leftNil)), stored, [[]]⟩
    | some l =>
      match right with
      | none => ⟨some (.error (.error .rightNil)), stored, [[]]⟩
      | some r =>
        match (if r.Name ≠ "" then do
            let res ← sqlExprBuilder.returned (b.sqlForName r.Name)
            if res.2 then .error (.error (.unnestOnRight r.Name)) else .ok ()
          else .ok () : Except Failure Unit) with
        | .error f => ⟨some (.error f), stored, [[]]⟩
        | .ok _ =>
          if l.Name ≠ "" then
            match sqlExprBuilder.returned (b.sqlForName l.Name) with
            | .error f => ⟨some (.error f), stored, [[]]⟩
            | .ok res =>
              let leftExpr := res.1
              if !res.2 then
                toCaller stored shared false
                  (writeBinaryConditionInner w b none (some r) leftExpr op)
              else
                let unnestTableAlias := b.generateIdentifier.1
                let b := b.generateIdentifier.2
                match sqlExprBuilder.returned
                  ((b.ast.dialect.LateralUnnest leftExpr unnestTableAlias l.Name).mapError
                    Err.lateralUnnest) with
                | .error f => ⟨some (.error f), stored, [[]]⟩
                | .ok lat =>
                  let unnestFrom := lat.1
                  if !lat.2 then
                    toCaller stored shared false
                      (writeBinaryConditionInner w b none (some r) leftExpr op)
                  else
                    let unnestColAlias := b.ast.sqlForMember unnestTableAlias l.Name
                    let opNot := sqlExprBuilder.hoistNot op
                    let b := if opNot.2 then b.writeString "NOT " else b
                    let b := b.writeString "EXISTS (SELECT 1 FROM "
                    let b := b.writeString unnestFrom
                    let b := b.writeString " WHERE "
                    toCaller stored shared false
                      ((writeBinaryConditionInner w b none (some r) unnestColAlias
                          opNot.1).andThen fun b ops => .ok (b.writeString ")") ops)
          else
            toCaller stored shared true
              (writeBinaryConditionInner w b (some l) (some r) "" op)
  | .ok _ => ⟨some (.error (.error .binaryArity)), sqlExprBuilder.storedOperands op exprs, [[]]⟩

/-- The loop `for i, e := range exprs` of `writeJoinedExpressions` with the
operands followed; `i` is the index of the first expression of the list. -/
def writeJoinedLoop (w : sqlExprBuilder → Option Expression → Tracked (Option Expression))
    (b : sqlExprBuilder) (exprs : List (Option Expression)) (joiner : String) (i : Nat) :
    Tracked (List (Option Expression)) :=
  match exprs with
  | [] => .ok b []
  | e :: rest =>
    let b := if i > 0 then b.writeString joiner else b
    let t := w b e
    match t.result with
    | some (.ok b) =>
      let u := writeJoinedLoop w b rest joiner (i + 1)
      ⟨u.result, t.tree :: u.tree, t.visited.map (List.cons i) ++ u.visited⟩
    | _ => ⟨t.result, t.tree :: rest, t.visited.map (List.cons i)⟩

/-- The method `writeJoinedExpressions` with the operand slice followed. -/
def writeJoinedExpressions
    (w : sqlExprBuilder → Option Expression → Tracked (Option Expression))
    (b : sqlExprBuilder) (exprs : List (Option Expression)) (joiner : String) :
    Tracked (List (Option Expression)) :=
  if exprs.length = 0 then .ok b exprs
  else
    let b := b.writeByte '('
    (writeJoinedLoop w b exprs joiner 0).andThen fun b es => .ok (b.writeByte ')') es

/-- The method `writeCondition` with the condition followed. -/
def writeCondition (w : sqlExprBuilder → Option Expression → Tracked (Option Expression))
    (b : sqlExprBuilder) : Condition → Tracked Condition
  | .mk op exprs =>
    match op with
    | .Or => (writeJoinedExpressions w b exprs " OR ").mapTree (Condition.mk op)
    | .And => (writeJoinedExpressions w b exprs " AND ").mapTree (Condition.mk op)
    | op =>
      if !op.Valid then .fail (.error (.invalidOperator op)) (.mk op exprs)
      else (writeBinaryCondition w b exprs op).mapTree (Condition.mk op)

/-- The method `writeExpression` with the expression followed; the first
argument bounds the nesting of the calls of `writeExpression`.  A name, a value
and a subquery are written as by the untracked method: the Where and Having
trees of a subquery go to the outer query compiler, which this module only
sees as the function `NewAST` of the context. -/
def writeExpression : Nat → sqlExprBuilder → Option Expression → Tracked (Option Expression)
  | _, b, none => .ok b none
  | 0, _, some e => ⟨none, some e, []⟩
  | fuel + 1, b, some (.mk name value subquery condition) =>
    if name ≠ "" then ⟨some (b.writeName name), some (.mk name value subquery condition), []⟩
    else if !value.isNull then
      ⟨some (b.writeValue value), some (.mk name value subquery condition), []⟩
    else
      match subquery with
      | some sub =>
        ⟨some (b.writeSubquery sub), some (.mk name value subquery condition), []⟩
      | none =>
        match condition with
        | some cond =>
          (writeCondition (writeExpression fuel) b cond).mapTree
            fun c => some (.mk name value none (some c))
        | none => .fail (.error .invalidExpression) (some (.mk name value none none))

end tracked

/-- The call `ast.sqlForExpression(e, n, pseudoHaving)` with the tree `e` of
the caller followed through the call. -/
def AST.sqlForExpressionTracked (ast : AST) (e : Option Expression) (n : Option SelectNode)
    (pseudoHaving : Bool) : Tracked (Option Expression) :=
  tracked.writeExpression (rankOpt e) (sqlExprBuilder.start ast n pseudoHaving) e

/-- The store at the path `p` seen from the pair of operands of
`writeBinaryConditionInner`: the left operand is operand 0, the right one is
operand 1. -/
def storeAtPair :
    List Nat → Option Expression × Option Expression → Option Expression × Option Expression
  | 0 :: q, (l, r) => (storeAt q l, r)
  | 1 :: q, (l, r) => (l, storeAt q r)
  | _, ops => ops

/-- The path leads to a condition, seen from the pair of operands. -/
def hasConditionAtPair : List Nat → Option Expression × Option Expression → Bool
  | 0 :: q, (l, _) => hasConditionAt q l
  | 1 :: q, (_, r) => hasConditionAt q r
  | _, _ => false

/-- The objects after the call are the objects `x` before the call with the
stores `act` of line 158 made at the visited conditions, one after another,
and every visited path leads to a condition of `x`. -/
def Tracked.Sound {τ : Type} (act : List Nat → τ → τ) (valid : List Nat → τ → Bool) (x : τ)
    (t : Tracked τ) : Prop :=
  t.tree = t.visited.foldl (fun s p => act p s) x ∧ ∀ p ∈ t.visited, valid p x = true

/-! ## An example context

A metrics view with the projected dimensions `country` and `status`, the
array-valued catalog dimension `tags`, and a dialect with native ILIKE that
unnests with a lateral join. -/

def demoDialect : Dialect :=
  { EscapeIdentifier := fun s => "\"" ++ s ++ "\""
    SupportsILike := true
    LateralUnnest := fun e a _ => .ok ("LATERAL UNNEST(" ++ e ++ ") " ++ a, true)
    MetricsViewDimensionExpression := fun d => d.Expression }

def demoQuery : Query :=
  { MetricsView := "mv", Dimensions := [⟨"country"⟩, ⟨"status"⟩], Measures := [], PivotOn := [],
    SortFields := [], TimeRange := none, ComparisonTimeRange := none, Where := none,
    Having := none, Limit := none, Offset := none, TimeZone := "UTC", Label := false }

def demoAST : AST :=
  { query := demoQuery
    dialect := demoDialect
    dimFields :=
      [{ Name := "country", Expr := "t.country", Unnest := false, UnnestAlias := "" },
       { Name := "status", Expr := "status", Unnest := false, UnnestAlias := "" }]
    sqlForMember := fun tbl name => tbl ++ "." ++ name
    lookupDimension := fun name _ =>
      if name = "tags" then
        .ok { Name := "tags", Column := "tags", Expression := "tags", Unnest := true }
      else .error "dimension not found"
    NewAST := fun _ => .error "no subqueries in the example"
    identifierName := fun k => String.mk (List.replicate (k + 1) 't')
    nextIdentifier := 0 }

/-- An example select node: a wrapped SELECT with the dimension `country` and
the measure `revenue`. -/
def demoNode : SelectNode :=
  { DimFields := [{ Name := "country", Expr := "country", Unnest := false, UnnestAlias := "" }]
    MeasureFields := [{ Name := "revenue", Expr := "revenue" }] }

/-- The example context with a dialect that has no native ILIKE. -/
def demoFallbackAST : AST :=
  { demoAST with dialect := { demoDialect with SupportsILike := false } }

/-- The condition `tags = v` of the example context. -/
def demoTagsEq (v : Val) : Expression :=
  .ofCondition .Eq [some (.ofName "tags"), some (.ofValue v)]

/-- The text that `tags = v` compiles to in the example context when the
unnest alias is `a`. -/
def demoTagsEqSQL (a : String) : String :=
  "EXISTS (SELECT 1 FROM LATERAL UNNEST(tags) " ++ a ++ " WHERE (" ++ a ++ ".tags) = ?)"

/-- The example context with an outer query compiler that answers every
subquery with a fixed SELECT over the metrics view and one parameter. -/
def demoSubqueryAST : AST :=
  { demoAST with
    NewAST := fun q => .ok { SQL := .ok ("SELECT country FROM " ++ q.MetricsView, [.int 1]) } }

/-- A subquery on the dimension `country`. -/
def demoSubquery : Subquery := .mk ⟨"country"⟩ [] none none

section ExceptLemmas
variable {ε α β : Type}

@[simp] theorem bind_ok_eq (a : α) (k : α → Except ε β) : (Except.ok a >>= k) = k a := rfl

@[simp] theorem bind_error_eq (e : ε) (k : α → Except ε β) :
    ((Except.error e : Except ε α) >>= k) = Except.error e := rfl

@[simp] theorem map_ok_eq (f : α → β) (a : α) :
    Except.map f (Except.ok a : Except ε α) = Except.ok (f a) := rfl

@[simp] theorem map_error_eq (f : α → β) (e : ε) :
    Except.map f (Except.error e : Except ε α) = Except.error e := rfl

theorem map_bind_eq {γ : Type} (f : β → γ) (x : Except ε α) (k : α → Except ε β) :
    Except.map f (x >>= k) = x >>= fun d => Except.map f (k d) := by
  cases x <;> rfl

theorem bind_map_eq {γ : Type} (f : α → β) (x : Except ε α) (k : β → Except ε γ) :
    (Except.map f x >>= k) = x >>= fun d => k (f d) := by
  cases x <;> rfl

theorem map_ite_eq (f : α → β) (c : Prop) [Decidable c] (x y : Except ε α) :
    Except.map f (if c then x else y) = if c then Except.map f x else Except.map f y := by
  split <;> rfl

end ExceptLemmas

namespace sqlExprBuilder

/-! ## Prefix independence of the builder methods -/

theorem push_append (o s : String) (c : Char) : (o ++ s).push c = o ++ s.push c := by
  simp [String.ext_iff, String.data_append, String.data_push]

@[simp] theorem prepend_ast (o a) (b : sqlExprBuilder) : (prepend o a b).ast = b.ast := rfl
@[simp] theorem prepend_node (o a) (b : sqlExprBuilder) : (prepend o a b).node = b.node := rfl
@[simp] theorem prepend_pseudoHaving (o a) (b : sqlExprBuilder) :
    (prepend o a b).pseudoHaving = b.pseudoHaving := rfl

@[simp] theorem writeByte_ast (b : sqlExprBuilder) (c : Char) : (b.writeByte c).ast = b.ast := rfl
@[simp] theorem writeString_ast (b : sqlExprBuilder) (s : String) :
    (b.writeString s).ast = b.ast := rfl
@[simp] theorem writeParenthesizedString_ast (b : sqlExprBuilder) (s : String) :
    (b.writeParenthesizedString s).ast = b.ast := rfl
@[simp] theorem appendArgs_ast (b : sqlExprBuilder) (vals : List Val) :
    (b.appendArgs vals).ast = b.ast := rfl

@[simp] theorem writeString_prepend (o a) (b : sqlExprBuilder) (s : String) :
    (prepend o a b).writeString s = prepend o a (b.writeString s) := by
  simp [prepend, writeString, String.append_assoc]

@[simp] theorem writeByte_prepend (o a) (b : sqlExprBuilder) (c : Char) :
    (prepend o a b).writeByte c = prepend o a (b.writeByte c) := by
  simp [prepend, writeByte, push_append]

@[simp] theorem writeParenthesizedString_prepend (o a) (b : sqlExprBuilder) (s : String) :
    (prepend o a b).writeParenthesizedString s = prepend o a (b.writeParenthesizedString s) := by
  simp [prepend, writeParenthesizedString, push_append, String.append_assoc]

@[simp] theorem appendArgs_prepend (o a) (b : sqlExprBuilder) (vals : List Val) :
    (prepend o a b).appendArgs vals = prepend o a (b.appendArgs vals) := by
  simp [prepend, appendArgs]

@[simp] theorem generateIdentifier_prepend_fst (o a) (b : sqlExprBuilder) :
    (prepend o a b).generateIdentifier.1 = b.generateIdentifier.1 := rfl

@[simp] theorem generateIdentifier_prepend_snd (o a) (b : sqlExprBuilder) :
    (prepend o a b).generateIdentifier.2 = prepend o a b.generateIdentifier.2 := rfl

@[simp] theorem sqlForName_prepend (o a) (b : sqlExprBuilder) (name : String) :
    (prepend o a b).sqlForName name = b.sqlForName name := rfl

@[simp] theorem writePlaceholders_prepend (o a) (b : sqlExprBuilder) (i n : Nat) :
    (prepend o a b).writePlaceholders i n = prepend o a (b.writePlaceholders i n) := by
  induction n generalizing b i with
  | zero => rfl
  | succ n ih => 
    simp only [writePlaceholders]
    split <;> simp [ih]

@[simp] theorem ite_prepend (c : Prop) [Decidable c] (o a) (x y : sqlExprBuilder) :
    (if c then prepend o a x else prepend o a y) = prepend o a (if c then x else y) := by
  split <;> rfl

theorem shift_writeName (name : String) : Shift (fun b => b.writeName name) := by
  intro o a b
  simp only [writeName, sqlForName_prepend, map_bind_eq, map_ite_eq, map_ok_eq, map_error_eq,
    writeParenthesizedString_prepend]

theorem shift_writeValue (v : Val) : Shift (fun b => b.writeValue v) := by
  intro o a b
  simp [writeValue]

theorem shift_writeSubquery (sub : Subquery) : Shift (fun b => b.writeSubquery sub) := by
  intro o a b
  simp only [writeSubquery, prepend_ast]
  split
  · rfl
  · split
    · rfl
    · simp

theorem shift_writeInConditionForValues (left : Option Expression) (lo : String)
    (vals : List Val) (not : Bool) (hl : Shift (fun b => b.writeExpression left)) :
    Shift (fun b => b.writeInConditionForValues left lo vals not) := by
  intro o a b
  have hl2 : ∀ o a b, writeExpression (prepend o a b) left
      = Except.map (prepend o a) (writeExpression b left) := hl
  cases not <;> cases hN : hasNull vals <;> by_cases hlo : lo = "" <;>
    by_cases hv : vals.length = 0 <;>
    simp [writeInConditionForValues, hN, hlo, hv, hl2, map_bind_eq, bind_map_eq]

theorem shift_writeInCondition (left right : Option Expression) (lo : String) (not : Bool)
    (hl : Shift (fun b => b.writeExpression left)) (hr : Shift (fun b => b.writeExpression right)) :
    Shift (fun b => b.writeInCondition left right lo not) := by
  intro o a b
  have hl2 : ∀ o a b, writeExpression (prepend o a b) left
      = Except.map (prepend o a) (writeExpression b left) := hl
  cases right with
  | none => simp [writeInCondition]
  | some r =>
    have hr2 : ∀ o a b, writeExpression (prepend o a b) (some r)
        = Except.map (prepend o a) (writeExpression b (some r)) := hr
    simp only [writeInCondition]
    split
    · split
      · rfl
      · exact shift_writeInConditionForValues left lo _ not hl o a b
    · cases not <;> by_cases hlo : lo = "" <;> simp [hlo, hl2, hr2, map_bind_eq, bind_map_eq]

theorem shift_writeILikeCondition (left right : Option Expression) (lo : String) (not : Bool)
    (hl : Shift (fun b => b.writeExpression left)) (hr : Shift (fun b => b.writeExpression right)) :
    Shift (fun b => b.writeILikeCondition left right lo not) := by
  intro o a b
  have hl2 : ∀ o a b, writeExpression (prepend o a b) left
      = Except.map (prepend o a) (writeExpression b left) := hl
  have hr2 : ∀ o a b, writeExpression (prepend o a b) right
      = Except.map (prepend o a) (writeExpression b right) := hr
  cases not <;> cases hs : b.ast.dialect.SupportsILike <;> by_cases hlo : lo = "" <;>
    simp [writeILikeCondition, hs, hlo, hl2, hr2, map_bind_eq, bind_map_eq]

theorem shift_writeBinaryConditionInner (left right : Option Expression) (lo : String)
    (op : Operator)
    (hl : Shift (fun b => b.writeExpression left)) (hr : Shift (fun b => b.writeExpression right)) :
    Shift (fun b => b.writeBinaryConditionInner left right lo op) := by
  intro o a b
  have hl2 : ∀ o a b, writeExpression (prepend o a b) left
      = Except.map (prepend o a) (writeExpression b left) := hl
  have hr2 : ∀ o a b, writeExpression (prepend o a b) right
      = Except.map (prepend o a) (writeExpression b right) := hr
  have hI := shift_writeILikeCondition left right lo
  have hN := shift_writeInCondition left right lo
  cases op <;> simp only [writeBinaryConditionInner] <;>
    first
    | exact hI _ hl hr o a b
    | exact hN _ hl hr o a b
    | (by_cases hlo : lo = "" <;> simp [hlo, hl2, hr2, map_bind_eq, bind_map_eq])

end sqlExprBuilder

theorem rankOpt_lt_rankList (e : Option Expression) (es : List (Option Expression))
    (h : e ∈ es) : rankOpt e < rankList es := by
  induction es with
  | nil => simp at h
  | cons x xs ih =>
    simp only [rankList]
    rcases List.mem_cons.mp h with h1 | h1
    · subst h1
      omega
    · have := ih h1
      omega

/-- Induction over expression trees: a property of expression pointers holds
everywhere when it holds of nil, of every expression without condition, and
of every expression with a condition whose operands all have it. -/
theorem expression_induction (P : Option Expression → Prop) (hnil : P none)
    (hleaf : ∀ n v s, P (some (.mk n v s none)))
    (hcond : ∀ n v s op es, (∀ e ∈ es, P e) → P (some (.mk n v s (some (.mk op es))))) :
    ∀ e, P e := by
  have key : ∀ k e, rankOpt e ≤ k → P e := by
    intro k
    induction k with
    | zero =>
      intro e he
      cases e with
      | none => exact hnil
      | some x =>
        have := x.rank_pos
        simp [rankOpt] at he
        omega
    | succ k ih =>
      intro e he
      cases e with
      | none => exact hnil
      | some x =>
        cases x with
        | mk n v s c =>
          cases c with
          | none => exact hleaf n v s
          | some c =>
            cases c with
            | mk op es =>
              apply hcond
              intro e hmem
              apply ih
              have := rankOpt_lt_rankList e es hmem
              simp [rankOpt, Expression.rank, rankOptCondition, Condition.rank] at he
              omega
  intro e
  exact key _ e (le_refl _)

namespace sqlExprBuilder

/-- Every operand left by the backwards-compatibility block is an operand of
the condition or an expression without condition. -/
theorem legacyInOperands_forall (P : Option Expression → Prop)
    (hleaf : ∀ vals, P (some (.mk "" (.list vals) none none)))
    (exprs exprs2 : List (Option Expression)) (op : Operator)
    (h : ∀ e ∈ exprs, P e) (hn : legacyInOperands exprs op = .ok exprs2) :
    ∀ e ∈ exprs2, P e := by
  unfold legacyInOperands at hn
  split at hn
  · split at hn
    · split at hn
      · simp at hn
      · split at hn
        · simp at hn
          subst hn
          intro e he
          simp at he
          rcases he with he | he
          · subst he
            exact h _ (by simp)
          · subst he
            exact hleaf _
        · simp at hn
          subst hn
          exact h
    · split at hn
      · simp at hn
      · simp at hn
        subst hn
        intro e he
        simp at he
        rcases he with he | he
        · subst he
          exact h _ (by simp)
        · subst he
          exact hleaf _
    · simp at hn
      subst hn
      exact h
  · simp at hn
    subst hn
    exact h

theorem shift_leaf (n : String) (v : Val) (s : Option Subquery) :
    Shift (fun b => b.writeExpression (some (.mk n v s none))) := by
  intro o a b
  cases s with
  | none =>
    simp only [writeExpression]
    split
    · exact shift_writeName n o a b
    · split
      · exact shift_writeValue v o a b
      · rfl
  | some sub =>
    simp only [writeExpression]
    split
    · exact shift_writeName n o a b
    · split
      · exact shift_writeValue v o a b
      · exact shift_writeSubquery _ o a b

theorem shift_writeBinaryCondition (exprs : List (Option Expression)) (op : Operator)
    (h : ∀ e ∈ exprs, Shift (fun b => b.writeExpression e)) :
    Shift (fun b => b.writeBinaryCondition exprs op) := by
  intro o a b
  simp only [writeBinaryCondition]
  split
  · rfl
  · rename_i left right hn
    have h2 := legacyInOperands_forall (fun e => Shift (fun b => b.writeExpression e))
      (fun vals => shift_leaf "" (.list vals) none) exprs _ op h hn
    have hnil : Shift (fun b => b.writeExpression none) := fun o a b => by
      simp [writeExpression]
    cases left with
    | none => rfl
    | some l =>
      cases right with
      | none => rfl
      | some r =>
        have hl := h2 (some l) (by simp)
        have hr := h2 (some r) (by simp)
        have i1 := fun lo op => shift_writeBinaryConditionInner none (some r) lo op hnil hr
        have i2 := fun lo op => shift_writeBinaryConditionInner (some l) (some r) lo op hl hr
        have i1b : ∀ lo op o a b, writeBinaryConditionInner (prepend o a b) none (some r) lo op
          = Except.map (prepend o a) (writeBinaryConditionInner b none (some r) lo op) :=
          fun lo op o a b => i1 lo op o a b
        have i2b : ∀ lo op o a b, writeBinaryConditionInner (prepend o a b) (some l) (some r) lo op
          = Except.map (prepend o a) (writeBinaryConditionInner b (some l) (some r) lo op) :=
          fun lo op o a b => i2 lo op o a b
        simp only [sqlForName_prepend, map_bind_eq, bind_map_eq, map_ite_eq, i1b, i2b,
          generateIdentifier_prepend_fst, generateIdentifier_prepend_snd, prepend_ast,
          writeString_prepend, ite_prepend, map_ok_eq, map_error_eq]
  · rfl

theorem shift_writeJoinedLoop (exprs : List (Option Expression)) (joiner : String)
    (h : ∀ e ∈ exprs, Shift (fun b => b.writeExpression e)) (i : Nat) :
    Shift (fun b => b.writeJoinedLoop exprs joiner i) := by
  induction exprs generalizing i with
  | nil =>
    intro o a b
    simp [writeJoinedLoop]
  | cons e rest ih =>
    intro o a b
    have he : ∀ o a b, writeExpression (prepend o a b) e
        = Except.map (prepend o a) (writeExpression b e) := h e (by simp)
    have hrest : ∀ i o a b, writeJoinedLoop (prepend o a b) rest joiner i
        = Except.map (prepend o a) (writeJoinedLoop b rest joiner i) :=
      fun i => ih (fun x hx => h x (by simp [hx])) i
    by_cases hi : i > 0 <;> simp [writeJoinedLoop, hi, he, hrest, map_bind_eq, bind_map_eq]

theorem shift_writeJoinedExpressions (exprs : List (Option Expression)) (joiner : String)
    (h : ∀ e ∈ exprs, Shift (fun b => b.writeExpression e)) :
    Shift (fun b => b.writeJoinedExpressions exprs joiner) := by
  intro o a b
  have hloop : ∀ o a b, writeJoinedLoop (prepend o a b) exprs joiner 0
      = Except.map (prepend o a) (writeJoinedLoop b exprs joiner 0) :=
    shift_writeJoinedLoop exprs joiner h 0
  by_cases hlen : exprs.length = 0 <;>
    simp [writeJoinedExpressions, hlen, hloop, map_bind_eq, bind_map_eq]

theorem shift_writeCondition (op : Operator) (exprs : List (Option Expression))
    (h : ∀ e ∈ exprs, Shift (fun b => b.writeExpression e)) :
    Shift (fun b => b.writeCondition (.mk op exprs)) := by
  intro o a b
  have hj := fun j => shift_writeJoinedExpressions exprs j h o a b
  have hb := shift_writeBinaryCondition exprs op h o a b
  cases op <;> simp only [writeCondition] <;>
    first
    | exact hj _
    | exact hb
    | simp [Operator.Valid, hb]

/-- Prefix independence of `writeExpression`: what is written, and whether
writing fails, does not depend on the output and parameters accumulated
before. -/
theorem shift_writeExpression (e : Option Expression) :
    Shift (fun b => b.writeExpression e) := by
  refine expression_induction (fun e => Shift (fun b => b.writeExpression e)) ?_ ?_ ?_ e
  · intro o a b
    simp [writeExpression]
  · exact shift_leaf
  · intro n v s op es ih o a b
    cases s with
    | some sub =>
      simp only [writeExpression]
      split
      · exact shift_writeName n o a b
      · split
        · exact shift_writeValue v o a b
        · exact shift_writeSubquery _ o a b
    | none =>
      simp only [writeExpression]
      split
      · exact shift_writeName n o a b
      · split
        · exact shift_writeValue v o a b
        · exact shift_writeCondition op es ih o a b

end sqlExprBuilder

/-! ## Placeholders and parameters stay aligned -/

theorem bind_eq_ok {ε α β : Type} (x : Except ε α) (k : α → Except ε β) (r : β) :
    (x >>= k) = Except.ok r ↔ ∃ d, x = Except.ok d ∧ k d = Except.ok r := by
  cases x with
  | error e => simp
  | ok d => simp

namespace sqlExprBuilder


theorem countPlaceholders_append (s t : String) :
    countPlaceholders (s ++ t) = countPlaceholders s + countPlaceholders t := by
  simp [countPlaceholders, String.data_append]

theorem countPlaceholders_push (s : String) (c : Char) :
    countPlaceholders (s.push c) = countPlaceholders s + (if c = '?' then 1 else 0) := by
  by_cases hc : c = '?'
  · subst hc
    simp [countPlaceholders, String.data_push]
  · have : ¬ ('?' = c) := fun h => hc h.symm
    simp [countPlaceholders, String.data_push, List.count_singleton, hc, this]

@[simp] theorem weight_writeString (b : sqlExprBuilder) (s : String) :
    (b.writeString s).weight = b.weight + countPlaceholders s := by
  simp [weight, writeString, countPlaceholders_append]; omega

@[simp] theorem weight_writeByte (b : sqlExprBuilder) (c : Char) :
    (b.writeByte c).weight = b.weight + (if c = '?' then 1 else 0) := by
  simp only [weight, writeByte, countPlaceholders_push]
  split <;> push_cast <;> omega

@[simp] theorem weight_writeParenthesizedString (b : sqlExprBuilder) (s : String) :
    (b.writeParenthesizedString s).weight = b.weight + countPlaceholders s := by
  simp [weight, writeParenthesizedString, countPlaceholders_push, countPlaceholders_append]; omega

@[simp] theorem weight_appendArgs (b : sqlExprBuilder) (vals : List Val) :
    (b.appendArgs vals).weight = b.weight - vals.length := by
  simp [weight, appendArgs]; omega

@[simp] theorem weight_writePlaceholders (b : sqlExprBuilder) (i n : Nat) :
    (b.writePlaceholders i n).weight = b.weight + n := by
  induction n generalizing b i with
  | zero => simp [writePlaceholders]
  | succ n ih =>
    simp only [writePlaceholders]
    have h1 : countPlaceholders "?" = 1 := by decide
    have h2 : countPlaceholders ",?" = 1 := by decide
    split <;> rw [ih, weight_writeString] <;> simp only [h1, h2] <;> push_cast <;> omega

@[simp] theorem Quiet_writeString (b : sqlExprBuilder) (s : String) :
    (b.writeString s).Quiet = b.Quiet := rfl
@[simp] theorem Quiet_writeByte (b : sqlExprBuilder) (c : Char) :
    (b.writeByte c).Quiet = b.Quiet := rfl
@[simp] theorem Quiet_writeParenthesizedString (b : sqlExprBuilder) (s : String) :
    (b.writeParenthesizedString s).Quiet = b.Quiet := rfl
@[simp] theorem Quiet_appendArgs (b : sqlExprBuilder) (vals : List Val) :
    (b.appendArgs vals).Quiet = b.Quiet := rfl
@[simp] theorem Quiet_generateIdentifier (b : sqlExprBuilder) :
    b.generateIdentifier.2.Quiet = b.Quiet := rfl
@[simp] theorem Quiet_writePlaceholders (b : sqlExprBuilder) (i n : Nat) :
    (b.writePlaceholders i n).Quiet = b.Quiet := by
  induction n generalizing b i with
  | zero => rfl
  | succ n ih =>
    simp only [writePlaceholders]
    split <;> rw [ih] <;> rfl

theorem aligned_writeInConditionForValues (left : Option Expression) (lo : String)
    (vals : List Val) (not : Bool) (hlo0 : countPlaceholders lo = 0)
    (hl : Aligned (fun b => b.writeExpression left)) :
    Aligned (fun b => b.writeInConditionForValues left lo vals not) := by
  intro b d hq h
  have hl2 : ∀ b d, b.Quiet → writeExpression b left = .ok d → d.Quiet ∧ d.weight = b.weight := hl
  simp only [writeInConditionForValues] at h
  cases not <;> cases hN : hasNull vals <;> by_cases hlo : lo = "" <;>
    by_cases hv : vals.length = 0 <;>
    simp [hN, hlo, hv, bind_eq_ok] at h
  all_goals first
    | (obtain ⟨d1, h1, d2, h2, h⟩ := h
       have q1 := hl2 _ _ (by simpa using hq) h1
       have q2 := hl2 _ _ (by simpa using q1.1) h2
       subst h
       simp [countPlaceholders] at q1 q2 hlo0 ⊢
       exact ⟨q2.1, by omega⟩)
    | (obtain ⟨d1, h1, h⟩ := h
       have q1 := hl2 _ _ (by simpa using hq) h1
       subst h
       simp [countPlaceholders] at q1 hlo0 ⊢
       exact ⟨q1.1, by omega⟩)
    | (subst h
       simp [countPlaceholders] at hlo0 ⊢
       exact ⟨hq, by omega⟩)
    | (subst h
       simp [countPlaceholders] at hlo0 ⊢
       exact hq)

theorem aligned_writeInCondition (left right : Option Expression) (lo : String) (not : Bool)
    (hlo0 : countPlaceholders lo = 0)
    (hl : Aligned (fun b => b.writeExpression left))
    (hr : Aligned (fun b => b.writeExpression right)) :
    Aligned (fun b => b.writeInCondition left right lo not) := by
  intro b d hq h
  have hl2 : ∀ b d, b.Quiet → writeExpression b left = .ok d → d.Quiet ∧ d.weight = b.weight := hl
  cases right with
  | none => simp [writeInCondition] at h
  | some r =>
    have hr2 : ∀ b d, b.Quiet → writeExpression b (some r) = .ok d →
      d.Quiet ∧ d.weight = b.weight := hr
    simp only [writeInCondition] at h
    split at h
    · split at h
      · simp at h
      · exact aligned_writeInConditionForValues left lo _ not hlo0 hl b d hq h
    · cases not <;> by_cases hlo : lo = "" <;> simp [hlo, bind_eq_ok] at h
      all_goals first
        | (obtain ⟨d1, h1, h2⟩ := h
           have q1 := hl2 _ _ (by simpa using hq) h1
           have q2 := hr2 _ _ (by simpa using q1.1) h2
           simp [countPlaceholders] at q1 q2 hlo0 ⊢
           exact ⟨q2.1, by omega⟩)
        | (have q2 := hr2 _ _ (by simpa using hq) h
           simp [countPlaceholders] at q2 hlo0 ⊢
           exact ⟨q2.1, by omega⟩)

theorem aligned_writeILikeCondition (left right : Option Expression) (lo : String)
    (not : Bool) (hlo0 : countPlaceholders lo = 0)
    (hl : Aligned (fun b => b.writeExpression left))
    (hr : Aligned (fun b => b.writeExpression right)) :
    Aligned (fun b => b.writeILikeCondition left right lo not) := by
  intro b d hq h
  have hl2 : ∀ b d, b.Quiet → writeExpression b left = .ok d → d.Quiet ∧ d.weight = b.weight := hl
  have hr2 : ∀ b d, b.Quiet → writeExpression b right = .ok d → d.Quiet ∧ d.weight = b.weight := hr
  simp only [writeILikeCondition] at h
  cases not <;> cases hs : b.ast.dialect.SupportsILike <;> by_cases hlo : lo = "" <;>
    simp [hs, hlo, bind_eq_ok] at h
  all_goals
    repeat
      refine Exists.elim h ?_
      clear h
      intro d1 h
      obtain ⟨h1, h⟩ := h
      first
        | have q := hl2 _ _ (by simpa using hq) h1
        | have q := hr2 _ _ (by simpa using hq) h1
      clear hq h1
      obtain ⟨hq, hw⟩ := q
      try simp [countPlaceholders] at hw
  all_goals first
    | (first
         | have q := hl2 _ _ (by simpa using hq) h
         | have q := hr2 _ _ (by simpa using hq) h
       simp [countPlaceholders] at q hlo0 ⊢
       exact ⟨q.1, by omega⟩)
    | (subst h
       simp [countPlaceholders] at hlo0 ⊢
       exact ⟨hq, by omega⟩)

end sqlExprBuilder

theorem returned_eq_ok {α : Type} (x : Except Err α) (a : α) :
    sqlExprBuilder.returned x = Except.ok a ↔ x = Except.ok a := by
  cases x <;> simp [sqlExprBuilder.returned]

theorem mapError_eq_ok {ε ε2 α : Type} (f : ε → ε2) (x : Except ε α) (a : α) :
    Except.mapError f x = Except.ok a ↔ x = Except.ok a := by
  cases x <;> simp [Except.mapError]

namespace sqlExprBuilder

@[simp] theorem weight_generateIdentifier (b : sqlExprBuilder) :
    b.generateIdentifier.2.weight = b.weight := rfl

theorem aligned_none : Aligned (fun b => b.writeExpression none) := by
  intro b d hq h
  simp [writeExpression] at h
  subst h
  exact ⟨hq, rfl⟩

theorem aligned_writeBinaryConditionInner (left right : Option Expression) (lo : String)
    (op : Operator) (hlo0 : countPlaceholders lo = 0)
    (hl : Aligned (fun b => b.writeExpression left))
    (hr : Aligned (fun b => b.writeExpression right)) :
    Aligned (fun b => b.writeBinaryConditionInner left right lo op) := by
  intro b d hq h
  have hl2 : ∀ b d, b.Quiet → writeExpression b left = .ok d → d.Quiet ∧ d.weight = b.weight := hl
  have hr2 : ∀ b d, b.Quiet → writeExpression b right = .ok d → d.Quiet ∧ d.weight = b.weight := hr
  have hI := fun not => aligned_writeILikeCondition left right lo not hlo0 hl hr b d hq
  have hN := fun not => aligned_writeInCondition left right lo not hlo0 hl hr b d hq
  cases op <;> simp only [writeBinaryConditionInner] at h <;>
    first
    | exact hI _ h
    | exact hN _ h
    | (by_cases hlo : lo = "" <;> simp [hlo, bind_eq_ok] at h <;>
        first
        | (obtain ⟨d1, h1, h⟩ := h
           have q1 := hl2 _ _ hq h1
           have q2 := hr2 _ _ (by simpa using q1.1) h
           simp [countPlaceholders] at q1 q2 hlo0 ⊢
           exact ⟨q2.1, by omega⟩)
        | (have q2 := hr2 _ _ (by simpa using hq) h
           simp [countPlaceholders] at q2 hlo0 ⊢
           exact ⟨q2.1, by omega⟩))

theorem aligned_value_leaf (vals : List Val) :
    Aligned (fun b => b.writeExpression (some (.mk "" (.list vals) none none))) := by
  intro b d hq h
  simp [writeExpression, Val.isNull, writeValue] at h
  subst h
  simp [countPlaceholders]
  exact hq

theorem aligned_writeBinaryCondition (exprs : List (Option Expression)) (op : Operator)
    (h : ∀ e ∈ exprs, Aligned (fun b => b.writeExpression e)) :
    Aligned (fun b => b.writeBinaryCondition exprs op) := by
  intro b d hq hw
  simp only [writeBinaryCondition] at hw
  split at hw
  · simp at hw
  · rename_i left right hn
    have h2 := legacyInOperands_forall (fun e => Aligned (fun b => b.writeExpression e))
      aligned_value_leaf exprs _ op h hn
    cases left with
    | none => simp at hw
    | some l =>
      cases right with
      | none => simp at hw
      | some r =>
        have hl := h2 (some l) (by simp)
        have hr := h2 (some r) (by simp)
        have i1 := fun lo op h0 => aligned_writeBinaryConditionInner none (some r) lo op h0
          aligned_none hr
        have i2 := aligned_writeBinaryConditionInner (some l) (some r) "" op (by decide) hl hr
        simp only [bind_eq_ok] at hw
        obtain ⟨u, -, hw⟩ := hw
        by_cases hln : l.Name = ""
        · simp [hln] at hw
          exact i2 b d hq hw
        · simp [hln, bind_eq_ok, returned_eq_ok, mapError_eq_ok] at hw
          obtain ⟨x, hw⟩ := hw
          rcases hw with ⟨hres, hw⟩ | ⟨hres, fr, hw⟩
          · exact i1 x op (hq.1 _ _ _ hres) b d hq hw
          · rcases hw with ⟨-, hw⟩ | ⟨hlat, d1, hw, hd⟩
            · have q := i1 x op (hq.1 _ _ _ hres) b.generateIdentifier.2 d
                (by simpa using hq) hw
              simpa using q
            · have hfr : countPlaceholders fr = 0 := hq.2.1 _ _ _ _ _ hres hlat
              have q := i1 _ _ (hq.2.2 b.ast.nextIdentifier _ _ hres) _ d1 (by
                split <;> simpa using hq) hw
              subst hd
              refine ⟨by simpa using q.1, ?_⟩
              have q2 := q.2
              split at q2 <;> simp [countPlaceholders] at q2 hfr ⊢ <;> omega
  · simp at hw

theorem aligned_writeJoinedLoop (exprs : List (Option Expression)) (joiner : String)
    (hj : countPlaceholders joiner = 0)
    (h : ∀ e ∈ exprs, Aligned (fun b => b.writeExpression e)) (i : Nat) :
    Aligned (fun b => b.writeJoinedLoop exprs joiner i) := by
  induction exprs generalizing i with
  | nil =>
    intro b d hq hw
    simp [writeJoinedLoop] at hw
    subst hw
    exact ⟨hq, rfl⟩
  | cons e rest ih =>
    intro b d hq hw
    simp only [writeJoinedLoop, bind_eq_ok] at hw
    obtain ⟨d1, h1, h2⟩ := hw
    have q1 := h e (by simp) _ d1 (by split <;> simpa using hq) h1
    have q2 := ih (fun x hx => h x (by simp [hx])) (i + 1) d1 d q1.1 h2
    refine ⟨q2.1, ?_⟩
    have q1w := q1.2
    split at q1w
    · simp [hj] at q1w
      omega
    · omega

theorem aligned_writeJoinedExpressions (exprs : List (Option Expression)) (joiner : String)
    (hj : countPlaceholders joiner = 0)
    (h : ∀ e ∈ exprs, Aligned (fun b => b.writeExpression e)) :
    Aligned (fun b => b.writeJoinedExpressions exprs joiner) := by
  intro b d hq hw
  simp only [writeJoinedExpressions] at hw
  split at hw
  · simp at hw
    subst hw
    exact ⟨hq, rfl⟩
  · simp only [bind_eq_ok] at hw
    obtain ⟨d1, h1, h2⟩ := hw
    have q1 := aligned_writeJoinedLoop exprs joiner hj h 0 _ d1 (by simpa using hq) h1
    simp at h2
    subst h2
    simp at q1 ⊢
    exact ⟨q1.1, by omega⟩

theorem aligned_writeCondition (op : Operator) (exprs : List (Option Expression))
    (h : ∀ e ∈ exprs, Aligned (fun b => b.writeExpression e)) :
    Aligned (fun b => b.writeCondition (.mk op exprs)) := by
  intro b d hq hw
  have hj := fun j hj0 => aligned_writeJoinedExpressions exprs j hj0 h b d hq
  have hb := aligned_writeBinaryCondition exprs op h b d hq
  cases op <;> simp only [writeCondition] at hw <;>
    first
    | exact hj _ (by decide) hw
    | (simp [Operator.Valid] at hw; exact hb hw)
    | simp [Operator.Valid] at hw

theorem aligned_leaf (n : String) (v : Val) :
    Aligned (fun b => b.writeExpression (some (.mk n v none none))) := by
  intro b d hq hw
  simp only [writeExpression] at hw
  split at hw
  · simp only [writeName, bind_eq_ok, returned_eq_ok] at hw
    obtain ⟨res, hres, hw⟩ := hw
    split at hw
    · simp at hw
    · simp at hw
      subst hw
      have := hq.1 n res.1 res.2 hres
      simp [this]
      exact hq
  · split at hw
    · simp [writeValue] at hw
      subst hw
      simp [countPlaceholders]
      exact hq
    · simp at hw

end sqlExprBuilder

theorem noSubqueryOpt_of_mem (e : Option Expression) (es : List (Option Expression))
    (h : noSubqueryList es = true) (he : e ∈ es) : noSubqueryOpt e = true := by
  induction es with
  | nil => simp at he
  | cons x xs ih =>
    simp [noSubqueryList] at h
    rcases List.mem_cons.mp he with h1 | h1
    · subst h1
      exact h.1
    · exact ih h.2 h1

/-- Every successful write of a tree without Subquery node, in a context
whose fragments contain no `?`, adds as many placeholders as parameters. -/
theorem aligned_writeExpression (e : Option Expression) (hsub : noSubqueryOpt e = true) :
    sqlExprBuilder.Aligned (fun b => b.writeExpression e) := by
  revert hsub
  refine expression_induction
    (fun e => noSubqueryOpt e = true → sqlExprBuilder.Aligned (fun b => b.writeExpression e))
    ?_ ?_ ?_ e
  · intro _
    exact sqlExprBuilder.aligned_none
  · intro n v s hs
    cases s with
    | some sub => simp [noSubqueryOpt, Expression.noSubquery] at hs
    | none => exact sqlExprBuilder.aligned_leaf n v
  · intro n v s op es ih hs
    cases s with
    | some sub => simp [noSubqueryOpt, Expression.noSubquery] at hs
    | none =>
      simp [noSubqueryOpt, Expression.noSubquery, noSubqueryOptCondition,
        Condition.noSubquery] at hs
      have hes : ∀ e ∈ es, sqlExprBuilder.Aligned (fun b => b.writeExpression e) :=
        fun e he => ih e he (noSubqueryOpt_of_mem e es hs he)
      intro b d hq hw
      simp only [sqlExprBuilder.writeExpression] at hw
      split at hw
      · exact sqlExprBuilder.aligned_leaf n v b d hq (by
          simp only [sqlExprBuilder.writeExpression]
          simp [*])
      · split at hw
        · exact sqlExprBuilder.aligned_leaf n v b d hq (by
            simp only [sqlExprBuilder.writeExpression]
            simp [*])
        · exact sqlExprBuilder.aligned_writeCondition op es hes b d hq hw

theorem sqlForExpression_of_ok (ast : AST) (n : Option SelectNode) (pseudoHaving : Bool)
    (e : Option Expression) (d : sqlExprBuilder)
    (h : (sqlExprBuilder.start ast n pseudoHaving).writeExpression e = .ok d) :
    ast.sqlForExpression e n pseudoHaving = .returned d.out d.args none := by
  simp only [AST.sqlForExpression, h]

theorem sqlForExpression_of_error (ast : AST) (n : Option SelectNode) (pseudoHaving : Bool)
    (e : Option Expression) (err : Err)
    (h : (sqlExprBuilder.start ast n pseudoHaving).writeExpression e = .error (.error err)) :
    ast.sqlForExpression e n pseudoHaving = .returned "" [] (some err) := by
  simp only [AST.sqlForExpression, h]

theorem sqlForExpression_eq_ok (ast : AST) (n : Option SelectNode) (pseudoHaving : Bool)
    (e : Option Expression) (sql : String) (params : List Val) :
    ast.sqlForExpression e n pseudoHaving = .returned sql params none ↔
      ∃ d, (sqlExprBuilder.start ast n pseudoHaving).writeExpression e = .ok d ∧
        d.out = sql ∧ d.args = params := by
  simp only [AST.sqlForExpression]
  cases hw : (sqlExprBuilder.start ast n pseudoHaving).writeExpression e with
  | error f => cases f <;> simp
  | ok d => simp

/-- C1. Placeholder/parameter alignment: for an expression tree without
Subquery node, in a scope and dialect whose resolved name fragments, lateral
unnest FROM clauses and correlated column references contain no `?`, whenever
`sqlForExpression` succeeds with `(sql, params)`, the number of `?` in `sql`
is `len(params)`. -/
theorem placeholder_parameter_alignment (ast : AST) (n : Option SelectNode)
    (pseudoHaving : Bool) (e : Option Expression) (sql : String) (params : List Val)
    (hsub : noSubqueryOpt e = true)
    (hquiet : (sqlExprBuilder.start ast n pseudoHaving).Quiet)
    (h : ast.sqlForExpression e n pseudoHaving = .returned sql params none) :
    countPlaceholders sql = params.length := by
  obtain ⟨d, hw, h1, h2⟩ := (sqlForExpression_eq_ok ast n pseudoHaving e sql params).mp h
  have q := aligned_writeExpression e hsub _ d hquiet hw
  have hw2 := q.2
  simp [sqlExprBuilder.weight, sqlExprBuilder.start, countPlaceholders, h1, h2] at hw2
  simp [countPlaceholders]
  omega


namespace sqlExprBuilder

/-! ## Conditions with a name on the left -/

@[simp] theorem sqlForName_writeString (b : sqlExprBuilder) (s : String) (name : String) :
    (b.writeString s).sqlForName name = b.sqlForName name := rfl
@[simp] theorem sqlForName_writeByte (b : sqlExprBuilder) (c : Char) (name : String) :
    (b.writeByte c).sqlForName name = b.sqlForName name := rfl
@[simp] theorem sqlForName_writeParenthesizedString (b : sqlExprBuilder) (s : String)
    (name : String) : (b.writeParenthesizedString s).sqlForName name = b.sqlForName name := rfl
@[simp] theorem sqlForName_appendArgs (b : sqlExprBuilder) (vals : List Val) (name : String) :
    (b.appendArgs vals).sqlForName name = b.sqlForName name := rfl
@[simp] theorem sqlForName_generateIdentifier (b : sqlExprBuilder) (name : String) :
    b.generateIdentifier.2.sqlForName name = b.sqlForName name := rfl

/-- An expression that only has a condition is compiled by `writeCondition`. -/
theorem writeExpression_ofCondition (b : sqlExprBuilder) (op : Operator)
    (exprs : List (Option Expression)) :
    b.writeExpression (some (.ofCondition op exprs)) = b.writeCondition (.mk op exprs) := by
  simp [Expression.ofCondition, writeExpression, Val.isNull]

/-- An expression that only has a non-nil value is compiled by `writeValue`. -/
theorem writeExpression_ofValue (b : sqlExprBuilder) (v : Val) (hv : v ≠ .null) :
    b.writeExpression (some (.ofValue v)) = b.writeValue v := by
  cases v <;> simp [Expression.ofValue, writeExpression, Val.isNull] at hv ⊢

/-- An expression with a name is compiled by `writeName`. -/
theorem writeExpression_ofName (b : sqlExprBuilder) (name : String) (hname : name ≠ "") :
    b.writeExpression (some (.ofName name)) = b.writeName name := by
  simp [Expression.ofName, writeExpression, hname]

/-- The operators that go to `writeBinaryCondition`. -/
theorem writeCondition_binary (b : sqlExprBuilder) (op : Operator)
    (exprs : List (Option Expression)) (hop : op ≠ .Or) (hop2 : op ≠ .And)
    (hv : op.Valid = true) :
    b.writeCondition (.mk op exprs) = b.writeBinaryCondition exprs op := by
  cases op <;> simp [writeCondition, Operator.Valid] at hop hop2 hv ⊢

/-- A binary condition whose left operand is a name that resolves without
unnest, and whose right operand passes the unnest check, is written by
`writeBinaryConditionInner` with the resolved fragment as left override. -/
theorem writeBinaryCondition_name (b : sqlExprBuilder) (exprs : List (Option Expression))
    (op : Operator) (l r : Expression) (e : String)
    (hn : legacyInOperands exprs op = .ok [some l, some r])
    (hl : l.Name ≠ "")
    (hr : r.Name = "" ∨ ∃ x, b.sqlForName r.Name = .ok (x, false))
    (hres : b.sqlForName l.Name = .ok (e, false)) :
    b.writeBinaryCondition exprs op = b.writeBinaryConditionInner none (some r) e op := by
  simp only [writeBinaryCondition]
  split
  · rename_i f hf
    rw [hn] at hf
    simp at hf
  · rename_i left right hf
    rw [hn] at hf
    simp at hf
    obtain ⟨h1, h2⟩ := hf
    subst h1 h2
    rcases hr with hr | ⟨x, hr⟩
    · simp [hr, hl, hres, returned]
    · by_cases hrn : r.Name = ""
      · simp [hrn, hl, hres, returned]
      · simp [hrn, hr, hl, hres, returned]
  · rename_i es hne hf
    rw [hn] at hf
    simp at hf
    exact absurd hf.symm (hne _ _)

/-- A comparison with a left override writes the override in parentheses, the
operator token and the right operand. -/
theorem writeBinaryConditionInner_Eq (b : sqlExprBuilder) (left right : Option Expression)
    (lo : String) (hlo : lo ≠ "") :
    b.writeBinaryConditionInner left right lo .Eq
      = ((b.writeParenthesizedString lo).writeString " = ").writeExpression right := by
  simp [writeBinaryConditionInner, hlo]

end sqlExprBuilder

theorem out_eq_iff (b : sqlExprBuilder) (s : String) : b.out = s ↔ b.out.data = s.data :=
  String.ext_iff

/-- C2. End-to-end scenario A, generalised: when `name` resolves without
unnest to a non-empty fragment `e` and `v` is a non-nil literal, the condition
`Eq [Name name, Value v]` compiles to `"(" ++ e ++ ") = ?"` with params `[v]`. -/
theorem eq_name_value (ast : AST) (n : Option SelectNode) (pseudoHaving : Bool)
    (name e : String) (v : Val) (hname : name ≠ "") (he : e ≠ "") (hv : v ≠ .null)
    (hres : (sqlExprBuilder.start ast n pseudoHaving).sqlForName name = .ok (e, false)) :
    ast.sqlForExpression
        (some (.ofCondition .Eq [some (.ofName name), some (.ofValue v)])) n pseudoHaving
      = .returned ("(" ++ e ++ ") = ?") [v] none := by
  rw [sqlForExpression_eq_ok]
  rw [sqlExprBuilder.writeExpression_ofCondition,
    sqlExprBuilder.writeCondition_binary _ _ _ (by decide) (by decide) (by decide),
    sqlExprBuilder.writeBinaryCondition_name _ _ _ (.ofName name) (.ofValue v) e
      (by simp [sqlExprBuilder.legacyInOperands]) hname (Or.inl rfl) hres,
    sqlExprBuilder.writeBinaryConditionInner_Eq _ _ _ _ he,
    sqlExprBuilder.writeExpression_ofValue _ _ hv]
  simp [sqlExprBuilder.writeValue, sqlExprBuilder.writeString, sqlExprBuilder.appendArgs,
    sqlExprBuilder.writeParenthesizedString, sqlExprBuilder.start, String.ext_iff]

/-- Witness of C2: `country` resolves to `t.country` in the example context,
and the value is `"US"`. -/
theorem eq_name_value_witness :
    ("country" ≠ "" ∧ "t.country" ≠ "" ∧ Val.str "US" ≠ Val.null ∧
      (sqlExprBuilder.start demoAST none false).sqlForName "country"
        = .ok ("t.country", false)) ∧
    demoAST.sqlForExpression
        (some (.ofCondition .Eq [some (.ofName "country"), some (.ofValue (.str "US"))]))
        none false
      = .returned "(t.country) = ?" [.str "US"] none :=
  ⟨⟨by decide, by decide, by simp, by rfl⟩,
    eq_name_value demoAST none false "country" "t.country" (.str "US") (by decide) (by decide)
      (by simp) (by rfl)⟩




/-! ## List membership -/

theorem intercalate_go_front (p acc s : String) (l : List String) :
    String.intercalate.go (p ++ acc) s l = p ++ String.intercalate.go acc s l := by
  induction l generalizing acc with
  | nil => simp [String.intercalate.go]
  | cons a as ih =>
    simp only [String.intercalate.go]
    rw [← ih]
    simp [String.append_assoc]

namespace sqlExprBuilder

theorem writePlaceholders_succ (b : sqlExprBuilder) (i n : Nat) (hi : i > 0) :
    b.writePlaceholders i n
      = { b with out := String.intercalate.go b.out "," (List.replicate n "?") } := by
  induction n generalizing b i with
  | zero => simp [writePlaceholders, String.intercalate.go]
  | succ n ih =>
    have hi0 : i ≠ 0 := by omega
    simp only [writePlaceholders, hi0, if_false, List.replicate_succ, String.intercalate.go]
    rw [ih _ _ (by omega)]
    have hs : b.out ++ ",?" = b.out ++ "," ++ "?" := by simp [String.ext_iff]
    simp only [writeString, hs]

/-- The loop of lines 444 to 450 writes `k` placeholders separated by commas. -/
theorem writePlaceholders_zero (b : sqlExprBuilder) (k : Nat) :
    b.writePlaceholders 0 k = b.writeString (placeholders k) := by
  cases k with
  | zero => simp [writePlaceholders, placeholders, writeString, String.intercalate]
  | succ k =>
    simp only [writePlaceholders, if_true, placeholders, List.replicate_succ, String.intercalate]
    rw [writePlaceholders_succ _ _ _ (by omega)]
    simp only [writeString]
    rw [intercalate_go_front]

theorem isNull_iff (v : Val) : v.isNull = true ↔ v = .null := by
  cases v <;> simp [Val.isNull]

/-- The loop of lines 407 to 412 finds a NULL exactly when there is one. -/
theorem hasNull_iff (vals : List Val) : hasNull vals = true ↔ Val.null ∈ vals := by
  induction vals with
  | nil => simp [hasNull]
  | cons v vs ih =>
    simp only [hasNull, List.mem_cons]
    by_cases hv : v.isNull = true
    · simp [hv, (isNull_iff v).mp hv, Val.isNull]
    · have hne : ¬ (Val.null = v) := fun h => hv ((isNull_iff v).mpr h.symm)
      simp [hv, ih, hne]

theorem hasNull_eq_false (vals : List Val) (h : Val.null ∉ vals) : hasNull vals = false := by
  cases hn : hasNull vals with
  | false => rfl
  | true => exact absurd ((hasNull_iff vals).mp hn) h

/-- With a left override and a non-empty list, the list membership builder
writes the text `membershipSQL` and binds every value of the list. -/
theorem writeInConditionForValues_override (b : sqlExprBuilder) (left : Option Expression)
    (lo : String) (vals : List Val) (not : Bool) (hlo : lo ≠ "") (hv : vals ≠ []) :
    b.writeInConditionForValues left lo vals not
      = .ok ((b.writeString (membershipSQL lo vals.length not (hasNull vals))).appendArgs
          vals) := by
  have hlen : vals.length ≠ 0 := by
    intro h
    exact hv (List.length_eq_zero.mp h)
  cases not <;> cases hN : hasNull vals <;>
    simp [writeInConditionForValues, hN, hlo, hlen, writePlaceholders_zero, membershipSQL,
      writeString, writeByte, writeParenthesizedString, appendArgs, String.ext_iff]

/-- With an empty list the builder writes the boolean constant. -/
theorem writeInConditionForValues_nil (b : sqlExprBuilder) (left : Option Expression)
    (lo : String) (not : Bool) :
    b.writeInConditionForValues left lo [] not
      = .ok (b.writeString (if not then "TRUE" else "FALSE")) := by
  cases not <;> simp [writeInConditionForValues]

/-- `In` and `Nin` against a literal list go to the list membership builder. -/
theorem writeBinaryConditionInner_In_list (b : sqlExprBuilder) (left : Option Expression)
    (lo : String) (vals : List Val) :
    b.writeBinaryConditionInner left (some (.ofValue (.list vals))) lo .In
      = b.writeInConditionForValues left lo vals false := by
  simp [writeBinaryConditionInner, writeInCondition, Expression.ofValue, Expression.Value,
    Val.isNull, Val.asList]

theorem writeBinaryConditionInner_Nin_list (b : sqlExprBuilder) (left : Option Expression)
    (lo : String) (vals : List Val) :
    b.writeBinaryConditionInner left (some (.ofValue (.list vals))) lo .Nin
      = b.writeInConditionForValues left lo vals true := by
  simp [writeBinaryConditionInner, writeInCondition, Expression.ofValue, Expression.Value,
    Val.isNull, Val.asList]

/-- A two-operand list whose right operand is a literal list is left as it is
by the backwards-compatibility block. -/
theorem legacyInOperands_list (left : Option Expression) (vals : List Val) (op : Operator) :
    legacyInOperands [left, some (.ofValue (.list vals))] op
      = .ok [left, some (.ofValue (.list vals))] := by
  simp only [legacyInOperands]
  split
  · simp [Expression.ofValue, Expression.Value, Val.asList]
  · rfl

end sqlExprBuilder


namespace sqlExprBuilder

theorem collectValues_ofValue (vs : List Val) :
    collectValues (vs.map fun v => some (Expression.ofValue v)) = .ok vs := by
  induction vs with
  | nil => rfl
  | cons v vs ih =>
    simp only [List.map_cons, collectValues, ih]
    rfl

/-- More than two operands of `In` or `Nin`, all literals after the first, are
flattened into one list. -/
theorem legacyInOperands_flat (left : Option Expression) (vs : List Val) (not : Bool)
    (hlen : 2 ≤ vs.length) :
    legacyInOperands (left :: vs.map fun v => some (Expression.ofValue v)) (membershipOp not)
      = .ok [left, some (.ofValue (.list vs))] := by
  match vs, hlen with
  | v1 :: v2 :: rest, _ =>
    have hc := collectValues_ofValue (v1 :: v2 :: rest)
    simp only [List.map_cons] at hc
    cases not <;> simp [legacyInOperands, membershipOp, hc] <;> rfl

theorem writeBinaryConditionInner_membership (b : sqlExprBuilder) (left : Option Expression)
    (lo : String) (vals : List Val) (not : Bool) :
    b.writeBinaryConditionInner left (some (.ofValue (.list vals))) lo (membershipOp not)
      = b.writeInConditionForValues left lo vals not := by
  cases not
  · exact writeBinaryConditionInner_In_list b left lo vals
  · exact writeBinaryConditionInner_Nin_list b left lo vals

end sqlExprBuilder

/-- A membership condition whose operands normalize to a name that resolves
without unnest and a literal list is written by the list membership builder. -/
theorem compile_membership (ast : AST) (n : Option SelectNode) (pseudoHaving : Bool)
    (exprs : List (Option Expression)) (name e : String) (vals : List Val) (not : Bool)
    (hn : sqlExprBuilder.legacyInOperands exprs (membershipOp not)
      = .ok [some (.ofName name), some (.ofValue (.list vals))])
    (hname : name ≠ "")
    (hres : (sqlExprBuilder.start ast n pseudoHaving).sqlForName name = .ok (e, false)) :
    (sqlExprBuilder.start ast n pseudoHaving).writeExpression
        (some (.ofCondition (membershipOp not) exprs))
      = (sqlExprBuilder.start ast n pseudoHaving).writeInConditionForValues none e vals not := by
  rw [sqlExprBuilder.writeExpression_ofCondition,
    sqlExprBuilder.writeCondition_binary _ _ _ (by cases not <;> decide)
      (by cases not <;> decide) (by cases not <;> decide),
    sqlExprBuilder.writeBinaryCondition_name _ _ _ (.ofName name) (.ofValue (.list vals)) e
      hn hname (Or.inl rfl) hres,
    sqlExprBuilder.writeBinaryConditionInner_membership]

/-- The result of a membership condition against a non-empty literal list. -/
theorem compile_membership_cons (ast : AST) (n : Option SelectNode) (pseudoHaving : Bool)
    (exprs : List (Option Expression)) (name e : String) (vals : List Val) (not : Bool)
    (hn : sqlExprBuilder.legacyInOperands exprs (membershipOp not)
      = .ok [some (.ofName name), some (.ofValue (.list vals))])
    (hname : name ≠ "") (he : e ≠ "") (hv : vals ≠ [])
    (hres : (sqlExprBuilder.start ast n pseudoHaving).sqlForName name = .ok (e, false)) :
    ast.sqlForExpression (some (.ofCondition (membershipOp not) exprs)) n pseudoHaving
      = .returned (membershipSQL e vals.length not (sqlExprBuilder.hasNull vals)) vals none := by
  rw [sqlForExpression_eq_ok, compile_membership ast n pseudoHaving exprs name e vals not hn
    hname hres, sqlExprBuilder.writeInConditionForValues_override _ _ _ _ _ he hv]
  simp [sqlExprBuilder.writeString, sqlExprBuilder.appendArgs, sqlExprBuilder.start]

/-- The result of a membership condition against the empty literal list. -/
theorem compile_membership_nil (ast : AST) (n : Option SelectNode) (pseudoHaving : Bool)
    (name e : String) (not : Bool) (hname : name ≠ "")
    (hres : (sqlExprBuilder.start ast n pseudoHaving).sqlForName name = .ok (e, false)) :
    ast.sqlForExpression
        (some (.ofCondition (membershipOp not)
          [some (.ofName name), some (.ofValue (.list []))])) n pseudoHaving
      = .returned (if not then "TRUE" else "FALSE") [] none := by
  rw [sqlForExpression_eq_ok, compile_membership ast n pseudoHaving _ name e [] not
    (sqlExprBuilder.legacyInOperands_list _ _ _) hname hres,
    sqlExprBuilder.writeInConditionForValues_nil]
  cases not <;> simp [sqlExprBuilder.writeString, sqlExprBuilder.start]



/-- The legacy flattened condition of scenario B in the example context:
`Nin [Name status, Value 1, Value 2, Value nil]`. -/
theorem scenarioB_compiled :
    demoAST.sqlForExpression
        (some (.ofCondition .Nin [some (.ofName "status"), some (.ofValue (.int 1)),
          some (.ofValue (.int 2)), some (.ofValue .null)])) none false
      = .returned "((status) NOT IN (?,?,?) AND (status) IS NOT NULL)"
          [.int 1, .int 2, .null] none := by
  have h := compile_membership_cons demoAST none false
    (some (.ofName "status") :: [Val.int 1, Val.int 2, Val.null].map
      fun v => some (Expression.ofValue v))
    "status" "status" [.int 1, .int 2, .null] true
    (sqlExprBuilder.legacyInOperands_flat _ _ true (by decide)) (by decide) (by decide)
    (by simp) (by rfl)
  exact h

/-- C3, counterexample. In the example context, where `status` resolves to
`status` without unnest, compiling `Nin [Name status, Value 1, Value 2, Value
nil]` does not return the parameters `[1, 2]`, whatever the SQL text: the
NULL element is bound as a parameter too. -/
theorem scenarioB_null_is_bound :
    ¬ ∃ sql, demoAST.sqlForExpression
        (some (.ofCondition .Nin [some (.ofName "status"), some (.ofValue (.int 1)),
          some (.ofValue (.int 2)), some (.ofValue .null)])) none false
      = .returned sql [.int 1, .int 2] none := by
  rw [scenarioB_compiled]
  simp

/-- C3, amended. For a name that resolves without unnest to a non-empty
fragment `e`, the legacy flattened condition `Nin [Name, Value v1, ..., Value
vk]` with `k ≥ 2` literals, one of them NULL, compiles to
`((e) NOT IN (?,...,?) AND (e) IS NOT NULL)` with one placeholder for every
literal, the NULL included, and with all `k` literals as parameters. -/
theorem nin_flattened_with_null (ast : AST) (n : Option SelectNode) (pseudoHaving : Bool)
    (name e : String) (vs : List Val) (hname : name ≠ "") (he : e ≠ "")
    (hlen : 2 ≤ vs.length) (hnull : Val.null ∈ vs)
    (hres : (sqlExprBuilder.start ast n pseudoHaving).sqlForName name = .ok (e, false)) :
    ast.sqlForExpression
        (some (.ofCondition .Nin
          (some (.ofName name) :: vs.map fun v => some (Expression.ofValue v)))) n pseudoHaving
      = .returned ("((" ++ e ++ ") NOT IN (" ++ placeholders vs.length ++ ") AND (" ++ e
          ++ ") IS NOT NULL)") vs none := by
  have hv : vs ≠ [] := by
    intro h
    simp [h] at hlen
  have h := compile_membership_cons ast n pseudoHaving _ name e vs true
    (sqlExprBuilder.legacyInOperands_flat _ _ true hlen) hname he hv hres
  have hN := (sqlExprBuilder.hasNull_iff vs).mpr hnull
  simp only [membershipOp, if_true] at h
  rw [h]
  simp [membershipSQL, hN, String.ext_iff]

/-- Witness of C3 (amended): scenario B in the example context. -/
theorem nin_flattened_with_null_witness :
    ("status" ≠ "" ∧ 2 ≤ [Val.int 1, Val.int 2, Val.null].length ∧
      Val.null ∈ [Val.int 1, Val.int 2, Val.null] ∧
      (sqlExprBuilder.start demoAST none false).sqlForName "status" = .ok ("status", false)) ∧
    demoAST.sqlForExpression
        (some (.ofCondition .Nin [some (.ofName "status"), some (.ofValue (.int 1)),
          some (.ofValue (.int 2)), some (.ofValue .null)])) none false
      = .returned "((status) NOT IN (?,?,?) AND (status) IS NOT NULL)"
          [.int 1, .int 2, .null] none :=
  ⟨⟨by decide, by decide, by simp, by rfl⟩,
    nin_flattened_with_null demoAST none false "status" "status" [.int 1, .int 2, .null]
      (by decide) (by decide) (by decide) (by simp) (by rfl)⟩

/-- C4. NULL-inclusive negation: for a non-empty literal list `vs` without
NULL and a left name that resolves without unnest to a non-empty fragment `e`,
`Nin [Name, Value vs]` compiles to `((e) NOT IN (?,...,?) OR (e) IS NULL)`
with one placeholder per element and params `vs`. -/
theorem nin_without_null (ast : AST) (n : Option SelectNode) (pseudoHaving : Bool)
    (name e : String) (vs : List Val) (hname : name ≠ "") (he : e ≠ "")
    (hvs : vs ≠ []) (hnull : Val.null ∉ vs)
    (hres : (sqlExprBuilder.start ast n pseudoHaving).sqlForName name = .ok (e, false)) :
    ast.sqlForExpression
        (some (.ofCondition .Nin [some (.ofName name), some (.ofValue (.list vs))]))
        n pseudoHaving
      = .returned ("((" ++ e ++ ") NOT IN (" ++ placeholders vs.length ++ ") OR (" ++ e
          ++ ") IS NULL)") vs none := by
  have h := compile_membership_cons ast n pseudoHaving _ name e vs true
    (sqlExprBuilder.legacyInOperands_list _ _ _) hname he hvs hres
  have hN := sqlExprBuilder.hasNull_eq_false vs hnull
  simp only [membershipOp, if_true] at h
  rw [h]
  simp [membershipSQL, hN, String.ext_iff]

/-- Witness of C4: `status NOT IN (1, 2)` in the example context. -/
theorem nin_without_null_witness :
    ("status" ≠ "" ∧ [Val.int 1, Val.int 2] ≠ [] ∧ Val.null ∉ [Val.int 1, Val.int 2] ∧
      (sqlExprBuilder.start demoAST none false).sqlForName "status" = .ok ("status", false)) ∧
    demoAST.sqlForExpression
        (some (.ofCondition .Nin
          [some (.ofName "status"), some (.ofValue (.list [.int 1, .int 2]))])) none false
      = .returned "((status) NOT IN (?,?) OR (status) IS NULL)" [.int 1, .int 2] none :=
  ⟨⟨by decide, by simp, by simp, by rfl⟩,
    nin_without_null demoAST none false "status" "status" [.int 1, .int 2]
      (by decide) (by decide) (by simp) (by simp) (by rfl)⟩

/-- C5. List membership with NULL present: for a literal list `vs` with a
NULL element and a left name that resolves without unnest to a non-empty
fragment `e`, `In` compiles to `((e) IN (?,...,?) OR (e) IS NULL)` and `Nin`
to `((e) NOT IN (?,...,?) AND (e) IS NOT NULL)`, both with one placeholder per
element of `vs` and params `vs`. -/
theorem membership_with_null (ast : AST) (n : Option SelectNode) (pseudoHaving : Bool)
    (name e : String) (vs : List Val) (hname : name ≠ "") (he : e ≠ "")
    (hnull : Val.null ∈ vs)
    (hres : (sqlExprBuilder.start ast n pseudoHaving).sqlForName name = .ok (e, false)) :
    ast.sqlForExpression
        (some (.ofCondition .In [some (.ofName name), some (.ofValue (.list vs))]))
        n pseudoHaving
      = .returned ("((" ++ e ++ ") IN (" ++ placeholders vs.length ++ ") OR (" ++ e
          ++ ") IS NULL)") vs none ∧
    ast.sqlForExpression
        (some (.ofCondition .Nin [some (.ofName name), some (.ofValue (.list vs))]))
        n pseudoHaving
      = .returned ("((" ++ e ++ ") NOT IN (" ++ placeholders vs.length ++ ") AND (" ++ e
          ++ ") IS NOT NULL)") vs none := by
  have hv : vs ≠ [] := by
    intro h
    simp [h] at hnull
  have hN := (sqlExprBuilder.hasNull_iff vs).mpr hnull
  have h1 := compile_membership_cons ast n pseudoHaving _ name e vs false
    (sqlExprBuilder.legacyInOperands_list _ _ _) hname he hv hres
  have h2 := compile_membership_cons ast n pseudoHaving _ name e vs true
    (sqlExprBuilder.legacyInOperands_list _ _ _) hname he hv hres
  simp only [membershipOp, if_true, Bool.false_eq_true, if_false] at h1 h2
  rw [h1, h2]
  constructor <;> simp [membershipSQL, hN, String.ext_iff]

/-- Witness of C5: the list `[1, nil]` against `status` in the example
context. -/
theorem membership_with_null_witness :
    ("status" ≠ "" ∧ Val.null ∈ [Val.int 1, Val.null] ∧
      (sqlExprBuilder.start demoAST none false).sqlForName "status" = .ok ("status", false)) ∧
    (demoAST.sqlForExpression
        (some (.ofCondition .In
          [some (.ofName "status"), some (.ofValue (.list [.int 1, .null]))])) none false
      = .returned "((status) IN (?,?) OR (status) IS NULL)" [.int 1, .null] none ∧
    demoAST.sqlForExpression
        (some (.ofCondition .Nin
          [some (.ofName "status"), some (.ofValue (.list [.int 1, .null]))])) none false
      = .returned "((status) NOT IN (?,?) AND (status) IS NOT NULL)" [.int 1, .null] none) :=
  ⟨⟨by decide, by simp, by rfl⟩,
    membership_with_null demoAST none false "status" "status" [.int 1, .null]
      (by decide) (by decide) (by simp) (by rfl)⟩

/-- C6. Empty-list membership: for a left name that resolves without error
and without unnest, `In [left, Value []]` compiles to `FALSE` and
`Nin [left, Value []]` to `TRUE`, both with no params and no error. -/
theorem membership_empty_list (ast : AST) (n : Option SelectNode) (pseudoHaving : Bool)
    (name e : String) (hname : name ≠ "")
    (hres : (sqlExprBuilder.start ast n pseudoHaving).sqlForName name = .ok (e, false)) :
    ast.sqlForExpression
        (some (.ofCondition .In [some (.ofName name), some (.ofValue (.list []))]))
        n pseudoHaving
      = .returned "FALSE" [] none ∧
    ast.sqlForExpression
        (some (.ofCondition .Nin [some (.ofName name), some (.ofValue (.list []))]))
        n pseudoHaving
      = .returned "TRUE" [] none :=
  ⟨compile_membership_nil ast n pseudoHaving name e false hname hres,
    compile_membership_nil ast n pseudoHaving name e true hname hres⟩

/-- Witness of C6: the empty list against `country` in the example context. -/
theorem membership_empty_list_witness :
    ("country" ≠ "" ∧
      (sqlExprBuilder.start demoAST none false).sqlForName "country"
        = .ok ("t.country", false)) ∧
    (demoAST.sqlForExpression
        (some (.ofCondition .In [some (.ofName "country"), some (.ofValue (.list []))]))
        none false
      = .returned "FALSE" [] none ∧
    demoAST.sqlForExpression
        (some (.ofCondition .Nin [some (.ofName "country"), some (.ofValue (.list []))]))
        none false
      = .returned "TRUE" [] none) :=
  ⟨⟨by decide, by rfl⟩,
    membership_empty_list demoAST none false "country" "t.country" (by decide) (by rfl)⟩



/-- C7. Positive membership without NULL is not parenthesized: for a
non-empty literal list `vs` and a left name that resolves without unnest to a
non-empty fragment `e`, (1) if `vs` has no NULL, `In [Name, Value vs]`
compiles to exactly `(e) IN (?,...,?)` with params `vs`; (2) for `In` and for
`Nin`, the output is the text `(e) [NOT] IN (?,...,?)` followed by its NULL
clause, enclosed in one more pair of parentheses exactly when the condition
is negated or the list contains NULL. -/
theorem in_without_null_not_parenthesized (ast : AST) (n : Option SelectNode)
    (pseudoHaving : Bool) (name e : String) (vs : List Val) (hname : name ≠ "")
    (he : e ≠ "") (hvs : vs ≠ [])
    (hres : (sqlExprBuilder.start ast n pseudoHaving).sqlForName name = .ok (e, false)) :
    (Val.null ∉ vs →
      ast.sqlForExpression
          (some (.ofCondition .In [some (.ofName name), some (.ofValue (.list vs))]))
          n pseudoHaving
        = .returned ("(" ++ e ++ ") IN (" ++ placeholders vs.length ++ ")") vs none) ∧
    (∀ not : Bool, ∃ (nullClause : String) (wrapped : Bool),
      (nullClause = "" ↔ (not = false ∧ Val.null ∉ vs)) ∧
      (wrapped = true ↔ (not = true ∨ Val.null ∈ vs)) ∧
      ast.sqlForExpression
          (some (.ofCondition (membershipOp not)
            [some (.ofName name), some (.ofValue (.list vs))])) n pseudoHaving
        = .returned
            (if wrapped then
              "(" ++ ("(" ++ e ++ ")" ++ (if not then " NOT IN " else " IN ") ++ "("
                ++ placeholders vs.length ++ ")" ++ nullClause) ++ ")"
            else
              "(" ++ e ++ ")" ++ (if not then " NOT IN " else " IN ") ++ "("
                ++ placeholders vs.length ++ ")" ++ nullClause)
            vs none) := by
  have hc := fun not => compile_membership_cons ast n pseudoHaving _ name e vs not
    (sqlExprBuilder.legacyInOperands_list _ _ _) hname he hvs hres
  constructor
  · intro hnull
    have h := hc false
    have hN := sqlExprBuilder.hasNull_eq_false vs hnull
    simp only [membershipOp, Bool.false_eq_true, if_false] at h
    rw [h]
    simp [membershipSQL, hN, String.ext_iff]
  · intro not
    rw [hc not]
    by_cases hnull : Val.null ∈ vs
    · have hN := (sqlExprBuilder.hasNull_iff vs).mpr hnull
      cases not
      · refine ⟨" OR (" ++ e ++ ") IS NULL", true, ?_, ?_, ?_⟩
        · simp [hnull, String.ext_iff]
        · simp [hnull]
        · simp [membershipSQL, hN, String.ext_iff]
      · refine ⟨" AND (" ++ e ++ ") IS NOT NULL", true, ?_, ?_, ?_⟩
        · simp [String.ext_iff]
        · simp
        · simp [membershipSQL, hN, String.ext_iff]
    · have hN := sqlExprBuilder.hasNull_eq_false vs hnull
      cases not
      · refine ⟨"", false, ?_, ?_, ?_⟩
        · simp [hnull]
        · simp [hnull]
        · simp [membershipSQL, hN, String.ext_iff]
      · refine ⟨" OR (" ++ e ++ ") IS NULL", true, ?_, ?_, ?_⟩
        · simp [String.ext_iff]
        · simp
        · simp [membershipSQL, hN, String.ext_iff]

/-- Witness of C7: the list `[1, 2]` against `status` in the example
context. -/
theorem in_without_null_not_parenthesized_witness :
    ("status" ≠ "" ∧ [Val.int 1, Val.int 2] ≠ [] ∧
      (sqlExprBuilder.start demoAST none false).sqlForName "status" = .ok ("status", false)) ∧
    Val.null ∉ [Val.int 1, Val.int 2] ∧
    demoAST.sqlForExpression
        (some (.ofCondition .In
          [some (.ofName "status"), some (.ofValue (.list [.int 1, .int 2]))])) none false
      = .returned "(status) IN (?,?)" [.int 1, .int 2] none :=
  ⟨⟨by decide, by simp, by rfl⟩, by simp,
    (in_without_null_not_parenthesized demoAST none false "status" "status" [.int 1, .int 2]
      (by decide) (by decide) (by simp) (by rfl)).1 (by simp)⟩

/-- C8. A bare Name expression: compilation fails with the resolution error
if the name does not resolve, fails if resolution reports that the name
requires unnest, and otherwise returns the resolved fragment in parentheses
with no params. -/
theorem bare_name (ast : AST) (n : Option SelectNode) (pseudoHaving : Bool)
    (name : String) (hname : name ≠ "") :
    ast.sqlForExpression (some (.ofName name)) n pseudoHaving
      = match (sqlExprBuilder.start ast n pseudoHaving).sqlForName name with
        | .error err => .returned "" [] (some err)
        | .ok (_, true) => .returned "" [] (some (.unnestUnsupportedStructure name))
        | .ok (e, false) => .returned ("(" ++ e ++ ")") [] none := by
  simp only [AST.sqlForExpression, sqlExprBuilder.writeExpression_ofName _ _ hname,
    sqlExprBuilder.writeName]
  cases hres : (sqlExprBuilder.start ast n pseudoHaving).sqlForName name with
  | error err => simp [sqlExprBuilder.returned]
  | ok r =>
    obtain ⟨e, u⟩ := r
    cases u <;>
      simp [sqlExprBuilder.returned, sqlExprBuilder.writeParenthesizedString,
        sqlExprBuilder.start, String.ext_iff]

/-- Witness of C8: the names `country` (resolves), `tags` (requires unnest)
and `city` (unknown) in the example context. -/
theorem bare_name_witness :
    "country" ≠ "" ∧
    demoAST.sqlForExpression (some (.ofName "country")) none false
      = .returned "(t.country)" [] none ∧
    demoAST.sqlForExpression (some (.ofName "tags")) none false
      = .returned "" [] (some (.unnestUnsupportedStructure "tags")) ∧
    demoAST.sqlForExpression (some (.ofName "city")) none false
      = .returned "" [] (some (.invalidDimensionReference "city" "dimension not found")) :=
  ⟨by decide, bare_name demoAST none false "country" (by decide),
    bare_name demoAST none false "tags" (by decide),
    bare_name demoAST none false "city" (by decide)⟩


namespace sqlExprBuilder

/-- The backwards-compatibility block leaves its own result as it is. -/
theorem legacyInOperands_idem (exprs exprs2 : List (Option Expression)) (op : Operator)
    (h : legacyInOperands exprs op = .ok exprs2) : legacyInOperands exprs2 op = .ok exprs2 := by
  by_cases hop : op = .In ∨ op = .Nin
  · simp only [legacyInOperands, hop, if_true] at h
    split at h
    · split at h
      · simp at h
      · split at h
        · simp at h
          subst h
          simp [legacyInOperands, hop, Expression.Value, Val.asList]
        · simp at h
          subst h
          rename_i hwrap
          simp only [legacyInOperands, hop, if_true, hwrap, if_false]
    · split at h
      · simp at h
      · simp at h
        subst h
        simp [legacyInOperands, hop, Expression.Value, Val.asList]
    · simp at h
      subst h
      simp only [legacyInOperands, hop, if_true]
  · simp only [legacyInOperands, hop, if_false] at h ⊢

/-- A two-operand list whose right operand has a name is left as it is by the
backwards-compatibility block. -/
theorem legacyInOperands_named (left : Option Expression) (right : Expression)
    (op : Operator) (hname : right.Name ≠ "") :
    legacyInOperands [left, some right] op = .ok [left, some right] := by
  simp only [legacyInOperands]
  split
  · simp [hname]
  · rfl

/-- For the operators other than `In` and `Nin` the backwards-compatibility
block does nothing. -/
theorem legacyInOperands_other (exprs : List (Option Expression)) (op : Operator)
    (h1 : op ≠ .In) (h2 : op ≠ .Nin) : legacyInOperands exprs op = .ok exprs := by
  simp [legacyInOperands, h1, h2]

end sqlExprBuilder

/-- C9. Right-side unnest rejection: for a valid comparison or membership
operator and a condition with two operands, if the right operand is a Name
that resolves with `requiresUnnest = true`, compilation returns an error,
whatever the left operand is: "left expression is nil" for a nil left
operand, and otherwise the error that unnest is only supported on the left
side. -/
theorem right_unnest_rejected (ast : AST) (n : Option SelectNode) (pseudoHaving : Bool)
    (op : Operator) (left : Option Expression) (right : Expression) (x : String)
    (hor : op ≠ .Or) (hand : op ≠ .And) (hvalid : op.Valid = true)
    (hname : right.Name ≠ "")
    (hres : (sqlExprBuilder.start ast n pseudoHaving).sqlForName right.Name = .ok (x, true)) :
    ast.sqlForExpression (some (.ofCondition op [left, some right])) n pseudoHaving
      = .returned "" []
          (some (if left.isNone then Err.leftNil else Err.unnestOnRight right.Name)) := by
  apply sqlForExpression_of_error
  rw [sqlExprBuilder.writeExpression_ofCondition,
    sqlExprBuilder.writeCondition_binary _ _ _ hor hand hvalid]
  have hn := sqlExprBuilder.legacyInOperands_named left right op hname
  simp only [sqlExprBuilder.writeBinaryCondition]
  split
  · rename_i f hf
    rw [hn] at hf
    simp at hf
  · rename_i l r hf
    rw [hn] at hf
    simp at hf
    obtain ⟨h1, h2⟩ := hf
    subst h1 h2
    cases left with
    | none => simp
    | some l => simp [hname, hres, sqlExprBuilder.returned]
  · rename_i es hne hf
    rw [hn] at hf
    simp at hf
    exact absurd hf.symm (hne _ _)

/-- Witness of C9: `country = tags` in the example context, where `tags`
requires unnest. -/
theorem right_unnest_rejected_witness :
    (Operator.Eq ≠ .Or ∧ Operator.Eq ≠ .And ∧ Operator.Eq.Valid = true ∧
      (Expression.ofName "tags").Name ≠ "" ∧
      (sqlExprBuilder.start demoAST none false).sqlForName (Expression.ofName "tags").Name
        = .ok ("tags", true)) ∧
    demoAST.sqlForExpression
        (some (.ofCondition .Eq [some (.ofName "country"), some (.ofName "tags")])) none false
      = .returned "" [] (some (.unnestOnRight "tags")) :=
  ⟨⟨by decide, by decide, by rfl, by decide, by rfl⟩,
    right_unnest_rejected demoAST none false .Eq (some (.ofName "country")) (.ofName "tags")
      "tags" (by decide) (by decide) (by rfl) (by decide) (by rfl)⟩


namespace sqlExprBuilder

/-- A binary condition whose left operand is a name that requires unnest, in
a dialect that answers with a lateral-unnest FROM clause: the text
`[NOT] EXISTS (SELECT 1 FROM <from> WHERE `, then the condition written by
`writeBinaryConditionInner` against the correlated column, then `)`. -/
theorem writeBinaryCondition_unnest (b : sqlExprBuilder) (exprs : List (Option Expression))
    (op : Operator) (l r : Expression) (e fr : String)
    (hn : legacyInOperands exprs op = .ok [some l, some r])
    (hl : l.Name ≠ "")
    (hr : r.Name = "" ∨ ∃ x, b.sqlForName r.Name = .ok (x, false))
    (hres : b.sqlForName l.Name = .ok (e, true))
    (hlat : b.ast.dialect.LateralUnnest e b.generateIdentifier.1 l.Name = .ok (fr, true)) :
    b.writeBinaryCondition exprs op
      = ((((if (hoistNot op).2 then b.generateIdentifier.2.writeString "NOT "
            else b.generateIdentifier.2).writeString "EXISTS (SELECT 1 FROM ").writeString
              fr).writeString " WHERE ").writeBinaryConditionInner none (some r)
          (b.ast.sqlForMember b.generateIdentifier.1 l.Name) (hoistNot op).1
        >>= fun d => .ok (d.writeString ")") := by
  have hlat2 : b.generateIdentifier.2.ast.dialect.LateralUnnest e b.generateIdentifier.1 l.Name
      = .ok (fr, true) := hlat
  simp only [writeBinaryCondition]
  split
  · rename_i f hf
    rw [hn] at hf
    simp at hf
  · rename_i left right hf
    rw [hn] at hf
    simp at hf
    obtain ⟨h1, h2⟩ := hf
    subst h1 h2
    have hast : b.generateIdentifier.2.ast.sqlForMember = b.ast.sqlForMember := rfl
    rcases hr with hr | ⟨x, hr⟩
    · simp [hr, hl, hres, hlat2, hast, returned, Except.mapError]
    · by_cases hrn : r.Name = ""
      · simp [hrn, hl, hres, hlat2, hast, returned, Except.mapError]
      · simp [hrn, hr, hl, hres, hlat2, hast, returned, Except.mapError]
  · rename_i es hne hf
    rw [hn] at hf
    simp at hf
    exact absurd hf.symm (hne _ _)

/-- Writing into a builder whose output is still empty puts the text in front
of it. -/
theorem writeString_eq_prepend (b : sqlExprBuilder) (s : String) (hout : b.out = "") :
    b.writeString s = prepend s [] b := by
  simp [writeString, prepend, hout]

end sqlExprBuilder

/-- C10. Left-side unnest produces an EXISTS shape: for `op` among `Eq`, `In`,
`Ilike`, `Lt`, `Lte`, `Gt`, `Gte`, a left name that resolves with
`requiresUnnest = true` to `e`, the identifier `a` issued by the generator,
and a dialect with `LateralUnnest(e, a, name) = (from, true, nil)`: when the
right operand (as normalized for `In`) passes the right-side unnest check and
the ordinary compilation of `op` with left fragment `sqlForMember(a, name)`
and that right operand, started after `a` was issued, gives `(inner, params)`,
the condition compiles to `EXISTS (SELECT 1 FROM from WHERE inner)` with the
same params. -/
theorem unnest_left_exists (ast : AST) (n : Option SelectNode) (pseudoHaving : Bool)
    (op : Operator) (name e fr : String) (right right2 : Expression) (d : sqlExprBuilder)
    (hop : op = .Eq ∨ op = .In ∨ op = .Ilike ∨ op = .Lt ∨ op = .Lte ∨ op = .Gt ∨ op = .Gte)
    (hname : name ≠ "")
    (hres : (sqlExprBuilder.start ast n pseudoHaving).sqlForName name = .ok (e, true))
    (hlat : ast.dialect.LateralUnnest e (ast.identifierName ast.nextIdentifier) name
      = .ok (fr, true))
    (hn : sqlExprBuilder.legacyInOperands [some (.ofName name), some right] op
      = .ok [some (.ofName name), some right2])
    (hr : right2.Name = "" ∨
      ∃ x, (sqlExprBuilder.start ast n pseudoHaving).sqlForName right2.Name = .ok (x, false))
    (hinner :
      (sqlExprBuilder.start { ast with nextIdentifier := ast.nextIdentifier + 1 } n
          pseudoHaving).writeBinaryConditionInner none (some right2)
        (ast.sqlForMember (ast.identifierName ast.nextIdentifier) name) op = .ok d) :
    ast.sqlForExpression (some (.ofCondition op [some (.ofName name), some right])) n
        pseudoHaving
      = .returned ("EXISTS (SELECT 1 FROM " ++ fr ++ " WHERE " ++ d.out ++ ")") d.args none := by
  have hvalid : op ≠ .Or ∧ op ≠ .And ∧ op.Valid = true ∧
      sqlExprBuilder.hoistNot op = (op, false) := by
    rcases hop with h | h | h | h | h | h | h <;> subst h <;>
      simp [Operator.Valid, sqlExprBuilder.hoistNot]
  obtain ⟨h1, h2, h3, h4⟩ := hvalid
  rw [sqlForExpression_eq_ok, sqlExprBuilder.writeExpression_ofCondition,
    sqlExprBuilder.writeCondition_binary _ _ _ h1 h2 h3,
    sqlExprBuilder.writeBinaryCondition_unnest _ _ _ (.ofName name) right2 e fr hn hname hr
      hres hlat]
  simp only [h4, Bool.false_eq_true, if_false]
  have hb1 : (sqlExprBuilder.start ast n pseudoHaving).generateIdentifier.2
      = sqlExprBuilder.start { ast with nextIdentifier := ast.nextIdentifier + 1 } n
          pseudoHaving := rfl
  have hpre : (((sqlExprBuilder.start ast n pseudoHaving).generateIdentifier.2.writeString
      "EXISTS (SELECT 1 FROM ").writeString fr).writeString " WHERE "
      = sqlExprBuilder.prepend ("EXISTS (SELECT 1 FROM " ++ fr ++ " WHERE ") []
          (sqlExprBuilder.start { ast with nextIdentifier := ast.nextIdentifier + 1 } n
            pseudoHaving) := by
    rw [hb1]
    simp [sqlExprBuilder.writeString, sqlExprBuilder.prepend, sqlExprBuilder.start]
  rw [hpre]
  have hshift := sqlExprBuilder.shift_writeBinaryConditionInner none (some right2)
    (ast.sqlForMember (ast.identifierName ast.nextIdentifier) name) op
    (sqlExprBuilder.shift_writeExpression none) (sqlExprBuilder.shift_writeExpression _)
    ("EXISTS (SELECT 1 FROM " ++ fr ++ " WHERE ") []
    (sqlExprBuilder.start { ast with nextIdentifier := ast.nextIdentifier + 1 } n pseudoHaving)
  simp only at hshift
  show ∃ d2, ((sqlExprBuilder.prepend ("EXISTS (SELECT 1 FROM " ++ fr ++ " WHERE ") []
      (sqlExprBuilder.start { ast with nextIdentifier := ast.nextIdentifier + 1 } n
        pseudoHaving)).writeBinaryConditionInner none (some right2)
      (ast.sqlForMember (ast.identifierName ast.nextIdentifier) name) op
      >>= fun d => Except.ok (d.writeString ")")) = Except.ok d2 ∧
    d2.out = "EXISTS (SELECT 1 FROM " ++ fr ++ " WHERE " ++ d.out ++ ")" ∧ d2.args = d.args
  rw [hshift, hinner]
  simp [sqlExprBuilder.prepend, sqlExprBuilder.writeString, String.append_assoc]

/-- Witness of C10: `tags = "a"` in the example context, where `tags`
requires unnest and the generator issues the alias `t`. -/
theorem unnest_left_exists_witness :
    ((Operator.Eq = .Eq ∨ Operator.Eq = .In ∨ Operator.Eq = .Ilike ∨ Operator.Eq = .Lt ∨
        Operator.Eq = .Lte ∨ Operator.Eq = .Gt ∨ Operator.Eq = .Gte) ∧
      "tags" ≠ "" ∧
      (sqlExprBuilder.start demoAST none false).sqlForName "tags" = .ok ("tags", true) ∧
      demoAST.dialect.LateralUnnest "tags" (demoAST.identifierName demoAST.nextIdentifier)
          "tags" = .ok ("LATERAL UNNEST(tags) t", true) ∧
      sqlExprBuilder.legacyInOperands
          [some (.ofName "tags"), some (.ofValue (.str "a"))] .Eq
        = .ok [some (.ofName "tags"), some (.ofValue (.str "a"))] ∧
      (Expression.ofValue (.str "a")).Name = "" ∧
      (sqlExprBuilder.start { demoAST with nextIdentifier := demoAST.nextIdentifier + 1 } none
            false).writeBinaryConditionInner none (some (.ofValue (.str "a")))
          (demoAST.sqlForMember (demoAST.identifierName demoAST.nextIdentifier) "tags") .Eq
        = .ok { ast := { demoAST with nextIdentifier := demoAST.nextIdentifier + 1 },
                node := none, pseudoHaving := false, out := "(t.tags) = ?",
                args := [.str "a"] }) ∧
    demoAST.sqlForExpression
        (some (.ofCondition .Eq [some (.ofName "tags"), some (.ofValue (.str "a"))]))
        none false
      = .returned "EXISTS (SELECT 1 FROM LATERAL UNNEST(tags) t WHERE (t.tags) = ?)"
          [.str "a"] none := by
  have hinner :
      (sqlExprBuilder.start { demoAST with nextIdentifier := demoAST.nextIdentifier + 1 } none
            false).writeBinaryConditionInner none (some (.ofValue (.str "a")))
          (demoAST.sqlForMember (demoAST.identifierName demoAST.nextIdentifier) "tags") .Eq
        = .ok { ast := { demoAST with nextIdentifier := demoAST.nextIdentifier + 1 },
                node := none, pseudoHaving := false, out := "(t.tags) = ?",
                args := [.str "a"] } := by
    rw [sqlExprBuilder.writeBinaryConditionInner_Eq _ _ _ _ (by decide),
      sqlExprBuilder.writeExpression_ofValue _ _ (by simp)]
    rfl
  exact ⟨⟨by decide, by decide, by rfl, by rfl, by rfl, by rfl, hinner⟩,
    unnest_left_exists demoAST none false .Eq "tags" "tags" "LATERAL UNNEST(tags) t"
      (.ofValue (.str "a")) (.ofValue (.str "a")) _ (by decide) (by decide) (by rfl) (by rfl)
      (by rfl) (Or.inl (by rfl)) hinner⟩



/-- In the example context only `tags` requires unnest. -/
theorem demo_sqlForName (name x : String) (u : Bool)
    (h : (sqlExprBuilder.start demoAST none false).sqlForName name = .ok (x, u)) :
    (x = "t.country" ∧ u = false) ∨ (x = "status" ∧ u = false) ∨
      (name = "tags" ∧ x = "tags" ∧ u = true) := by
  simp only [sqlExprBuilder.sqlForName, sqlExprBuilder.start, demoAST,
    sqlExprBuilder.findDimField] at h
  by_cases h1 : "country" = name
  · subst h1
    simp at h
    obtain ⟨rfl, rfl⟩ := h
    simp
  · by_cases h2 : "status" = name
    · subst h2
      simp at h
      obtain ⟨rfl, rfl⟩ := h
      simp
    · by_cases h3 : name = "tags"
      · subst h3
        simp [demoDialect] at h
        obtain ⟨rfl, rfl⟩ := h
        simp
      · simp [h1, h2, h3] at h

/-- No fragment of the example context contains `?`. -/
theorem demo_quiet : (sqlExprBuilder.start demoAST none false).Quiet := by
  refine ⟨?_, ?_, ?_⟩
  · intro name x u h
    rcases demo_sqlForName name x u h with ⟨hx, -⟩ | ⟨hx, -⟩ | ⟨-, hx, -⟩ <;> subst hx <;> decide
  · intro k name x fr ok h hl
    rcases demo_sqlForName name x true h with ⟨-, hu⟩ | ⟨-, hu⟩ | ⟨hn, hx, -⟩
    · simp at hu
    · simp at hu
    · subst hn hx
      simp [sqlExprBuilder.start, demoAST, demoDialect] at hl
      rw [← hl.1]
      simp [countPlaceholders, String.data_append, List.count_replicate]
  · intro k name x h
    rcases demo_sqlForName name x true h with ⟨-, hu⟩ | ⟨-, hu⟩ | ⟨hn, hx, -⟩
    · simp at hu
    · simp at hu
    · subst hn hx
      simp [sqlExprBuilder.start, demoAST, countPlaceholders, String.data_append,
        List.count_replicate]

/-- Witness of C1: scenario B in the example context, three placeholders and
three parameters. -/
theorem placeholder_parameter_alignment_witness :
    (noSubqueryOpt
        (some (.ofCondition .Nin [some (.ofName "status"), some (.ofValue (.int 1)),
          some (.ofValue (.int 2)), some (.ofValue .null)])) = true ∧
      (sqlExprBuilder.start demoAST none false).Quiet ∧
      demoAST.sqlForExpression
          (some (.ofCondition .Nin [some (.ofName "status"), some (.ofValue (.int 1)),
            some (.ofValue (.int 2)), some (.ofValue .null)])) none false
        = .returned "((status) NOT IN (?,?,?) AND (status) IS NOT NULL)"
            [.int 1, .int 2, .null] none) ∧
    countPlaceholders "((status) NOT IN (?,?,?) AND (status) IS NOT NULL)"
      = [Val.int 1, Val.int 2, Val.null].length :=
  ⟨⟨by rfl, demo_quiet, scenarioB_compiled⟩,
    placeholder_parameter_alignment demoAST none false _ _ _ (by rfl) demo_quiet
      scenarioB_compiled⟩

/-! ## Boolean combinators and name resolution -/

/-- C12. Empty boolean combinator: `Condition{And, []}` and
`Condition{Or, []}` compile to the empty text with no params and no error. -/
theorem empty_boolean_combinator (ast : AST) (n : Option SelectNode) (pseudoHaving : Bool) :
    ast.sqlForExpression (some (.ofCondition .And [])) n pseudoHaving = .returned "" [] none ∧
    ast.sqlForExpression (some (.ofCondition .Or [])) n pseudoHaving = .returned "" [] none := by
  constructor <;>
    simp [AST.sqlForExpression, sqlExprBuilder.writeExpression_ofCondition,
      sqlExprBuilder.writeCondition, sqlExprBuilder.writeJoinedExpressions,
      sqlExprBuilder.start]

namespace sqlExprBuilder

/-- The search loop over dimension fields returns the first field with the
name. -/
theorem findDimField_eq_find (name : String) (fs : List DimensionField) :
    findDimField name fs = fs.find? (fun f => f.Name = name) := by
  induction fs with
  | nil => rfl
  | cons f fs ih =>
    simp only [findDimField, List.find?_cons]
    by_cases h : f.Name = name <;> simp [h, ih]

theorem findMeasureField_eq_find (name : String) (fs : List MeasureField) :
    findMeasureField name fs = fs.find? (fun f => f.Name = name) := by
  induction fs with
  | nil => rfl
  | cons f fs ih =>
    simp only [findMeasureField, List.find?_cons]
    by_cases h : f.Name = name <;> simp [h, ih]

end sqlExprBuilder

/-- C19. Node-scope resolution: with a non-nil node, `sqlForName(name)`
succeeds if and only if `name` is the Name of a dimension field of the node,
or `pseudoHaving` is true and `name` is the Name of a measure field of the
node; it returns the Expr of the first dimension field with that name if
there is one, otherwise (under `pseudoHaving`) of the first measure field with
that name, always with `requiresUnnest = false`; and the result is the same
for every AST, so neither the AST's dimension fields nor the catalog are
consulted. -/
theorem node_scope_resolution (ast : AST) (node : SelectNode) (pseudoHaving : Bool)
    (name : String) :
    ((∃ r, (sqlExprBuilder.start ast (some node) pseudoHaving).sqlForName name = .ok r) ↔
      ((∃ f ∈ node.DimFields, f.Name = name) ∨
        (pseudoHaving = true ∧ ∃ f ∈ node.MeasureFields, f.Name = name))) ∧
    (∀ f, node.DimFields.find? (fun f => f.Name = name) = some f →
      (sqlExprBuilder.start ast (some node) pseudoHaving).sqlForName name
        = .ok (f.Expr, false)) ∧
    (∀ f, node.DimFields.find? (fun f => f.Name = name) = none → pseudoHaving = true →
      node.MeasureFields.find? (fun f => f.Name = name) = some f →
      (sqlExprBuilder.start ast (some node) pseudoHaving).sqlForName name
        = .ok (f.Expr, false)) ∧
    (∀ e u, (sqlExprBuilder.start ast (some node) pseudoHaving).sqlForName name = .ok (e, u) →
      u = false) ∧
    (∀ ast2 : AST, (sqlExprBuilder.start ast2 (some node) pseudoHaving).sqlForName name
      = (sqlExprBuilder.start ast (some node) pseudoHaving).sqlForName name) := by
  have hdef : (sqlExprBuilder.start ast (some node) pseudoHaving).sqlForName name
      = match node.DimFields.find? (fun f => f.Name = name) with
        | some f => .ok (f.Expr, false)
        | none =>
          if !pseudoHaving then .error (.notDimensionInContext name)
          else
            match node.MeasureFields.find? (fun f => f.Name = name) with
            | some f => .ok (f.Expr, false)
            | none => .error (.notDimensionOrMeasureInContext name) := by
    simp only [sqlExprBuilder.sqlForName, sqlExprBuilder.start,
      sqlExprBuilder.findDimField_eq_find, sqlExprBuilder.findMeasureField_eq_find]
  refine ⟨?_, ?_, ?_, ?_, ?_⟩
  · rw [hdef]
    cases hd : node.DimFields.find? (fun f => f.Name = name) with
    | some f =>
      have hm := List.mem_of_find?_eq_some hd
      have hp := List.find?_some hd
      simp only [decide_eq_true_eq] at hp
      exact ⟨fun _ => Or.inl ⟨f, hm, hp⟩, fun _ => ⟨_, rfl⟩⟩
    | none =>
      have hnone : ¬ ∃ f ∈ node.DimFields, f.Name = name := by
        rintro ⟨f, hf, hn⟩
        have := List.find?_eq_none.mp hd f hf
        simp [hn] at this
      cases pseudoHaving with
      | false => simp [hnone]
      | true =>
        cases hmf : node.MeasureFields.find? (fun f => f.Name = name) with
        | some f =>
          have hm := List.mem_of_find?_eq_some hmf
          have hp := List.find?_some hmf
          simp only [decide_eq_true_eq] at hp
          simp [hnone]
          exact ⟨f, hm, hp⟩
        | none =>
          have hnone2 : ¬ ∃ f ∈ node.MeasureFields, f.Name = name := by
            rintro ⟨f, hf, hn⟩
            have := List.find?_eq_none.mp hmf f hf
            simp [hn] at this
          simp [hnone, hnone2]
  · intro f hf
    rw [hdef, hf]
  · intro f hf hp hmf
    rw [hdef, hf, hmf]
    simp [hp]
  · intro e u h
    rw [hdef] at h
    split at h
    · simp at h
      exact h.2
    · split at h
      · simp at h
      · split at h
        · simp at h
          exact h.2
        · simp at h
  · intro ast2
    rfl

/-- Witness of C19: in the example node `revenue` is a measure, visible under
`pseudoHaving`. -/
theorem node_scope_resolution_witness :
    (demoNode.DimFields.find? (fun f => f.Name = "revenue") = none ∧
      demoNode.MeasureFields.find? (fun f => f.Name = "revenue")
        = some { Name := "revenue", Expr := "revenue" }) ∧
    (sqlExprBuilder.start demoAST (some demoNode) true).sqlForName "revenue"
      = .ok ("revenue", false) :=
  ⟨⟨by rfl, by rfl⟩,
    (node_scope_resolution demoAST demoNode true "revenue").2.2.1 _ (by rfl) rfl (by rfl)⟩

/-- C20. Base-scope resolution: with a nil node, `sqlForName(name)` is decided
by the first entry of `ast.dimFields` with that name, if any: with Unnest set
the result is `(sqlForMember(UnnestAlias, Name), false)`, otherwise
`(Expr, false)`; if no projected field has the name the catalog lookup
decides: its error makes resolution fail, and a found dimension gives
`(dialect.MetricsViewDimensionExpression(dim), dim.Unnest)`. The result does
not depend on `pseudoHaving`. -/
theorem base_scope_resolution (ast : AST) (pseudoHaving : Bool) (name : String) :
    (∀ f, ast.dimFields.find? (fun f => f.Name = name) = some f → f.Unnest = true →
      (sqlExprBuilder.start ast none pseudoHaving).sqlForName name
        = .ok (ast.sqlForMember f.UnnestAlias f.Name, false)) ∧
    (∀ f, ast.dimFields.find? (fun f => f.Name = name) = some f → f.Unnest = false →
      (sqlExprBuilder.start ast none pseudoHaving).sqlForName name = .ok (f.Expr, false)) ∧
    (∀ err, ast.dimFields.find? (fun f => f.Name = name) = none →
      ast.lookupDimension name true = .error err →
      (sqlExprBuilder.start ast none pseudoHaving).sqlForName name
        = .error (.invalidDimensionReference name err)) ∧
    (∀ dim, ast.dimFields.find? (fun f => f.Name = name) = none →
      ast.lookupDimension name true = .ok dim →
      (sqlExprBuilder.start ast none pseudoHaving).sqlForName name
        = .ok (ast.dialect.MetricsViewDimensionExpression dim, dim.Unnest)) ∧
    (∀ pseudoHaving2 : Bool, (sqlExprBuilder.start ast none pseudoHaving2).sqlForName name
      = (sqlExprBuilder.start ast none pseudoHaving).sqlForName name) := by
  refine ⟨?_, ?_, ?_, ?_, ?_⟩
  · intro f hf hu
    simp [sqlExprBuilder.sqlForName, sqlExprBuilder.start,
      sqlExprBuilder.findDimField_eq_find, hf, hu]
  · intro f hf hu
    simp [sqlExprBuilder.sqlForName, sqlExprBuilder.start,
      sqlExprBuilder.findDimField_eq_find, hf, hu]
  · intro err hf hl
    simp [sqlExprBuilder.sqlForName, sqlExprBuilder.start,
      sqlExprBuilder.findDimField_eq_find, hf, hl]
  · intro dim hf hl
    simp [sqlExprBuilder.sqlForName, sqlExprBuilder.start,
      sqlExprBuilder.findDimField_eq_find, hf, hl]
  · intro p2
    rfl

/-- Witness of C20: in the example context `tags` is not projected and the
catalog marks it as requiring unnest. -/
theorem base_scope_resolution_witness :
    (demoAST.dimFields.find? (fun f => f.Name = "tags") = none ∧
      demoAST.lookupDimension "tags" true
        = .ok { Name := "tags", Column := "tags", Expression := "tags", Unnest := true }) ∧
    (sqlExprBuilder.start demoAST none false).sqlForName "tags" = .ok ("tags", true) :=
  ⟨⟨by rfl, by rfl⟩,
    (base_scope_resolution demoAST false "tags").2.2.2.1
      { Name := "tags", Column := "tags", Expression := "tags", Unnest := true }
      (by rfl) (by rfl)⟩

/-! ## Case-insensitive match -/

namespace sqlExprBuilder

/-- An operand that compiles passes the right-side unnest check. -/
theorem rightCheck_of_ok (b d : sqlExprBuilder) (r : Expression)
    (h : b.writeExpression (some r) = .ok d) :
    r.Name = "" ∨ ∃ x, b.sqlForName r.Name = .ok (x, false) := by
  obtain ⟨n, v, s, c⟩ := r
  by_cases hn : n = ""
  · exact Or.inl hn
  · right
    have h2 : b.writeName n = .ok d := by
      cases s <;> cases c <;> simpa [writeExpression, hn] using h
    simp only [writeName, bind_eq_ok, returned_eq_ok] at h2
    obtain ⟨res, hres, h3⟩ := h2
    obtain ⟨x, u⟩ := res
    cases u
    · exact ⟨x, hres⟩
    · simp at h3

/-- The builder at the start, with text written into it, is the start builder
with that text in front. -/
theorem start_writeString (ast : AST) (n : Option SelectNode) (ph : Bool) (s : String) :
    (start ast n ph).writeString s = prepend s [] (start ast n ph) := by
  simp [writeString, prepend, start]

theorem start_writeByte (ast : AST) (n : Option SelectNode) (ph : Bool) (c : Char) :
    (start ast n ph).writeByte c = prepend (String.singleton c) [] (start ast n ph) := by
  simp [writeByte, prepend, start, String.ext_iff]

theorem start_writeParenthesizedString (ast : AST) (n : Option SelectNode) (ph : Bool)
    (s : String) :
    (start ast n ph).writeParenthesizedString s
      = prepend ("(" ++ s ++ ")") [] (start ast n ph) := by
  simp [writeParenthesizedString, prepend, start, String.ext_iff]

theorem prepend_prepend (o1 o2 : String) (a1 a2 : List Val) (b : sqlExprBuilder) :
    prepend o1 a1 (prepend o2 a2 b) = prepend (o1 ++ o2) (a1 ++ a2) b := by
  simp [prepend, String.append_assoc]

/-- A case-insensitive match with a left override: the text `ilikeOpen`, the
right operand, the text `ilikeClose`. -/
theorem writeILikeCondition_override (ast : AST) (n : Option SelectNode) (ph : Bool)
    (left right : Option Expression) (lo : String) (not : Bool) (hlo : lo ≠ "") :
    (start ast n ph).writeILikeCondition left right lo not
      = ((start ast n ph).writeExpression right).map
          (fun d => (prepend (ilikeOpen lo not ast.dialect.SupportsILike) [] d).writeString
            (ilikeClose lo not ast.dialect.SupportsILike)) := by
  have hs2 : ∀ o a b, writeExpression (prepend o a b) right
      = Except.map (prepend o a) (writeExpression b right) := shift_writeExpression right
  have hast : (start ast n ph).ast = ast := rfl
  cases not <;> cases hnat : ast.dialect.SupportsILike
  all_goals
    simp only [writeILikeCondition, hast, hnat, hlo, ne_eq, not_false_eq_true, if_true,
      if_false, Bool.false_eq_true, writeByte_ast, writeString_ast, start_writeString,
      start_writeByte, start_writeParenthesizedString, writeString_prepend,
      writeByte_prepend, writeParenthesizedString_prepend, prepend_prepend, hs2, prepend_ast,
      bind_ok_eq]
  all_goals
    cases hr : (start ast n ph).writeExpression right <;>
      simp [ilikeOpen, ilikeClose, prepend, writeString, writeByte, writeParenthesizedString,
        String.ext_iff]

theorem writeBinaryConditionInner_ilike (b : sqlExprBuilder) (left right : Option Expression)
    (lo : String) (not : Bool) :
    b.writeBinaryConditionInner left right lo (ilikeOp not)
      = b.writeILikeCondition left right lo not := by
  cases not <;> simp [writeBinaryConditionInner, ilikeOp]

end sqlExprBuilder

/-- A literal compiles to one placeholder. -/
theorem compile_value (ast : AST) (n : Option SelectNode) (pseudoHaving : Bool) (v : Val)
    (hv : v ≠ .null) :
    ast.sqlForExpression (some (.ofValue v)) n pseudoHaving = .returned "?" [v] none := by
  rw [sqlForExpression_eq_ok, sqlExprBuilder.writeExpression_ofValue _ _ hv]
  simp [sqlExprBuilder.writeValue, sqlExprBuilder.writeString, sqlExprBuilder.appendArgs,
    sqlExprBuilder.start]

/-- A case-insensitive match of a name that resolves without unnest against
an operand that compiles to `(r, pr)`. -/
theorem compile_ilike (ast : AST) (n : Option SelectNode) (pseudoHaving : Bool)
    (name e r : String) (pr : List Val) (right : Expression) (not : Bool)
    (hname : name ≠ "") (he : e ≠ "")
    (hres : (sqlExprBuilder.start ast n pseudoHaving).sqlForName name = .ok (e, false))
    (hright : ast.sqlForExpression (some right) n pseudoHaving = .returned r pr none) :
    ast.sqlForExpression (some (.ofCondition (ilikeOp not) [some (.ofName name), some right]))
        n pseudoHaving
      = .returned (ilikeOpen e not ast.dialect.SupportsILike ++ r
          ++ ilikeClose e not ast.dialect.SupportsILike) pr none := by
  obtain ⟨d, hd, h1, h2⟩ := (sqlForExpression_eq_ok ast n pseudoHaving _ r pr).mp hright
  have hcheck := sqlExprBuilder.rightCheck_of_ok _ _ _ hd
  rw [sqlForExpression_eq_ok, sqlExprBuilder.writeExpression_ofCondition,
    sqlExprBuilder.writeCondition_binary _ _ _ (by cases not <;> decide)
      (by cases not <;> decide) (by cases not <;> decide),
    sqlExprBuilder.writeBinaryCondition_name _ _ _ (.ofName name) right e
      (sqlExprBuilder.legacyInOperands_other _ _ (by cases not <;> decide)
        (by cases not <;> decide)) hname hcheck hres,
    sqlExprBuilder.writeBinaryConditionInner_ilike,
    sqlExprBuilder.writeILikeCondition_override _ _ _ _ _ _ _ he, hd]
  simp [sqlExprBuilder.prepend, sqlExprBuilder.writeString, h1, h2]

/-- C15. Native ILIKE: for a dialect with `SupportsILike() = true`, a left
name that resolves without unnest to a non-empty fragment `e` and a right
operand that compiles to `(r, pr)`, `Ilike [left, right]` compiles to exactly
`"(" ++ e ++ ") ILIKE " ++ r` with params `pr`: no enclosing parentheses and
no IS NULL clause. -/
theorem native_ilike (ast : AST) (n : Option SelectNode) (pseudoHaving : Bool)
    (name e r : String) (pr : List Val) (right : Expression)
    (hnative : ast.dialect.SupportsILike = true)
    (hname : name ≠ "") (he : e ≠ "")
    (hres : (sqlExprBuilder.start ast n pseudoHaving).sqlForName name = .ok (e, false))
    (hright : ast.sqlForExpression (some right) n pseudoHaving = .returned r pr none) :
    ast.sqlForExpression (some (.ofCondition .Ilike [some (.ofName name), some right]))
        n pseudoHaving
      = .returned ("(" ++ e ++ ") ILIKE " ++ r) pr none := by
  have h := compile_ilike ast n pseudoHaving name e r pr right false hname he hres hright
  simp only [ilikeOp, Bool.false_eq_true, if_false] at h
  rw [h]
  simp [ilikeOpen, ilikeClose, hnative, String.ext_iff]

/-- C16. Negated ILIKE includes NULLs: for a left name that resolves without
unnest to a non-empty fragment `e` and a right operand that compiles to
`(r, pr)`, in either kind of dialect `Nilike [left, right]` compiles to a
text that starts with `(` and ends with ` OR (e) IS NULL)`, with params `pr`;
with native ILIKE the text is exactly `((e) NOT ILIKE r OR (e) IS NULL)`. -/
theorem nilike_includes_null (ast : AST) (n : Option SelectNode) (pseudoHaving : Bool)
    (name e r : String) (pr : List Val) (right : Expression)
    (hname : name ≠ "") (he : e ≠ "")
    (hres : (sqlExprBuilder.start ast n pseudoHaving).sqlForName name = .ok (e, false))
    (hright : ast.sqlForExpression (some right) n pseudoHaving = .returned r pr none) :
    (∃ middle : String,
      ast.sqlForExpression (some (.ofCondition .Nilike [some (.ofName name), some right]))
          n pseudoHaving
        = .returned ("(" ++ middle ++ " OR (" ++ e ++ ") IS NULL)") pr none) ∧
    (ast.dialect.SupportsILike = true →
      ast.sqlForExpression (some (.ofCondition .Nilike [some (.ofName name), some right]))
          n pseudoHaving
        = .returned ("((" ++ e ++ ") NOT ILIKE " ++ r ++ " OR (" ++ e ++ ") IS NULL)") pr
            none) := by
  have h := compile_ilike ast n pseudoHaving name e r pr right true hname he hres hright
  simp only [ilikeOp, if_true] at h
  rw [h]
  constructor
  · cases hnat : ast.dialect.SupportsILike
    · exact ⟨"LOWER(" ++ e ++ ") NOT ILIKE LOWER(" ++ r ++ ")", by
        simp [ilikeOpen, ilikeClose, String.ext_iff]⟩
    · exact ⟨"(" ++ e ++ ") NOT ILIKE " ++ r, by
        simp [ilikeOpen, ilikeClose, String.ext_iff]⟩
  · intro hnat
    simp [ilikeOpen, ilikeClose, hnat, String.ext_iff]

/-- C17. ILIKE fallback shape: for a dialect with `SupportsILike() = false`, a
left name that resolves without unnest to a non-empty fragment `e` and a right
operand that compiles to `(r, pr)`, `Ilike` compiles to
`LOWER(e) ILIKE LOWER(r)` and `Nilike` to
`(LOWER(e) NOT ILIKE LOWER(r) OR (e) IS NULL)`, both with params `pr`. -/
theorem ilike_fallback_shape (ast : AST) (n : Option SelectNode) (pseudoHaving : Bool)
    (name e r : String) (pr : List Val) (right : Expression)
    (hnative : ast.dialect.SupportsILike = false)
    (hname : name ≠ "") (he : e ≠ "")
    (hres : (sqlExprBuilder.start ast n pseudoHaving).sqlForName name = .ok (e, false))
    (hright : ast.sqlForExpression (some right) n pseudoHaving = .returned r pr none) :
    ast.sqlForExpression (some (.ofCondition .Ilike [some (.ofName name), some right]))
        n pseudoHaving
      = .returned ("LOWER(" ++ e ++ ") ILIKE LOWER(" ++ r ++ ")") pr none ∧
    ast.sqlForExpression (some (.ofCondition .Nilike [some (.ofName name), some right]))
        n pseudoHaving
      = .returned ("(LOWER(" ++ e ++ ") NOT ILIKE LOWER(" ++ r ++ ") OR (" ++ e
          ++ ") IS NULL)") pr none := by
  have h1 := compile_ilike ast n pseudoHaving name e r pr right false hname he hres hright
  have h2 := compile_ilike ast n pseudoHaving name e r pr right true hname he hres hright
  simp only [ilikeOp, if_true, Bool.false_eq_true, if_false] at h1 h2
  rw [h1, h2]
  constructor <;> simp [ilikeOpen, ilikeClose, hnative, String.ext_iff]

/-- Witness of C15: `country ILIKE "a%"` in the example context. -/
theorem native_ilike_witness :
    (demoAST.dialect.SupportsILike = true ∧
      (sqlExprBuilder.start demoAST none false).sqlForName "country"
        = .ok ("t.country", false) ∧
      demoAST.sqlForExpression (some (.ofValue (.str "a%"))) none false
        = .returned "?" [.str "a%"] none) ∧
    demoAST.sqlForExpression
        (some (.ofCondition .Ilike [some (.ofName "country"), some (.ofValue (.str "a%"))]))
        none false
      = .returned ("(" ++ "t.country" ++ ") ILIKE " ++ "?") [.str "a%"] none :=
  ⟨⟨by rfl, by rfl, compile_value demoAST none false (.str "a%") (by simp)⟩,
    native_ilike demoAST none false "country" "t.country" "?" [.str "a%"]
      (.ofValue (.str "a%")) (by rfl) (by decide) (by decide) (by rfl)
      (compile_value demoAST none false (.str "a%") (by simp))⟩

/-- Witness of C16: `status NOT ILIKE "x%"` in the example context. -/
theorem nilike_includes_null_witness :
    ((sqlExprBuilder.start demoAST none false).sqlForName "status" = .ok ("status", false) ∧
      demoAST.sqlForExpression (some (.ofValue (.str "x%"))) none false
        = .returned "?" [.str "x%"] none) ∧
    ((∃ middle : String,
      demoAST.sqlForExpression
          (some (.ofCondition .Nilike [some (.ofName "status"), some (.ofValue (.str "x%"))]))
          none false
        = .returned ("(" ++ middle ++ " OR (" ++ "status" ++ ") IS NULL)") [.str "x%"] none) ∧
    (demoAST.dialect.SupportsILike = true →
      demoAST.sqlForExpression
          (some (.ofCondition .Nilike [some (.ofName "status"), some (.ofValue (.str "x%"))]))
          none false
        = .returned ("((" ++ "status" ++ ") NOT ILIKE " ++ "?" ++ " OR (" ++ "status"
            ++ ") IS NULL)") [.str "x%"] none)) :=
  ⟨⟨by rfl, compile_value demoAST none false (.str "x%") (by simp)⟩,
    nilike_includes_null demoAST none false "status" "status" "?" [.str "x%"]
      (.ofValue (.str "x%")) (by decide) (by decide) (by rfl)
      (compile_value demoAST none false (.str "x%") (by simp))⟩

/-- Witness of C17: `status` matched against `"x%"` in the example context
without native ILIKE. -/
theorem ilike_fallback_shape_witness :
    (demoFallbackAST.dialect.SupportsILike = false ∧
      (sqlExprBuilder.start demoFallbackAST none false).sqlForName "status"
        = .ok ("status", false) ∧
      demoFallbackAST.sqlForExpression (some (.ofValue (.str "x%"))) none false
        = .returned "?" [.str "x%"] none) ∧
    (demoFallbackAST.sqlForExpression
        (some (.ofCondition .Ilike [some (.ofName "status"), some (.ofValue (.str "x%"))]))
        none false
      = .returned ("LOWER(" ++ "status" ++ ") ILIKE LOWER(" ++ "?" ++ ")") [.str "x%"] none ∧
    demoFallbackAST.sqlForExpression
        (some (.ofCondition .Nilike [some (.ofName "status"), some (.ofValue (.str "x%"))]))
        none false
      = .returned ("(LOWER(" ++ "status" ++ ") NOT ILIKE LOWER(" ++ "?" ++ ") OR (" ++ "status"
          ++ ") IS NULL)") [.str "x%"] none) :=
  ⟨⟨by rfl, by rfl, compile_value demoFallbackAST none false (.str "x%") (by simp)⟩,
    ilike_fallback_shape demoFallbackAST none false "status" "status" "?" [.str "x%"]
      (.ofValue (.str "x%")) (by rfl) (by decide) (by decide) (by rfl)
      (compile_value demoFallbackAST none false (.str "x%") (by simp))⟩

/-- C18. For a dialect with `SupportsILike() = false` the fallback branch of
`writeILikeCondition` writes the keyword `ILIKE`, not `LIKE`: in the example
context without native ILIKE, `Ilike [country, "A%"]` compiles to
`LOWER(t.country) ILIKE LOWER(?)` and `Nilike [country, "A%"]` to
`(LOWER(t.country) NOT ILIKE LOWER(?) OR (t.country) IS NULL)`. -/
theorem ilike_fallback_keyword :
    demoFallbackAST.dialect.SupportsILike = false ∧
    demoFallbackAST.sqlForExpression
        (some (.ofCondition .Ilike [some (.ofName "country"), some (.ofValue (.str "A%"))]))
        none false
      = .returned "LOWER(t.country) ILIKE LOWER(?)" [.str "A%"] none ∧
    demoFallbackAST.sqlForExpression
        (some (.ofCondition .Nilike [some (.ofName "country"), some (.ofValue (.str "A%"))]))
        none false
      = .returned "(LOWER(t.country) NOT ILIKE LOWER(?) OR (t.country) IS NULL)" [.str "A%"]
          none := by
  have hv := compile_value demoFallbackAST none false (.str "A%") (by simp)
  have h1 := compile_ilike demoFallbackAST none false "country" "t.country" "?" [.str "A%"]
    (.ofValue (.str "A%")) false (by decide) (by decide) (by rfl) hv
  have h2 := compile_ilike demoFallbackAST none false "country" "t.country" "?" [.str "A%"]
    (.ofValue (.str "A%")) true (by decide) (by decide) (by rfl) hv
  exact ⟨by rfl, h1, h2⟩

/-! ## Negation hoisted out of the unnest subquery -/

namespace sqlExprBuilder

/-- The backwards-compatibility block treats `Nin` as `In`. -/
theorem legacyInOperands_Nin (exprs : List (Option Expression)) :
    legacyInOperands exprs .Nin = legacyInOperands exprs .In := by
  simp [legacyInOperands]

/-- The backwards-compatibility block keeps the left operand. -/
theorem legacyInOperands_head (l : Option Expression) (rest : List (Option Expression))
    (op : Operator) (left right : Option Expression)
    (hn : legacyInOperands (l :: rest) op = .ok [left, right]) : left = l := by
  unfold legacyInOperands at hn
  split at hn
  · split at hn
    · split at hn
      · simp at hn
      · split at hn <;> simp at hn <;> simp_all
    · split at hn
      · simp at hn
      · simp at hn
        simp_all
    · simp at hn
      simp_all
  · simp at hn
    simp_all

/-- A failure of the backwards-compatibility block is the result of
`writeBinaryCondition`. -/
theorem writeBinaryCondition_of_error (b : sqlExprBuilder) (exprs : List (Option Expression))
    (op : Operator) (f : Failure) (hn : legacyInOperands exprs op = .error f) :
    b.writeBinaryCondition exprs op = .error f := by
  simp only [writeBinaryCondition]
  split
  · rename_i f2 hf
    rw [hn] at hf
    simp at hf
    rw [hf]
  · rename_i left right hf
    rw [hn] at hf
    simp at hf
  · rename_i es hne hf
    rw [hn] at hf
    simp at hf

/-- An operand list that is not of length two is rejected (line 171). -/
theorem writeBinaryCondition_of_arity (b : sqlExprBuilder) (exprs es : List (Option Expression))
    (op : Operator) (hn : legacyInOperands exprs op = .ok es) (hes : ∀ l r, es ≠ [l, r]) :
    b.writeBinaryCondition exprs op = .error (.error .binaryArity) := by
  simp only [writeBinaryCondition]
  split
  · rename_i f2 hf
    rw [hn] at hf
    simp at hf
  · rename_i left right hf
    rw [hn] at hf
    simp at hf
    exact absurd hf (hes _ _)
  · rfl

/-- A nil right operand behind a non-nil left one is rejected (line 181). -/
theorem writeBinaryCondition_of_rightNil (b : sqlExprBuilder)
    (exprs : List (Option Expression)) (op : Operator) (l : Expression)
    (hn : legacyInOperands exprs op = .ok [some l, none]) :
    b.writeBinaryCondition exprs op = .error (.error .rightNil) := by
  simp only [writeBinaryCondition]
  split
  · rename_i f2 hf
    rw [hn] at hf
    simp at hf
  · rename_i left2 right2 hf
    rw [hn] at hf
    simp at hf
    obtain ⟨h1, h2⟩ := hf
    subst h1 h2
    rfl
  · rename_i es hne hf
    rw [hn] at hf
    simp at hf
    exact absurd hf.symm (hne _ _)

/-- A failed right-side check is the result of `writeBinaryCondition`,
whatever the operator. -/
theorem writeBinaryCondition_rightCheck (b : sqlExprBuilder)
    (exprs : List (Option Expression)) (op : Operator) (l r : Expression)
    (hn : legacyInOperands exprs op = .ok [some l, some r])
    (hr : ¬ (r.Name = "" ∨ ∃ x, b.sqlForName r.Name = .ok (x, false))) :
    b.writeBinaryCondition exprs op
      = match b.sqlForName r.Name with
        | .error err => .error (.error err)
        | .ok _ => .error (.error (.unnestOnRight r.Name)) := by
  simp only [writeBinaryCondition]
  split
  · rename_i f2 hf
    rw [hn] at hf
    simp at hf
  · rename_i left2 right2 hf
    rw [hn] at hf
    simp at hf
    obtain ⟨h1, h2⟩ := hf
    subst h1 h2
    simp only [not_or, not_exists] at hr
    obtain ⟨hrn, hr⟩ := hr
    cases hres : b.sqlForName r.Name with
    | error err => simp [hrn, hres, returned]
    | ok res =>
      obtain ⟨x, u⟩ := res
      cases u
      · exact absurd hres (hr x)
      · simp [hrn, hres, returned]
  · rename_i es hne hf
    rw [hn] at hf
    simp at hf
    exact absurd hf.symm (hne _ _)

/-- With a left name that requires unnest and a lateral-unnest FROM clause,
a negated operator writes what its positive counterpart writes, behind
`NOT `. -/
theorem writeBinaryCondition_hoisted (ast : AST) (n : Option SelectNode) (ph : Bool)
    (l : Expression) (rest : List (Option Expression)) (op op2 : Operator) (e fr : String)
    (hpair : hoistNot op2 = (op, true) ∧ hoistNot op = (op, false) ∧
      legacyInOperands (some l :: rest) op2 = legacyInOperands (some l :: rest) op)
    (hl : l.Name ≠ "")
    (hres : (start ast n ph).sqlForName l.Name = .ok (e, true))
    (hlat : ast.dialect.LateralUnnest e (ast.identifierName ast.nextIdentifier) l.Name
      = .ok (fr, true)) :
    (start ast n ph).writeBinaryCondition (some l :: rest) op2
      = ((start ast n ph).writeBinaryCondition (some l :: rest) op).map (prepend "NOT " []) := by
  obtain ⟨hh2, hh, hleg⟩ := hpair
  have hgen : (start ast n ph).generateIdentifier.2.writeString "NOT "
      = prepend "NOT " [] (start ast n ph).generateIdentifier.2 :=
    writeString_eq_prepend _ _ rfl
  have hs : ∀ left right lo op o a b,
      writeBinaryConditionInner (prepend o a b) left right lo op
        = Except.map (prepend o a) (writeBinaryConditionInner b left right lo op) :=
    fun left right lo op => shift_writeBinaryConditionInner left right lo op
      (shift_writeExpression left) (shift_writeExpression right)
  cases hn : legacyInOperands (some l :: rest) op with
  | error f =>
    rw [writeBinaryCondition_of_error _ _ _ f (hleg.trans hn),
      writeBinaryCondition_of_error _ _ _ f hn]
    rfl
  | ok es =>
    by_cases hes : ∃ left right, es = [left, right]
    · obtain ⟨left, right, hes⟩ := hes
      subst hes
      have hleft := legacyInOperands_head _ _ _ _ _ hn
      subst hleft
      cases right with
      | none =>
        rw [writeBinaryCondition_of_rightNil _ _ _ l (hleg.trans hn),
          writeBinaryCondition_of_rightNil _ _ _ l hn]
        rfl
      | some r =>
        by_cases hr : r.Name = "" ∨ ∃ x, (start ast n ph).sqlForName r.Name = .ok (x, false)
        · rw [writeBinaryCondition_unnest _ _ _ l r e fr (hleg.trans hn) hl hr hres hlat,
            writeBinaryCondition_unnest _ _ _ l r e fr hn hl hr hres hlat]
          simp only [hh, hh2, if_true, Bool.false_eq_true, if_false, hgen, writeString_prepend,
            hs, map_bind_eq, bind_map_eq, map_ok_eq]
        · rw [writeBinaryCondition_rightCheck _ _ _ l r (hleg.trans hn) hr,
            writeBinaryCondition_rightCheck _ _ _ l r hn hr]
          cases (start ast n ph).sqlForName r.Name <;> rfl
    · have hes2 : ∀ left right, es ≠ [left, right] := fun left right h => hes ⟨left, right, h⟩
      rw [writeBinaryCondition_of_arity _ _ es _ (hleg.trans hn) hes2,
        writeBinaryCondition_of_arity _ _ es _ hn hes2]
      rfl

end sqlExprBuilder

/-- The hoisting for each pair of a negated operator and its positive
counterpart, on compiled results. -/
theorem compile_hoisted (ast : AST) (n : Option SelectNode) (pseudoHaving : Bool)
    (l : Expression) (rest : List (Option Expression)) (op op2 : Operator) (e fr : String)
    (hpair : (op = .Eq ∧ op2 = .Neq) ∨ (op = .In ∧ op2 = .Nin) ∨ (op = .Ilike ∧ op2 = .Nilike))
    (hl : l.Name ≠ "")
    (hres : (sqlExprBuilder.start ast n pseudoHaving).sqlForName l.Name = .ok (e, true))
    (hlat : ast.dialect.LateralUnnest e (ast.identifierName ast.nextIdentifier) l.Name
      = .ok (fr, true)) :
    ast.sqlForExpression (some (.ofCondition op2 (some l :: rest))) n pseudoHaving
      = (ast.sqlForExpression (some (.ofCondition op (some l :: rest))) n
          pseudoHaving).withNot := by
  have hp : sqlExprBuilder.hoistNot op2 = (op, true) ∧ sqlExprBuilder.hoistNot op = (op, false) ∧
      sqlExprBuilder.legacyInOperands (some l :: rest) op2
        = sqlExprBuilder.legacyInOperands (some l :: rest) op := by
    rcases hpair with ⟨h1, h2⟩ | ⟨h1, h2⟩ | ⟨h1, h2⟩ <;> subst h1 h2 <;>
      simp [sqlExprBuilder.hoistNot, sqlExprBuilder.legacyInOperands]
  have hv : op.Valid = true ∧ op2.Valid = true ∧ op ≠ .Or ∧ op ≠ .And ∧ op2 ≠ .Or ∧ op2 ≠ .And := by
    rcases hpair with ⟨h1, h2⟩ | ⟨h1, h2⟩ | ⟨h1, h2⟩ <;> subst h1 h2 <;> simp [Operator.Valid]
  have h := sqlExprBuilder.writeBinaryCondition_hoisted ast n pseudoHaving l rest op op2 e fr hp
    hl hres hlat
  simp only [AST.sqlForExpression, sqlExprBuilder.writeExpression_ofCondition,
    sqlExprBuilder.writeCondition_binary _ _ _ hv.2.2.1 hv.2.2.2.1 hv.1,
    sqlExprBuilder.writeCondition_binary _ _ _ hv.2.2.2.2.1 hv.2.2.2.2.2 hv.2.1, h]
  cases hw : (sqlExprBuilder.start ast n pseudoHaving).writeBinaryCondition (some l :: rest) op with
  | error f => cases f <;> simp [GoResult.withNot]
  | ok d => simp [GoResult.withNot, sqlExprBuilder.prepend]

/-- C11. Negation is hoisted out of the unnest subquery: with a left name
that requires unnest and a dialect whose `LateralUnnest` returns `ok = true`
for the identifier the generator issues, compiled from the same
identifier-generator state, the result for `Neq` (resp. `Nin`, `Nilike`) is
the result for `Eq` (resp. `In`, `Ilike`) on the same operands with `NOT ` in
front of the SQL text and the same params; when the positive form returns an
error, the negated form returns the same error. -/
theorem negation_hoisted (ast : AST) (n : Option SelectNode) (pseudoHaving : Bool)
    (l : Expression) (rest : List (Option Expression)) (e fr : String)
    (hl : l.Name ≠ "")
    (hres : (sqlExprBuilder.start ast n pseudoHaving).sqlForName l.Name = .ok (e, true))
    (hlat : ast.dialect.LateralUnnest e (ast.identifierName ast.nextIdentifier) l.Name
      = .ok (fr, true)) :
    ast.sqlForExpression (some (.ofCondition .Neq (some l :: rest))) n pseudoHaving
      = (ast.sqlForExpression (some (.ofCondition .Eq (some l :: rest))) n
          pseudoHaving).withNot ∧
    ast.sqlForExpression (some (.ofCondition .Nin (some l :: rest))) n pseudoHaving
      = (ast.sqlForExpression (some (.ofCondition .In (some l :: rest))) n
          pseudoHaving).withNot ∧
    ast.sqlForExpression (some (.ofCondition .Nilike (some l :: rest))) n pseudoHaving
      = (ast.sqlForExpression (some (.ofCondition .Ilike (some l :: rest))) n
          pseudoHaving).withNot :=
  ⟨compile_hoisted ast n pseudoHaving l rest .Eq .Neq e fr (Or.inl ⟨rfl, rfl⟩) hl hres hlat,
    compile_hoisted ast n pseudoHaving l rest .In .Nin e fr (Or.inr (Or.inl ⟨rfl, rfl⟩)) hl hres
      hlat,
    compile_hoisted ast n pseudoHaving l rest .Ilike .Nilike e fr (Or.inr (Or.inr ⟨rfl, rfl⟩)) hl
      hres hlat⟩

/-- Witness of C11: `tags` compared with `"a"` in the example context, where
`tags` requires unnest and the alias issued is `t`. -/
theorem negation_hoisted_witness :
    ((Expression.ofName "tags").Name ≠ "" ∧
      (sqlExprBuilder.start demoAST none false).sqlForName (Expression.ofName "tags").Name
        = .ok ("tags", true) ∧
      demoAST.dialect.LateralUnnest "tags" (demoAST.identifierName demoAST.nextIdentifier)
          (Expression.ofName "tags").Name
        = .ok ("LATERAL UNNEST(tags) t", true)) ∧
    (demoAST.sqlForExpression
        (some (.ofCondition .Neq [some (.ofName "tags"), some (.ofValue (.str "a"))])) none false
      = (demoAST.sqlForExpression
          (some (.ofCondition .Eq [some (.ofName "tags"), some (.ofValue (.str "a"))])) none
          false).withNot ∧
    demoAST.sqlForExpression
        (some (.ofCondition .Nin [some (.ofName "tags"), some (.ofValue (.str "a"))])) none false
      = (demoAST.sqlForExpression
          (some (.ofCondition .In [some (.ofName "tags"), some (.ofValue (.str "a"))])) none
          false).withNot ∧
    demoAST.sqlForExpression
        (some (.ofCondition .Nilike [some (.ofName "tags"), some (.ofValue (.str "a"))])) none
        false
      = (demoAST.sqlForExpression
          (some (.ofCondition .Ilike [some (.ofName "tags"), some (.ofValue (.str "a"))])) none
          false).withNot) :=
  ⟨⟨by decide, by rfl, by rfl⟩,
    negation_hoisted demoAST none false (.ofName "tags") [some (.ofValue (.str "a"))] "tags"
      "LATERAL UNNEST(tags) t" (by decide) (by rfl) (by rfl)⟩

/-! ## What a successful compilation keeps of its context

The writers only write text, bind parameters and issue identifiers, so the
builder they return has the node, the `pseudoHaving` flag and the AST of the
builder they started from, up to the state of the identifier generator. -/

section Preservation
set_option linter.unusedTactic false
set_option linter.unreachableTactic false

theorem StepClosed.writePlaceholders {R : sqlExprBuilder → sqlExprBuilder → Prop}
    (C : StepClosed R) (b0 b : sqlExprBuilder) (i n : Nat)
    (h : R b0 b) : R b0 (b.writePlaceholders i n) := by
  induction n generalizing b i with
  | zero => exact h
  | succ n ih =>
    simp only [sqlExprBuilder.writePlaceholders]
    split
    · exact ih _ _ (C.writeString _ _ _ h)
    · exact ih _ _ (C.writeString _ _ _ h)

namespace sqlExprBuilder

variable {R : sqlExprBuilder → sqlExprBuilder → Prop}

theorem preserves_writeInConditionForValues (C : StepClosed R) (left : Option Expression)
    (lo : String) (vals : List Val) (not : Bool)
    (hl : Preserves R (fun b => b.writeExpression left)) :
    Preserves R (fun b => b.writeInConditionForValues left lo vals not) := by
  intro b0 b d hR h
  have hl2 : ∀ b0 b d, R b0 b → writeExpression b left = .ok d → R b0 d := hl
  simp only [writeInConditionForValues] at h
  cases not <;> cases hN : hasNull vals <;> by_cases hlo : lo = "" <;>
    by_cases hv : vals.length = 0 <;>
    simp [hN, hlo, hv, bind_eq_ok] at h
  all_goals
    repeat
      refine Exists.elim h ?_
      clear h
      intro d1 h
      obtain ⟨h1, h⟩ := h
      have q := hl2 b0 _ _ (by
        repeat (first
          | exact hR
          | apply C.writeString
          | apply C.writeByte
          | apply C.writeParenthesizedString
          | apply C.appendArgs
          | apply C.writePlaceholders
          | split)) h1
      clear hR h1
      have hR := q
      clear q
  all_goals
    subst h
    repeat (first
      | exact hR
      | apply C.writeString
      | apply C.writeByte
      | apply C.writeParenthesizedString
      | apply C.appendArgs
      | apply C.writePlaceholders
      | split)

theorem preserves_writeInCondition (C : StepClosed R) (left right : Option Expression)
    (lo : String) (not : Bool)
    (hl : Preserves R (fun b => b.writeExpression left))
    (hr : Preserves R (fun b => b.writeExpression right)) :
    Preserves R (fun b => b.writeInCondition left right lo not) := by
  intro b0 b d hR h
  have hl2 : ∀ b0 b d, R b0 b → writeExpression b left = .ok d → R b0 d := hl
  cases right with
  | none => simp [writeInCondition] at h
  | some r =>
    have hr2 : ∀ b0 b d, R b0 b → writeExpression b (some r) = .ok d → R b0 d := hr
    simp only [writeInCondition] at h
    split at h
    · split at h
      · simp at h
      · exact preserves_writeInConditionForValues C left lo _ not hl b0 b d hR h
    · cases not <;> by_cases hlo : lo = "" <;> simp [hlo, bind_eq_ok] at h
      all_goals
        repeat
          refine Exists.elim h ?_
          clear h
          intro d1 h
          obtain ⟨h1, h⟩ := h
          first
            | have q := hl2 b0 _ _ (by
                repeat (first
                  | exact hR
                  | apply C.writeString
                  | apply C.writeByte
                  | apply C.writeParenthesizedString
                  | apply C.appendArgs
                  | apply C.writePlaceholders
                  | apply C.generateIdentifier
                  | split)) h1
            | have q := hr2 b0 _ _ (by
                repeat (first
                  | exact hR
                  | apply C.writeString
                  | apply C.writeByte
                  | apply C.writeParenthesizedString
                  | apply C.appendArgs
                  | apply C.writePlaceholders
                  | apply C.generateIdentifier
                  | split)) h1
          clear hR h1
          have hR := q
          clear q
      all_goals first
        | (subst h
           repeat (first
             | exact hR
             | apply C.writeString
             | apply C.writeByte
             | apply C.writeParenthesizedString
             | apply C.appendArgs
             | apply C.writePlaceholders
             | apply C.generateIdentifier
             | split))
        | exact hl2 b0 _ _ (by
            repeat (first
              | exact hR
              | apply C.writeString
              | apply C.writeByte
              | apply C.writeParenthesizedString
              | apply C.appendArgs
              | apply C.writePlaceholders
              | apply C.generateIdentifier
              | split)) h
        | exact hr2 b0 _ _ (by
            repeat (first
              | exact hR
              | apply C.writeString
              | apply C.writeByte
              | apply C.writeParenthesizedString
              | apply C.appendArgs
              | apply C.writePlaceholders
              | apply C.generateIdentifier
              | split)) h

theorem preserves_writeILikeCondition (C : StepClosed R) (left right : Option Expression)
    (lo : String) (not : Bool)
    (hl : Preserves R (fun b => b.writeExpression left))
    (hr : Preserves R (fun b => b.writeExpression right)) :
    Preserves R (fun b => b.writeILikeCondition left right lo not) := by
  intro b0 b d hR h
  have hl2 : ∀ b0 b d, R b0 b → writeExpression b left = .ok d → R b0 d := hl
  have hr2 : ∀ b0 b d, R b0 b → writeExpression b right = .ok d → R b0 d := hr
  simp only [writeILikeCondition] at h
  cases not <;> cases hs : b.ast.dialect.SupportsILike <;> by_cases hlo : lo = "" <;>
    simp [hs, hlo, bind_eq_ok] at h
  all_goals
    repeat
      refine Exists.elim h ?_
      clear h
      intro d1 h
      obtain ⟨h1, h⟩ := h
      first
        | have q := hl2 b0 _ _ (by
            repeat (first
              | exact hR
              | apply C.writeString
              | apply C.writeByte
              | apply C.writeParenthesizedString
              | apply C.appendArgs
              | apply C.writePlaceholders
              | apply C.generateIdentifier
              | split)) h1
        | have q := hr2 b0 _ _ (by
            repeat (first
              | exact hR
              | apply C.writeString
              | apply C.writeByte
              | apply C.writeParenthesizedString
              | apply C.appendArgs
              | apply C.writePlaceholders
              | apply C.generateIdentifier
              | split)) h1
      clear hR h1
      have hR := q
      clear q
  all_goals first
    | (subst h
       repeat (first
         | exact hR
         | apply C.writeString
         | apply C.writeByte
         | apply C.writeParenthesizedString
         | apply C.appendArgs
         | apply C.writePlaceholders
         | apply C.generateIdentifier
         | split))
    | exact hl2 b0 _ _ (by
        repeat (first
          | exact hR
          | apply C.writeString
          | apply C.writeByte
          | apply C.writeParenthesizedString
          | apply C.appendArgs
          | apply C.writePlaceholders
          | apply C.generateIdentifier
          | split)) h
    | exact hr2 b0 _ _ (by
        repeat (first
          | exact hR
          | apply C.writeString
          | apply C.writeByte
          | apply C.writeParenthesizedString
          | apply C.appendArgs
          | apply C.writePlaceholders
          | apply C.generateIdentifier
          | split)) h

theorem preserves_writeBinaryConditionInner (C : StepClosed R)
    (left right : Option Expression) (lo : String) (op : Operator)
    (hl : Preserves R (fun b => b.writeExpression left))
    (hr : Preserves R (fun b => b.writeExpression right)) :
    Preserves R (fun b => b.writeBinaryConditionInner left right lo op) := by
  intro b0 b d hR h
  have hl2 : ∀ b0 b d, R b0 b → writeExpression b left = .ok d → R b0 d := hl
  have hr2 : ∀ b0 b d, R b0 b → writeExpression b right = .ok d → R b0 d := hr
  have hI := fun not => preserves_writeILikeCondition C left right lo not hl hr b0 b d hR
  have hN := fun not => preserves_writeInCondition C left right lo not hl hr b0 b d hR
  cases op <;> simp only [writeBinaryConditionInner] at h
  case Ilike => exact hI _ h
  case Nilike => exact hI _ h
  case In => exact hN _ h
  case Nin => exact hN _ h
  all_goals by_cases hlo : lo = "" <;> simp [hlo, bind_eq_ok] at h
  all_goals
    repeat
      refine Exists.elim h ?_
      clear h
      intro d1 h
      obtain ⟨h1, h⟩ := h
      first
        | have q := hl2 b0 _ _ (by
            repeat (first
              | exact hR
              | apply C.writeString
              | apply C.writeByte
              | apply C.writeParenthesizedString
              | apply C.appendArgs
              | apply C.writePlaceholders
              | apply C.generateIdentifier
              | split)) h1
        | have q := hr2 b0 _ _ (by
            repeat (first
              | exact hR
              | apply C.writeString
              | apply C.writeByte
              | apply C.writeParenthesizedString
              | apply C.appendArgs
              | apply C.writePlaceholders
              | apply C.generateIdentifier
              | split)) h1
      clear hR h1
      have hR := q
      clear q
  all_goals first
    | (subst h
       repeat (first
         | exact hR
         | apply C.writeString
         | apply C.writeByte
         | apply C.writeParenthesizedString
         | apply C.appendArgs
         | apply C.writePlaceholders
         | apply C.generateIdentifier
         | split))
    | exact hl2 b0 _ _ (by
        repeat (first
          | exact hR
          | apply C.writeString
          | apply C.writeByte
          | apply C.writeParenthesizedString
          | apply C.appendArgs
          | apply C.writePlaceholders
          | apply C.generateIdentifier
          | split)) h
    | exact hr2 b0 _ _ (by
        repeat (first
          | exact hR
          | apply C.writeString
          | apply C.writeByte
          | apply C.writeParenthesizedString
          | apply C.appendArgs
          | apply C.writePlaceholders
          | apply C.generateIdentifier
          | split)) h

theorem preserves_none : Preserves R (fun b => b.writeExpression none) := by
  intro b0 b d hR h
  simp [writeExpression] at h
  subst h
  exact hR

theorem preserves_leaf (C : StepClosed R) (n : String) (v : Val) (s : Option Subquery) :
    Preserves R (fun b => b.writeExpression (some (.mk n v s none))) := by
  intro b0 b d hR h
  have hname : ∀ d, b.writeName n = .ok d → R b0 d := by
    intro d h
    simp only [writeName, bind_eq_ok, returned_eq_ok] at h
    obtain ⟨res, -, h⟩ := h
    split at h
    · simp at h
    · simp at h
      subst h
      exact C.writeParenthesizedString _ _ _ hR
  have hval : ∀ d, b.writeValue v = .ok d → R b0 d := by
    intro d h
    simp [writeValue] at h
    subst h
    exact C.appendArgs _ _ _ (C.writeString _ _ _ hR)
  cases s with
  | none =>
    simp only [writeExpression] at h
    split at h
    · exact hname d h
    · split at h
      · exact hval d h
      · simp at h
  | some sub =>
    simp only [writeExpression] at h
    split at h
    · exact hname d h
    · split at h
      · exact hval d h
      · simp only [writeSubquery] at h
        split at h
        · simp at h
        · split at h
          · simp at h
          · simp at h
            subst h
            repeat (first
              | exact hR
              | apply C.writeString
              | apply C.writeByte
              | apply C.writeParenthesizedString
              | apply C.appendArgs
              | apply C.writePlaceholders
              | apply C.generateIdentifier
              | split)

theorem preserves_writeBinaryCondition (C : StepClosed R) (exprs : List (Option Expression))
    (op : Operator) (h : ∀ e ∈ exprs, Preserves R (fun b => b.writeExpression e)) :
    Preserves R (fun b => b.writeBinaryCondition exprs op) := by
  intro b0 b d hR hw
  simp only [writeBinaryCondition] at hw
  split at hw
  · simp at hw
  · rename_i left right hn
    have h2 := legacyInOperands_forall (fun e => Preserves R (fun b => b.writeExpression e))
      (fun vals => preserves_leaf C "" (.list vals) none) exprs _ op h hn
    cases left with
    | none => simp at hw
    | some l =>
      cases right with
      | none => simp at hw
      | some r =>
        have hl := h2 (some l) (by simp)
        have hr := h2 (some r) (by simp)
        have i1 := fun lo op => preserves_writeBinaryConditionInner C none (some r) lo op
          preserves_none hr
        have i2 := preserves_writeBinaryConditionInner C (some l) (some r) "" op hl hr
        simp only [bind_eq_ok] at hw
        obtain ⟨u, -, hw⟩ := hw
        by_cases hln : l.Name = ""
        · simp [hln] at hw
          exact i2 b0 b d hR hw
        · simp [hln, bind_eq_ok, returned_eq_ok, mapError_eq_ok] at hw
          obtain ⟨x, hw⟩ := hw
          rcases hw with ⟨-, hw⟩ | ⟨-, fr, hw⟩
          · exact i1 x op b0 b d hR hw
          · rcases hw with ⟨-, hw⟩ | ⟨-, d1, hw, hd⟩
            · exact i1 x op b0 _ d (C.generateIdentifier _ _ hR) hw
            · have q := i1 _ _ b0 _ d1 (by
                repeat (first
                  | exact hR
                  | apply C.writeString
                  | apply C.writeByte
                  | apply C.writeParenthesizedString
                  | apply C.appendArgs
                  | apply C.writePlaceholders
                  | apply C.generateIdentifier
                  | split)) hw
              subst hd
              exact C.writeString _ _ _ q
  · simp at hw

theorem preserves_writeJoinedLoop (C : StepClosed R) (exprs : List (Option Expression))
    (joiner : String) (h : ∀ e ∈ exprs, Preserves R (fun b => b.writeExpression e)) (i : Nat) :
    Preserves R (fun b => b.writeJoinedLoop exprs joiner i) := by
  induction exprs generalizing i with
  | nil =>
    intro b0 b d hR hw
    simp [writeJoinedLoop] at hw
    subst hw
    exact hR
  | cons e rest ih =>
    intro b0 b d hR hw
    simp only [writeJoinedLoop, bind_eq_ok] at hw
    obtain ⟨d1, h1, h2⟩ := hw
    have q1 := h e (by simp) b0 _ d1 (by
      repeat (first
        | exact hR
        | apply C.writeString
        | apply C.writeByte
        | apply C.writeParenthesizedString
        | apply C.appendArgs
        | apply C.writePlaceholders
        | apply C.generateIdentifier
        | split)) h1
    exact ih (fun x hx => h x (by simp [hx])) (i + 1) b0 d1 d q1 h2

theorem preserves_writeJoinedExpressions (C : StepClosed R)
    (exprs : List (Option Expression)) (joiner : String)
    (h : ∀ e ∈ exprs, Preserves R (fun b => b.writeExpression e)) :
    Preserves R (fun b => b.writeJoinedExpressions exprs joiner) := by
  intro b0 b d hR hw
  simp only [writeJoinedExpressions] at hw
  split at hw
  · simp at hw
    subst hw
    exact hR
  · simp only [bind_eq_ok] at hw
    obtain ⟨d1, h1, h2⟩ := hw
    have q1 := preserves_writeJoinedLoop C exprs joiner h 0 b0 _ d1
      (C.writeByte _ _ _ hR) h1
    simp at h2
    subst h2
    exact C.writeByte _ _ _ q1

theorem preserves_writeCondition (C : StepClosed R) (op : Operator)
    (exprs : List (Option Expression))
    (h : ∀ e ∈ exprs, Preserves R (fun b => b.writeExpression e)) :
    Preserves R (fun b => b.writeCondition (.mk op exprs)) := by
  intro b0 b d hR hw
  have hj := fun j => preserves_writeJoinedExpressions C exprs j h b0 b d hR
  have hb := preserves_writeBinaryCondition C exprs op h b0 b d hR
  cases op <;> simp only [writeCondition] at hw <;>
    first
    | exact hj _ hw
    | (simp [Operator.Valid] at hw; exact hb hw)
    | simp [Operator.Valid] at hw

/-- Every relation that survives the elementary steps survives a successful
`writeExpression`. -/
theorem preserves_writeExpression (C : StepClosed R) (e : Option Expression) :
    Preserves R (fun b => b.writeExpression e) := by
  refine expression_induction (fun e => Preserves R (fun b => b.writeExpression e))
    ?_ ?_ ?_ e
  · exact preserves_none
  · exact preserves_leaf C
  · intro n v s op es ih b0 b d hR hw
    cases s with
    | some sub =>
      exact preserves_leaf C n v (some sub) b0 b d hR (by
        simp only [writeExpression] at hw ⊢
        exact hw)
    | none =>
      simp only [writeExpression] at hw
      split at hw
      · exact preserves_leaf C n v none b0 b d hR (by
          simp only [writeExpression]
          simp [*])
      · split at hw
        · exact preserves_leaf C n v none b0 b d hR (by
            simp only [writeExpression]
            simp [*])
        · exact preserves_writeCondition C op es ih b0 b d hR hw

theorem stepClosed_sameContext : StepClosed SameContext := by
  constructor
  · intro b0 b s h
    exact h
  · intro b0 b c h
    exact h
  · intro b0 b s h
    exact h
  · intro b0 b vals h
    exact h
  · intro b0 b h
    obtain ⟨h1, h2, h3, h4⟩ := h
    refine ⟨h1, h2, ?_, ?_⟩
    · show ({ b.ast with nextIdentifier := b.ast.nextIdentifier + 1 } : AST)
        = { b0.ast with nextIdentifier := b.ast.nextIdentifier + 1 }
      rw [h3]
    · show b0.ast.nextIdentifier ≤ b.ast.nextIdentifier + 1
      omega

/-- A successful compilation returns a builder with the context it started
from, the identifier generator apart. -/
theorem sameContext_writeExpression (b d : sqlExprBuilder) (e : Option Expression)
    (h : b.writeExpression e = .ok d) : b.SameContext d :=
  preserves_writeExpression stepClosed_sameContext e b b d
    ⟨rfl, rfl, rfl, le_refl _⟩ h

end sqlExprBuilder

end Preservation

/-! ## Operands compiled one after another -/

namespace sqlExprBuilder

/-- A successful `sqlForExpression`, as a statement on the builder: the
builder returned is the start builder of the AST with the generator state
reached, with the SQL text and the params in it. -/
theorem writeExpression_of_returned (ast : AST) (n : Option SelectNode) (ph : Bool)
    (e : Option Expression) (s : String) (p : List Val)
    (h : ast.sqlForExpression e n ph = .returned s p none) :
    (start ast n ph).writeExpression e
      = .ok (prepend s p
          (start (ast.withNextIdentifier (ast.nextIdentifierAfter e n ph)) n ph)) := by
  obtain ⟨d, hd, h1, h2⟩ := (sqlForExpression_eq_ok ast n ph e s p).mp h
  have hc := sameContext_writeExpression _ _ _ hd
  obtain ⟨c1, c2, c3, -⟩ := hc
  have hk : ast.nextIdentifierAfter e n ph = d.ast.nextIdentifier := by
    simp [AST.nextIdentifierAfter, hd]
  rw [hd, hk]
  obtain ⟨dast, dnode, dph, dout, dargs⟩ := d
  simp only [start] at c1 c2 c3
  simp only at h1 h2
  subst c1 c2 h1 h2
  simp only [prepend, start, AST.withNextIdentifier, String.append_empty, List.append_nil]
  rw [c3]

/-- The same behind text and params already written. -/
theorem writeExpression_after (ast : AST) (n : Option SelectNode) (ph : Bool)
    (e : Option Expression) (s : String) (p : List Val) (o : String) (a : List Val)
    (h : ast.sqlForExpression e n ph = .returned s p none) :
    (prepend o a (start ast n ph)).writeExpression e
      = .ok (prepend (o ++ s) (a ++ p)
          (start (ast.withNextIdentifier (ast.nextIdentifierAfter e n ph)) n ph)) := by
  have hs : ∀ o a b, writeExpression (prepend o a b) e
      = Except.map (prepend o a) (writeExpression b e) := shift_writeExpression e
  rw [hs, writeExpression_of_returned ast n ph e s p h]
  simp [prepend_prepend]

theorem prepend_start_writeString (ast : AST) (n : Option SelectNode) (ph : Bool)
    (o s : String) (a : List Val) :
    (prepend o a (start ast n ph)).writeString s = prepend (o ++ s) a (start ast n ph) := by
  simp [prepend, start, writeString]

theorem prepend_start_writeByte (ast : AST) (n : Option SelectNode) (ph : Bool)
    (o : String) (c : Char) (a : List Val) :
    (prepend o a (start ast n ph)).writeByte c
      = prepend (o ++ String.singleton c) a (start ast n ph) := by
  simp [prepend, start, writeByte, String.ext_iff]

/-- Name resolution does not depend on the state of the identifier
generator. -/
theorem sqlForName_withNextIdentifier (ast : AST) (n : Option SelectNode) (ph : Bool)
    (k : Nat) (name : String) :
    (start (ast.withNextIdentifier k) n ph).sqlForName name
      = (start ast n ph).sqlForName name := rfl

/-- The loop of `writeJoinedExpressions` behind the first operand: every
operand is written behind the joiner, from the generator state the one before
it has left. -/
theorem writeJoinedLoop_threaded (n : Option SelectNode) (ph : Bool) (joiner : String)
    (cs : List (Option Expression)) :
    ∀ (sps : List (String × List Val)) (ast : AST) (i : Nat) (o : String) (a : List Val),
      0 < i →
      ast.sqlForExpressions n ph cs = sps.map (fun sp => .returned sp.1 sp.2 none) →
      ∃ k, (prepend o a (start ast n ph)).writeJoinedLoop cs joiner i
        = .ok (prepend (String.intercalate.go o joiner (sps.map Prod.fst))
            (a ++ (sps.map Prod.snd).flatten) (start (ast.withNextIdentifier k) n ph)) := by
  induction cs with
  | nil =>
    intro sps ast i o a hi h
    cases sps with
    | nil =>
      refine ⟨ast.nextIdentifier, ?_⟩
      simp [writeJoinedLoop, String.intercalate.go, AST.withNextIdentifier]
    | cons sp sps => simp [AST.sqlForExpressions] at h
  | cons c cs ih =>
    intro sps ast i o a hi h
    cases sps with
    | nil => simp [AST.sqlForExpressions] at h
    | cons sp sps =>
      simp only [AST.sqlForExpressions, List.map_cons, List.cons.injEq] at h
      obtain ⟨h1, h2⟩ := h
      obtain ⟨k, hk⟩ := ih sps _ (i + 1) (o ++ joiner ++ sp.1) (a ++ sp.2) (by omega) h2
      refine ⟨k, ?_⟩
      simp only [writeJoinedLoop, hi, if_true, prepend_start_writeString,
        writeExpression_after ast n ph c sp.1 sp.2 _ _ h1, bind_ok_eq, hk]
      simp [String.intercalate.go, AST.withNextIdentifier, String.append_assoc]

end sqlExprBuilder

/-- Operands that compile one after another to `sps` are joined by a boolean
combinator: the texts in one pair of parentheses with the joiner between
them, and the params in order. -/
theorem compile_joined (ast : AST) (n : Option SelectNode) (pseudoHaving : Bool)
    (op : Operator) (joiner : String) (cs : List (Option Expression))
    (sps : List (String × List Val))
    (hop : (op = .And ∧ joiner = " AND ") ∨ (op = .Or ∧ joiner = " OR "))
    (hne : cs ≠ [])
    (h : ast.sqlForExpressions n pseudoHaving cs
      = sps.map (fun sp => .returned sp.1 sp.2 none)) :
    ast.sqlForExpression (some (.ofCondition op cs)) n pseudoHaving
      = .returned ("(" ++ joiner.intercalate (sps.map Prod.fst) ++ ")")
          (sps.map Prod.snd).flatten none := by
  have hw : (sqlExprBuilder.start ast n pseudoHaving).writeCondition (.mk op cs)
      = (sqlExprBuilder.start ast n pseudoHaving).writeJoinedExpressions cs joiner := by
    rcases hop with ⟨h1, h2⟩ | ⟨h1, h2⟩ <;> subst h1 h2 <;>
      simp [sqlExprBuilder.writeCondition]
  cases cs with
  | nil => exact absurd rfl hne
  | cons c cs =>
    cases sps with
    | nil => simp [AST.sqlForExpressions] at h
    | cons sp sps =>
      simp only [AST.sqlForExpressions, List.map_cons, List.cons.injEq] at h
      obtain ⟨h1, h2⟩ := h
      obtain ⟨k, hk⟩ := sqlExprBuilder.writeJoinedLoop_threaded n pseudoHaving joiner cs sps _ 1
        ("(" ++ sp.1) ([] ++ sp.2) (by omega) h2
      rw [sqlForExpression_eq_ok, sqlExprBuilder.writeExpression_ofCondition, hw]
      simp only [sqlExprBuilder.writeJoinedExpressions, List.length_cons, Nat.add_one_ne_zero,
        if_false, sqlExprBuilder.start_writeByte, sqlExprBuilder.writeJoinedLoop,
        Nat.lt_irrefl, sqlExprBuilder.writeExpression_after ast n pseudoHaving c sp.1 sp.2 _ _ h1,
        bind_ok_eq, zero_add, gt_iff_lt]
      rw [show String.singleton '(' ++ sp.1 = "(" ++ sp.1 from rfl, hk]
      refine ⟨_, rfl, ?_, ?_⟩
      · simp only [sqlExprBuilder.writeByte, sqlExprBuilder.prepend, sqlExprBuilder.start,
          List.map_cons, String.intercalate]
        rw [intercalate_go_front]
        simp [String.ext_iff]
      · simp [sqlExprBuilder.writeByte, sqlExprBuilder.prepend, sqlExprBuilder.start]

/-! ## Operands that issue unnest aliases, in the example context -/

/-- In the example context `tags = v` issues one unnest alias: compiled from
generator state `k` it uses the `k`-th identifier and leaves state `k + 1`. -/
theorem demo_tags_eq_builder (k : Nat) (v : Val) (hv : v ≠ .null) :
    (sqlExprBuilder.start (demoAST.withNextIdentifier k) none false).writeExpression
        (some (demoTagsEq v))
      = .ok (sqlExprBuilder.prepend (demoTagsEqSQL (demoAST.identifierName k)) [v]
          (sqlExprBuilder.start (demoAST.withNextIdentifier (k + 1)) none false)) := by
  have hlo : (sqlExprBuilder.start (demoAST.withNextIdentifier k) none false).ast.sqlForMember
      (sqlExprBuilder.start (demoAST.withNextIdentifier k) none false).generateIdentifier.1
      (Expression.ofName "tags").Name ≠ "" := by
    simp [sqlExprBuilder.start, demoAST, AST.withNextIdentifier, Expression.ofName,
      String.ext_iff]
  rw [demoTagsEq, sqlExprBuilder.writeExpression_ofCondition,
    sqlExprBuilder.writeCondition_binary _ _ _ (by decide) (by decide) (by decide),
    sqlExprBuilder.writeBinaryCondition_unnest _ _ _ (.ofName "tags") (.ofValue v) "tags"
      ("LATERAL UNNEST(tags) " ++ demoAST.identifierName k)
      (by simp [sqlExprBuilder.legacyInOperands]) (by decide) (Or.inl rfl) (by rfl) (by rfl)]
  simp only [sqlExprBuilder.hoistNot, Bool.false_eq_true, if_false]
  rw [sqlExprBuilder.writeBinaryConditionInner_Eq _ _ _ _ hlo,
    sqlExprBuilder.writeExpression_ofValue _ _ hv]
  simp [sqlExprBuilder.writeValue, sqlExprBuilder.writeString, sqlExprBuilder.appendArgs,
    sqlExprBuilder.writeParenthesizedString, sqlExprBuilder.generateIdentifier,
    AST.generateIdentifier, sqlExprBuilder.start, sqlExprBuilder.prepend, demoTagsEqSQL,
    AST.withNextIdentifier, demoAST, Expression.ofName, Expression.Name, String.ext_iff]

theorem demo_tags_eq (k : Nat) (v : Val) (hv : v ≠ .null) :
    (demoAST.withNextIdentifier k).sqlForExpression (some (demoTagsEq v)) none false
      = .returned (demoTagsEqSQL (demoAST.identifierName k)) [v] none ∧
    (demoAST.withNextIdentifier k).nextIdentifierAfter (some (demoTagsEq v)) none false
      = k + 1 := by
  constructor
  · simp only [AST.sqlForExpression, demo_tags_eq_builder k v hv]
    simp [sqlExprBuilder.prepend, sqlExprBuilder.start]
  · simp only [AST.nextIdentifierAfter, demo_tags_eq_builder k v hv]
    simp [sqlExprBuilder.prepend, sqlExprBuilder.start, AST.withNextIdentifier]

/-- Two `tags` conditions compiled one after another in the example context:
the second one gets the second alias. -/
theorem demo_tags_sequence (v w : Val) (hv : v ≠ .null) (hw : w ≠ .null) :
    demoAST.sqlForExpressions none false [some (demoTagsEq v), some (demoTagsEq w)]
      = [.returned (demoTagsEqSQL "t") [v] none, .returned (demoTagsEqSQL "tt") [w] none] := by
  have h0 := demo_tags_eq 0 v hv
  have h1 := demo_tags_eq 1 w hw
  have e0 : demoAST.withNextIdentifier 0 = demoAST := rfl
  rw [e0] at h0
  simp only [AST.sqlForExpressions, h0.1, h0.2, h1.1]
  rfl

/-- C13. Boolean combinator as a join: for `n >= 1` children that compile to
`(s_i, p_i)` one after another, each from the state of the identifier
generator left by the one before it, `Condition{And, [c1..cn]}` compiles to
`"(" ++ s1 ++ " AND " ++ ... ++ " AND " ++ sn ++ ")"` with params
`p1 ++ ... ++ pn`, and likewise with `" OR "` for `Or`; with one child that
compiles to `(s, p)` the result is `"(" ++ s ++ ")"` with params `p`. -/
theorem boolean_combinator_join (ast : AST) (n : Option SelectNode) (pseudoHaving : Bool)
    (cs : List (Option Expression)) (sps : List (String × List Val))
    (hne : cs ≠ [])
    (h : ast.sqlForExpressions n pseudoHaving cs
      = sps.map (fun sp => .returned sp.1 sp.2 none)) :
    ast.sqlForExpression (some (.ofCondition .And cs)) n pseudoHaving
      = .returned ("(" ++ " AND ".intercalate (sps.map Prod.fst) ++ ")")
          (sps.map Prod.snd).flatten none ∧
    ast.sqlForExpression (some (.ofCondition .Or cs)) n pseudoHaving
      = .returned ("(" ++ " OR ".intercalate (sps.map Prod.fst) ++ ")")
          (sps.map Prod.snd).flatten none ∧
    (∀ c s p, ast.sqlForExpression c n pseudoHaving = .returned s p none →
      ast.sqlForExpression (some (.ofCondition .And [c])) n pseudoHaving
        = .returned ("(" ++ s ++ ")") p none ∧
      ast.sqlForExpression (some (.ofCondition .Or [c])) n pseudoHaving
        = .returned ("(" ++ s ++ ")") p none) := by
  refine ⟨compile_joined ast n pseudoHaving .And " AND " cs sps (Or.inl ⟨rfl, rfl⟩) hne h,
    compile_joined ast n pseudoHaving .Or " OR " cs sps (Or.inr ⟨rfl, rfl⟩) hne h, ?_⟩
  intro c s p hc
  have h1 := compile_joined ast n pseudoHaving .And " AND " [c] [(s, p)] (Or.inl ⟨rfl, rfl⟩)
    (by simp) (by simp [AST.sqlForExpressions, hc])
  have h2 := compile_joined ast n pseudoHaving .Or " OR " [c] [(s, p)] (Or.inr ⟨rfl, rfl⟩)
    (by simp) (by simp [AST.sqlForExpressions, hc])
  simpa [String.intercalate, String.intercalate.go] using And.intro h1 h2

/-- Witness of C13: `tags = "a"` and `tags = "b"` in the example context; the
first child gets the alias `t`, the second one the alias `tt`. -/
theorem boolean_combinator_join_witness :
    ([some (demoTagsEq (.str "a")), some (demoTagsEq (.str "b"))] ≠ [] ∧
      demoAST.sqlForExpressions none false
          [some (demoTagsEq (.str "a")), some (demoTagsEq (.str "b"))]
        = [(demoTagsEqSQL "t", [Val.str "a"]), (demoTagsEqSQL "tt", [Val.str "b"])].map
            (fun sp => .returned sp.1 sp.2 none)) ∧
    demoAST.sqlForExpression
        (some (.ofCondition .And [some (demoTagsEq (.str "a")), some (demoTagsEq (.str "b"))]))
        none false
      = .returned ("(" ++ " AND ".intercalate [demoTagsEqSQL "t", demoTagsEqSQL "tt"] ++ ")")
          [.str "a", .str "b"] none :=
  ⟨⟨by simp, demo_tags_sequence (.str "a") (.str "b") (by simp) (by simp)⟩,
    (boolean_combinator_join demoAST none false
      [some (demoTagsEq (.str "a")), some (demoTagsEq (.str "b"))]
      [(demoTagsEqSQL "t", [.str "a"]), (demoTagsEqSQL "tt", [.str "b"])] (by simp)
      (demo_tags_sequence (.str "a") (.str "b") (by simp) (by simp))).1⟩

/-- C13, against the reading in which every child is compiled on its own: in
the example context `tags = "a"` and `tags = "b"` each compile on their own to
the EXISTS subquery with the alias `t`, and `And` of the two does not compile
to the two texts joined: its second subquery has the alias `tt`. -/
theorem and_children_share_generator :
    demoAST.sqlForExpression (some (demoTagsEq (.str "a"))) none false
      = .returned "EXISTS (SELECT 1 FROM LATERAL UNNEST(tags) t WHERE (t.tags) = ?)"
          [.str "a"] none ∧
    demoAST.sqlForExpression (some (demoTagsEq (.str "b"))) none false
      = .returned "EXISTS (SELECT 1 FROM LATERAL UNNEST(tags) t WHERE (t.tags) = ?)"
          [.str "b"] none ∧
    demoAST.sqlForExpression
        (some (.ofCondition .And [some (demoTagsEq (.str "a")), some (demoTagsEq (.str "b"))]))
        none false
      = .returned ("(EXISTS (SELECT 1 FROM LATERAL UNNEST(tags) t WHERE (t.tags) = ?)"
          ++ " AND " ++ "EXISTS (SELECT 1 FROM LATERAL UNNEST(tags) tt WHERE (tt.tags) = ?)"
          ++ ")") [.str "a", .str "b"] none ∧
    demoAST.sqlForExpression
        (some (.ofCondition .And [some (demoTagsEq (.str "a")), some (demoTagsEq (.str "b"))]))
        none false
      ≠ .returned ("(" ++ "EXISTS (SELECT 1 FROM LATERAL UNNEST(tags) t WHERE (t.tags) = ?)"
          ++ " AND " ++ "EXISTS (SELECT 1 FROM LATERAL UNNEST(tags) t WHERE (t.tags) = ?)"
          ++ ")") ([.str "a"] ++ [.str "b"]) none := by
  have ha := (demo_tags_eq 0 (.str "a") (by simp)).1
  have hb := (demo_tags_eq 0 (.str "b") (by simp)).1
  have e0 : demoAST.withNextIdentifier 0 = demoAST := rfl
  rw [e0] at ha hb
  have hand := compile_joined demoAST none false .And " AND "
    [some (demoTagsEq (.str "a")), some (demoTagsEq (.str "b"))]
    [(demoTagsEqSQL "t", [.str "a"]), (demoTagsEqSQL "tt", [.str "b"])] (Or.inl ⟨rfl, rfl⟩)
    (by simp) (demo_tags_sequence (.str "a") (.str "b") (by simp) (by simp))
  refine ⟨ha, hb, ?_, ?_⟩
  · rw [hand]
    simp [demoTagsEqSQL, String.intercalate, String.intercalate.go, String.ext_iff]
  · rw [hand]
    simp [demoTagsEqSQL, String.intercalate, String.intercalate.go, String.ext_iff]

/-! ## Plain comparisons -/

namespace sqlExprBuilder

/-- A comparison writes the left side (the override in parentheses, or the
left operand), the token of the operator and the right operand. -/
theorem writeBinaryConditionInner_comparison (b : sqlExprBuilder)
    (left right : Option Expression) (lo : String) (op : Operator) (tok : String)
    (hop : (op, tok) ∈ comparisonTokens) :
    b.writeBinaryConditionInner left right lo op
      = (if lo ≠ "" then .ok (b.writeParenthesizedString lo) else b.writeExpression left)
        >>= fun d => (d.writeString tok).writeExpression right := by
  simp only [comparisonTokens, List.mem_cons, Prod.mk.injEq, List.mem_singleton,
    List.not_mem_nil, or_false] at hop
  by_cases hlo : lo = "" <;>
    rcases hop with ⟨h1, h2⟩ | ⟨h1, h2⟩ | ⟨h1, h2⟩ | ⟨h1, h2⟩ | ⟨h1, h2⟩ | ⟨h1, h2⟩ <;>
    subst h1 h2 <;> simp [writeBinaryConditionInner, hlo]

/-- A binary condition whose left operand has no name is written by
`writeBinaryConditionInner` on the two operands (line 249). -/
theorem writeBinaryCondition_unnamed (b : sqlExprBuilder) (exprs : List (Option Expression))
    (op : Operator) (l r : Expression)
    (hn : legacyInOperands exprs op = .ok [some l, some r])
    (hl : l.Name = "")
    (hr : r.Name = "" ∨ ∃ x, b.sqlForName r.Name = .ok (x, false)) :
    b.writeBinaryCondition exprs op = b.writeBinaryConditionInner (some l) (some r) "" op := by
  simp only [writeBinaryCondition]
  split
  · rename_i f hf
    rw [hn] at hf
    simp at hf
  · rename_i left right hf
    rw [hn] at hf
    simp at hf
    obtain ⟨h1, h2⟩ := hf
    subst h1 h2
    rcases hr with hr | ⟨x, hr⟩
    · simp [hr, hl]
    · by_cases hrn : r.Name = ""
      · simp [hrn, hl]
      · simp [hrn, hr, hl, returned]
  · rename_i es hne hf
    rw [hn] at hf
    simp at hf
    exact absurd hf.symm (hne _ _)

end sqlExprBuilder

theorem comparisonTokens_valid (op : Operator) (tok : String)
    (hop : (op, tok) ∈ comparisonTokens) :
    op ≠ .Or ∧ op ≠ .And ∧ op.Valid = true ∧ op ≠ .In ∧ op ≠ .Nin := by
  simp only [comparisonTokens, List.mem_cons, Prod.mk.injEq, List.mem_singleton,
    List.not_mem_nil, or_false] at hop
  rcases hop with ⟨h1, h2⟩ | ⟨h1, h2⟩ | ⟨h1, h2⟩ | ⟨h1, h2⟩ | ⟨h1, h2⟩ | ⟨h1, h2⟩ <;>
    subst h1 h2 <;> simp [Operator.Valid]

/-- A comparison of a name that resolves without unnest against an operand
that compiles to `(r, pr)`. -/
theorem compile_comparison_name (ast : AST) (n : Option SelectNode) (pseudoHaving : Bool)
    (op : Operator) (tok : String) (left right : Expression) (e r : String) (pr : List Val)
    (hop : (op, tok) ∈ comparisonTokens)
    (hname : left.Name ≠ "") (he : e ≠ "")
    (hres : (sqlExprBuilder.start ast n pseudoHaving).sqlForName left.Name = .ok (e, false))
    (hright : ast.sqlForExpression (some right) n pseudoHaving = .returned r pr none) :
    ast.sqlForExpression (some (.ofCondition op [some left, some right])) n pseudoHaving
      = .returned ("(" ++ e ++ ")" ++ tok ++ r) pr none := by
  obtain ⟨h1, h2, h3, h4, h5⟩ := comparisonTokens_valid op tok hop
  obtain ⟨d, hd, -, -⟩ := (sqlForExpression_eq_ok ast n pseudoHaving _ r pr).mp hright
  have hcheck := sqlExprBuilder.rightCheck_of_ok _ _ _ hd
  rw [sqlForExpression_eq_ok, sqlExprBuilder.writeExpression_ofCondition,
    sqlExprBuilder.writeCondition_binary _ _ _ h1 h2 h3,
    sqlExprBuilder.writeBinaryCondition_name _ _ _ left right e
      (sqlExprBuilder.legacyInOperands_other _ _ h4 h5) hname hcheck hres,
    sqlExprBuilder.writeBinaryConditionInner_comparison _ _ _ _ _ _ hop]
  simp only [ne_eq, he, not_false_eq_true, if_true, bind_ok_eq,
    sqlExprBuilder.start_writeParenthesizedString, sqlExprBuilder.prepend_start_writeString,
    sqlExprBuilder.writeExpression_after ast n pseudoHaving (some right) r pr _ _ hright]
  exact ⟨_, rfl, by simp [sqlExprBuilder.prepend, sqlExprBuilder.start], by
    simp [sqlExprBuilder.prepend, sqlExprBuilder.start]⟩

/-- A comparison of two operands, the left one without a name: the right one
is compiled from the generator state that the left one has left. -/
theorem compile_comparison_unnamed (ast : AST) (n : Option SelectNode) (pseudoHaving : Bool)
    (op : Operator) (tok : String) (left right : Expression) (l r : String)
    (pl pr : List Val)
    (hop : (op, tok) ∈ comparisonTokens)
    (hname : left.Name = "")
    (hleft : ast.sqlForExpression (some left) n pseudoHaving = .returned l pl none)
    (hright : (ast.withNextIdentifier (ast.nextIdentifierAfter (some left) n
        pseudoHaving)).sqlForExpression (some right) n pseudoHaving = .returned r pr none) :
    ast.sqlForExpression (some (.ofCondition op [some left, some right])) n pseudoHaving
      = .returned (l ++ tok ++ r) (pl ++ pr) none := by
  obtain ⟨h1, h2, h3, h4, h5⟩ := comparisonTokens_valid op tok hop
  obtain ⟨d, hd, -, -⟩ := (sqlForExpression_eq_ok _ n pseudoHaving _ r pr).mp hright
  have hcheck := sqlExprBuilder.rightCheck_of_ok _ _ _ hd
  rw [sqlExprBuilder.sqlForName_withNextIdentifier] at hcheck
  rw [sqlForExpression_eq_ok, sqlExprBuilder.writeExpression_ofCondition,
    sqlExprBuilder.writeCondition_binary _ _ _ h1 h2 h3,
    sqlExprBuilder.writeBinaryCondition_unnamed _ _ _ left right
      (sqlExprBuilder.legacyInOperands_other _ _ h4 h5) hname hcheck,
    sqlExprBuilder.writeBinaryConditionInner_comparison _ _ _ _ _ _ hop]
  simp only [ne_eq, not_true_eq_false, if_false,
    sqlExprBuilder.writeExpression_of_returned ast n pseudoHaving (some left) l pl hleft,
    bind_ok_eq, sqlExprBuilder.prepend_start_writeString,
    sqlExprBuilder.writeExpression_after _ n pseudoHaving (some right) r pr _ _ hright]
  exact ⟨_, rfl, by simp [sqlExprBuilder.prepend, sqlExprBuilder.start], by
    simp [sqlExprBuilder.prepend, sqlExprBuilder.start]⟩

/-- C14. Plain comparison: for each `op` among `Eq`, `Neq`, `Lt`, `Lte`, `Gt`,
`Gte` with its token ` = `, ` != `, ` < `, ` <= `, ` > `, ` >= ` and non-nil
operands: if the left operand has a Name that resolves without unnest to a
non-empty fragment `e` and the right operand compiles to `(r, pr)`, the
condition compiles to `"(" ++ e ++ ")" ++ token ++ r` with params `pr`; if the
left operand has no Name and compiles to `(l, pl)`, and the right operand
compiles to `(r, pr)` from the state of the identifier generator that the left
operand has left, the condition compiles to `l ++ token ++ r` with params
`pl ++ pr`. -/
theorem plain_comparison (ast : AST) (n : Option SelectNode) (pseudoHaving : Bool)
    (op : Operator) (tok : String) (hop : (op, tok) ∈ comparisonTokens) :
    (∀ (left right : Expression) (e r : String) (pr : List Val),
      left.Name ≠ "" → e ≠ "" →
      (sqlExprBuilder.start ast n pseudoHaving).sqlForName left.Name = .ok (e, false) →
      ast.sqlForExpression (some right) n pseudoHaving = .returned r pr none →
      ast.sqlForExpression (some (.ofCondition op [some left, some right])) n pseudoHaving
        = .returned ("(" ++ e ++ ")" ++ tok ++ r) pr none) ∧
    (∀ (left right : Expression) (l r : String) (pl pr : List Val),
      left.Name = "" →
      ast.sqlForExpression (some left) n pseudoHaving = .returned l pl none →
      (ast.withNextIdentifier (ast.nextIdentifierAfter (some left) n
          pseudoHaving)).sqlForExpression (some right) n pseudoHaving = .returned r pr none →
      ast.sqlForExpression (some (.ofCondition op [some left, some right])) n pseudoHaving
        = .returned (l ++ tok ++ r) (pl ++ pr) none) :=
  ⟨fun left right e r pr hname he hres hright =>
      compile_comparison_name ast n pseudoHaving op tok left right e r pr hop hname he hres
        hright,
    fun left right l r pl pr hname hleft hright =>
      compile_comparison_unnamed ast n pseudoHaving op tok left right l r pl pr hop hname hleft
        hright⟩

/-- Witness of C14 in the example context: `country < 5`, and the condition
`tags = "a"` compared with `true`. -/
theorem plain_comparison_witness :
    ((Operator.Lt, " < ") ∈ comparisonTokens ∧ (Operator.Eq, " = ") ∈ comparisonTokens) ∧
    demoAST.sqlForExpression
        (some (.ofCondition .Lt [some (.ofName "country"), some (.ofValue (.int 5))])) none
        false
      = .returned ("(" ++ "t.country" ++ ")" ++ " < " ++ "?") [.int 5] none ∧
    demoAST.sqlForExpression
        (some (.ofCondition .Eq [some (demoTagsEq (.str "a")), some (.ofValue (.bool true))]))
        none false
      = .returned (demoTagsEqSQL "t" ++ " = " ++ "?") ([.str "a"] ++ [.bool true]) none :=
  ⟨⟨by decide, by decide⟩,
    (plain_comparison demoAST none false .Lt " < " (by decide)).1 (.ofName "country")
      (.ofValue (.int 5)) "t.country" "?" [.int 5] (by decide) (by decide) (by rfl)
      (compile_value demoAST none false (.int 5) (by simp)),
    (plain_comparison demoAST none false .Eq " = " (by decide)).2 (demoTagsEq (.str "a"))
      (.ofValue (.bool true)) (demoTagsEqSQL "t") "?" [.str "a"] [.bool true] (by rfl)
      (demo_tags_eq 0 (.str "a") (by simp)).1
      (compile_value _ none false (.bool true) (by simp))⟩

/-- C14, against the reading in which the right operand is compiled on its
own: in the example context `tags = "a"` and `tags = "b"` each compile on
their own to the EXISTS subquery with the alias `t`, and `Eq` of the two does
not compile to the two texts around ` = `: the right subquery has the alias
`tt`. -/
theorem comparison_operands_share_generator :
    (demoTagsEq (.str "a")).Name = "" ∧
    demoAST.sqlForExpression (some (demoTagsEq (.str "a"))) none false
      = .returned "EXISTS (SELECT 1 FROM LATERAL UNNEST(tags) t WHERE (t.tags) = ?)"
          [.str "a"] none ∧
    demoAST.sqlForExpression (some (demoTagsEq (.str "b"))) none false
      = .returned "EXISTS (SELECT 1 FROM LATERAL UNNEST(tags) t WHERE (t.tags) = ?)"
          [.str "b"] none ∧
    demoAST.sqlForExpression
        (some (.ofCondition .Eq [some (demoTagsEq (.str "a")), some (demoTagsEq (.str "b"))]))
        none false
      = .returned ("EXISTS (SELECT 1 FROM LATERAL UNNEST(tags) t WHERE (t.tags) = ?)"
          ++ " = " ++ "EXISTS (SELECT 1 FROM LATERAL UNNEST(tags) tt WHERE (tt.tags) = ?)")
          [.str "a", .str "b"] none ∧
    demoAST.sqlForExpression
        (some (.ofCondition .Eq [some (demoTagsEq (.str "a")), some (demoTagsEq (.str "b"))]))
        none false
      ≠ .returned ("EXISTS (SELECT 1 FROM LATERAL UNNEST(tags) t WHERE (t.tags) = ?)"
          ++ " = " ++ "EXISTS (SELECT 1 FROM LATERAL UNNEST(tags) t WHERE (t.tags) = ?)")
          ([.str "a"] ++ [.str "b"]) none := by
  have ha := demo_tags_eq 0 (.str "a") (by simp)
  have hb := (demo_tags_eq 0 (.str "b") (by simp)).1
  have hb1 := (demo_tags_eq 1 (.str "b") (by simp)).1
  have e0 : demoAST.withNextIdentifier 0 = demoAST := rfl
  rw [e0] at ha hb
  have heq := compile_comparison_unnamed demoAST none false .Eq " = " (demoTagsEq (.str "a"))
    (demoTagsEq (.str "b")) _ _ _ _ (by decide) (by rfl) ha.1 (by rw [ha.2]; exact hb1)
  refine ⟨by rfl, ha.1, hb, ?_, ?_⟩
  · rw [heq]
    simp [demoTagsEqSQL, demoAST, String.ext_iff]
  · rw [heq]
    simp [demoTagsEqSQL, demoAST, String.ext_iff]

/-! ## The operand list after the backwards-compatibility block -/

namespace sqlExprBuilder

/-- A nil left operand is rejected (line 176). -/
theorem writeBinaryCondition_of_leftNil (b : sqlExprBuilder)
    (exprs : List (Option Expression)) (op : Operator) (right : Option Expression)
    (hn : legacyInOperands exprs op = .ok [none, right]) :
    b.writeBinaryCondition exprs op = .error (.error .leftNil) := by
  simp only [writeBinaryCondition]
  split
  · rename_i f2 hf
    rw [hn] at hf
    simp at hf
  · rename_i left2 right2 hf
    rw [hn] at hf
    simp at hf
    obtain ⟨h1, h2⟩ := hf
    subst h1 h2
    rfl
  · rename_i es hne hf
    rw [hn] at hf
    simp at hf
    exact absurd hf.symm (hne _ _)

/-- With two non-nil operands at line 170, `writeBinaryCondition` is the
right-side check followed by the three ways of writing the left side. -/
theorem writeBinaryCondition_pair (b : sqlExprBuilder) (exprs : List (Option Expression))
    (op : Operator) (l r : Expression)
    (hn : legacyInOperands exprs op = .ok [some l, some r]) :
    b.writeBinaryCondition exprs op
      = ((if r.Name ≠ "" then do
            let res ← returned (b.sqlForName r.Name)
            if res.2 then .error (.error (.unnestOnRight r.Name)) else .ok ()
          else .ok () : Except Failure Unit) >>= fun _ =>
        if l.Name ≠ "" then do
          let res ← returned (b.sqlForName l.Name)
          if !res.2 then writeBinaryConditionInner b none (some r) res.1 op
          else do
            let lat ← returned
              ((b.generateIdentifier.2.ast.dialect.LateralUnnest res.1 b.generateIdentifier.1
                l.Name).mapError Err.lateralUnnest)
            if !lat.2 then writeBinaryConditionInner b.generateIdentifier.2 none (some r) res.1 op
            else do
              let d ← writeBinaryConditionInner
                ((((if (hoistNot op).2 then b.generateIdentifier.2.writeString "NOT "
                    else b.generateIdentifier.2).writeString
                      "EXISTS (SELECT 1 FROM ").writeString lat.1).writeString " WHERE ")
                none (some r)
                (b.generateIdentifier.2.ast.sqlForMember b.generateIdentifier.1 l.Name)
                (hoistNot op).1
              .ok (d.writeString ")")
        else writeBinaryConditionInner b (some l) (some r) "" op) := by
  simp only [writeBinaryCondition]
  split
  · rename_i f2 hf
    rw [hn] at hf
    simp at hf
  · rename_i left2 right2 hf
    rw [hn] at hf
    simp at hf
    obtain ⟨h1, h2⟩ := hf
    subst h1 h2
    rfl
  · rename_i es hne hf
    rw [hn] at hf
    simp at hf
    exact absurd hf.symm (hne _ _)

/-- The result of `writeBinaryCondition` depends on the operand list only
through what the backwards-compatibility block makes of it. -/
theorem writeBinaryCondition_congr (b : sqlExprBuilder) (exprs exprs2 : List (Option Expression))
    (op : Operator) (h : legacyInOperands exprs op = legacyInOperands exprs2 op) :
    b.writeBinaryCondition exprs op = b.writeBinaryCondition exprs2 op := by
  cases hn : legacyInOperands exprs2 op with
  | error f =>
    rw [writeBinaryCondition_of_error _ _ _ f (h.trans hn),
      writeBinaryCondition_of_error _ _ _ f hn]
  | ok es =>
    by_cases hes : ∃ left right, es = [left, right]
    · obtain ⟨left, right, hes⟩ := hes
      subst hes
      cases left with
      | none =>
        rw [writeBinaryCondition_of_leftNil _ _ _ _ (h.trans hn),
          writeBinaryCondition_of_leftNil _ _ _ _ hn]
      | some l =>
        cases right with
        | none =>
          rw [writeBinaryCondition_of_rightNil _ _ _ l (h.trans hn),
            writeBinaryCondition_of_rightNil _ _ _ l hn]
        | some r =>
          rw [writeBinaryCondition_pair _ _ _ l r (h.trans hn),
            writeBinaryCondition_pair _ _ _ l r hn]
    · have hes2 : ∀ left right, es ≠ [left, right] := fun left right h => hes ⟨left, right, h⟩
      rw [writeBinaryCondition_of_arity _ _ es _ (h.trans hn) hes2,
        writeBinaryCondition_of_arity _ _ es _ hn hes2]

theorem collectValues_some (es : List Expression) :
    collectValues (es.map some) = .ok (es.map Expression.Value) := by
  induction es with
  | nil => rfl
  | cons e es ih => simp only [List.map_cons, collectValues, ih]

end sqlExprBuilder

/-- Conditions with the same operator whose operand lists come out of the
backwards-compatibility block alike compile alike. -/
theorem compile_congr (ast : AST) (n : Option SelectNode) (pseudoHaving : Bool)
    (op : Operator) (exprs exprs2 : List (Option Expression))
    (hop : op ≠ .Or ∧ op ≠ .And)
    (h : sqlExprBuilder.legacyInOperands exprs op = sqlExprBuilder.legacyInOperands exprs2 op) :
    ast.sqlForExpression (some (.ofCondition op exprs)) n pseudoHaving
      = ast.sqlForExpression (some (.ofCondition op exprs2)) n pseudoHaving := by
  have hw : ∀ b : sqlExprBuilder, b.writeCondition (.mk op exprs)
      = b.writeCondition (.mk op exprs2) := by
    intro b
    cases op <;> simp only [sqlExprBuilder.writeCondition] <;>
      first
      | exact absurd rfl hop.1
      | exact absurd rfl hop.2
      | rw [sqlExprBuilder.writeBinaryCondition_congr _ _ _ _ h]
  simp only [AST.sqlForExpression, sqlExprBuilder.writeExpression_ofCondition, hw]

/-- C24. Legacy IN/NIN flattening: for `op` in `In`, `Nin` and every operand
list `[l, e1, ..., ek]` with `k >= 2` and all `e_i` non-nil, the result of
compiling `Condition{op, [l, e1, ..., ek]}` (SQL, params and error, or the
fault) is the result of compiling the two-operand
`Condition{op, [l, Value [e1.Value, ..., ek.Value]]}`. -/
theorem legacy_flattening (ast : AST) (n : Option SelectNode) (pseudoHaving : Bool)
    (op : Operator) (l : Option Expression) (es : List Expression)
    (hop : op = .In ∨ op = .Nin) (hk : 2 ≤ es.length) :
    ast.sqlForExpression (some (.ofCondition op (l :: es.map some))) n pseudoHaving
      = ast.sqlForExpression
          (some (.ofCondition op [l, some (.ofValue (.list (es.map Expression.Value)))])) n
          pseudoHaving := by
  have hop2 : op ≠ .Or ∧ op ≠ .And := by
    rcases hop with h | h <;> subst h <;> simp
  apply compile_congr ast n pseudoHaving op _ _ hop2
  rw [sqlExprBuilder.legacyInOperands_list]
  match es, hk with
  | e1 :: e2 :: rest, _ =>
    have hc := sqlExprBuilder.collectValues_some (e1 :: e2 :: rest)
    simp only [List.map_cons] at hc
    simp only [List.map_cons, sqlExprBuilder.legacyInOperands, hop, if_true, hc]
    rfl

/-- Witness of C24: `status IN (1, 2)` written with flattened operands, in the
example context. -/
theorem legacy_flattening_witness :
    ((Operator.In = .In ∨ Operator.In = .Nin) ∧
      2 ≤ [Expression.ofValue (.int 1), Expression.ofValue (.int 2)].length) ∧
    demoAST.sqlForExpression
        (some (.ofCondition .In
          (some (.ofName "status")
            :: [Expression.ofValue (.int 1), Expression.ofValue (.int 2)].map some)))
        none false
      = demoAST.sqlForExpression
          (some (.ofCondition .In
            [some (.ofName "status"),
              some (.ofValue (.list
                ([Expression.ofValue (.int 1), Expression.ofValue (.int 2)].map
                  Expression.Value)))]))
          none false :=
  ⟨⟨Or.inl rfl, by decide⟩,
    legacy_flattening demoAST none false .In (some (.ofName "status"))
      [.ofValue (.int 1), .ofValue (.int 2)] (Or.inl rfl) (by decide)⟩

/-- C25. Scalar right side of IN/NIN is wrapped: for `op` in `In`, `Nin`, every
left operand `l` and every bare value `v` that is not a list, the result of
compiling `Condition{op, [l, Value v]}` is the result of compiling
`Condition{op, [l, Value [v]]}`; and `In` of a name that resolves without
unnest to a non-empty fragment `e` against a non-nil such `v` compiles to
`(e) IN (?)` with params `[v]`. -/
theorem scalar_right_side_wrapped (ast : AST) (n : Option SelectNode) (pseudoHaving : Bool)
    (op : Operator) (l : Option Expression) (v : Val)
    (hop : op = .In ∨ op = .Nin) (hv : v.asList = none) :
    ast.sqlForExpression (some (.ofCondition op [l, some (.ofValue v)])) n pseudoHaving
      = ast.sqlForExpression (some (.ofCondition op [l, some (.ofValue (.list [v]))])) n
          pseudoHaving ∧
    (∀ name e : String, name ≠ "" → e ≠ "" → v ≠ .null →
      (sqlExprBuilder.start ast n pseudoHaving).sqlForName name = .ok (e, false) →
      ast.sqlForExpression (some (.ofCondition .In [some (.ofName name), some (.ofValue v)])) n
          pseudoHaving
        = .returned ("(" ++ e ++ ") IN (?)") [v] none) := by
  have hop2 : op ≠ .Or ∧ op ≠ .And := by
    rcases hop with h | h <;> subst h <;> simp
  have hleg : ∀ (op : Operator) (left : Option Expression), op = .In ∨ op = .Nin →
      sqlExprBuilder.legacyInOperands [left, some (.ofValue v)] op
        = .ok [left, some (.ofValue (.list [v]))] := by
    intro op left hop
    simp [sqlExprBuilder.legacyInOperands, hop, Expression.ofValue, Expression.Name,
      Expression.Value, Expression.Condition, Expression.Subquery, hv]
  constructor
  · apply compile_congr ast n pseudoHaving op _ _ hop2
    rw [sqlExprBuilder.legacyInOperands_list, hleg op l hop]
  · intro name e hname he hnull hres
    have h := compile_membership_cons ast n pseudoHaving
      [some (.ofName name), some (.ofValue v)] name e [v] false
      (hleg _ _ (Or.inl rfl)) hname he (by simp) hres
    have hnn : v.isNull = false := by
      cases v <;> simp [Val.isNull] at hnull ⊢
    simp only [membershipOp, Bool.false_eq_true, if_false] at h
    rw [h]
    simp [membershipSQL, sqlExprBuilder.hasNull, hnn, placeholders, String.intercalate,
      String.intercalate.go, String.ext_iff]

/-- Witness of C25: `country IN "US"` in the example context. -/
theorem scalar_right_side_wrapped_witness :
    ((Operator.In = .In ∨ Operator.In = .Nin) ∧ (Val.str "US").asList = none ∧
      (sqlExprBuilder.start demoAST none false).sqlForName "country"
        = .ok ("t.country", false)) ∧
    demoAST.sqlForExpression
        (some (.ofCondition .In [some (.ofName "country"), some (.ofValue (.str "US"))])) none
        false
      = demoAST.sqlForExpression
          (some (.ofCondition .In [some (.ofName "country"),
            some (.ofValue (.list [.str "US"]))])) none false ∧
    demoAST.sqlForExpression
        (some (.ofCondition .In [some (.ofName "country"), some (.ofValue (.str "US"))])) none
        false
      = .returned ("(" ++ "t.country" ++ ") IN (?)") [.str "US"] none :=
  ⟨⟨Or.inl rfl, rfl, by rfl⟩,
    (scalar_right_side_wrapped demoAST none false .In (some (.ofName "country")) (.str "US")
      (Or.inl rfl) rfl).1,
    (scalar_right_side_wrapped demoAST none false .In (some (.ofName "country")) (.str "US")
      (Or.inl rfl) rfl).2 "country" "t.country" (by decide) (by decide) (by simp) (by rfl)⟩

/-! ## Rejected expressions -/

namespace sqlExprBuilder

/-- An expression with no case populated is rejected by every builder. -/
theorem writeExpression_noCase (b : sqlExprBuilder) :
    b.writeExpression (some (.mk "" .null none none)) = .error (.error .invalidExpression) := by
  simp [writeExpression, Val.isNull]

theorem plainBinaryOperators_hoistNot (op : Operator) (hop : op ∈ plainBinaryOperators) :
    (hoistNot op).1 ∈ plainBinaryOperators := by
  simp only [plainBinaryOperators, List.mem_cons, List.mem_singleton, List.not_mem_nil,
    or_false] at hop
  rcases hop with h | h | h | h | h | h | h | h <;> subst h <;>
    simp [hoistNot, plainBinaryOperators]

/-- A comparison or case-insensitive match whose right operand has no case
populated, and whose left side is an override, a nil operand or an operand
with no case populated, returns the error of the invalid expression. -/
theorem writeBinaryConditionInner_noCase (b : sqlExprBuilder) (left : Option Expression)
    (lo : String) (op : Operator) (hop : op ∈ plainBinaryOperators)
    (hleft : left = none ∨ left = some (.mk "" .null none none)) :
    b.writeBinaryConditionInner left (some (.mk "" .null none none)) lo op
      = .error (.error .invalidExpression) := by
  have hn : ∀ b : sqlExprBuilder, b.writeExpression none = .ok b := by
    intro b
    simp [writeExpression]
  simp only [plainBinaryOperators, List.mem_cons, List.mem_singleton, List.not_mem_nil,
    or_false] at hop
  by_cases hlo : lo = "" <;>
    rcases hleft with hl | hl <;> subst hl <;>
    rcases hop with h | h | h | h | h | h | h | h <;> subst h <;>
    cases hs : b.ast.dialect.SupportsILike <;>
    simp [writeBinaryConditionInner, writeILikeCondition, hlo, hn, hs, writeExpression_noCase]

end sqlExprBuilder

/-- C21. Invalid expression: a non-nil Expression with no case populated
(Name empty, Value nil, Subquery nil, Condition nil) makes `sqlForExpression`
return the error "invalid expression", in every context; and a comparison or
case-insensitive match of any name against a literal NULL Value, such as
`Condition{Eq, [Name x, Value nil]}`, returns an error. -/
theorem invalid_expression (ast : AST) (n : Option SelectNode) (pseudoHaving : Bool) :
    ast.sqlForExpression (some (.mk "" .null none none)) n pseudoHaving
      = .returned "" [] (some .invalidExpression) ∧
    (∀ (op : Operator) (name : String), op ∈ plainBinaryOperators →
      ∃ err, ast.sqlForExpression
          (some (.ofCondition op [some (.ofName name), some (.ofValue .null)])) n pseudoHaving
        = .returned "" [] (some err)) := by
  constructor
  · simp [AST.sqlForExpression, sqlExprBuilder.writeExpression_noCase]
  · intro op name hop
    have hop2 : op ≠ .Or ∧ op ≠ .And ∧ op.Valid = true ∧ op ≠ .In ∧ op ≠ .Nin := by
      simp only [plainBinaryOperators, List.mem_cons, List.mem_singleton, List.not_mem_nil,
        or_false] at hop
      rcases hop with h | h | h | h | h | h | h | h <;> subst h <;> simp [Operator.Valid]
    obtain ⟨h1, h2, h3, h4, h5⟩ := hop2
    have hin := fun (b : sqlExprBuilder) lo op hop =>
      sqlExprBuilder.writeBinaryConditionInner_noCase b none lo op hop (Or.inl rfl)
    have hin2 := fun (b : sqlExprBuilder) =>
      sqlExprBuilder.writeBinaryConditionInner_noCase b (some (.mk "" .null none none)) "" op hop
        (Or.inr rfl)
    have hh := sqlExprBuilder.plainBinaryOperators_hoistNot op hop
    have key : ∃ err, (sqlExprBuilder.start ast n pseudoHaving).writeBinaryCondition
        [some (.ofName name), some (.ofValue .null)] op = .error (.error err) := by
      rw [sqlExprBuilder.writeBinaryCondition_pair _ _ _ (.ofName name) (.ofValue .null)
        (sqlExprBuilder.legacyInOperands_other _ _ h4 h5)]
      by_cases hname : name = ""
      · subst hname
        exact ⟨.invalidExpression, by
          simp only [Expression.ofName, Expression.ofValue, Expression.Name, ne_eq,
            not_true_eq_false, if_false, bind_ok_eq, hin2]⟩
      · cases hres : (sqlExprBuilder.start ast n pseudoHaving).sqlForName name with
        | error err =>
          exact ⟨err, by
            simp [Expression.ofName, Expression.ofValue, Expression.Name, hname, hres,
              sqlExprBuilder.returned]⟩
        | ok res =>
          obtain ⟨x, u⟩ := res
          cases u
          · exact ⟨.invalidExpression, by
              simp [Expression.ofName, Expression.ofValue, Expression.Name, hname, hres,
                sqlExprBuilder.returned, hin _ _ _ hop]⟩
          · cases hlat : (sqlExprBuilder.start ast n
                pseudoHaving).generateIdentifier.2.ast.dialect.LateralUnnest x
              (sqlExprBuilder.start ast n pseudoHaving).generateIdentifier.1 name with
            | error err =>
              exact ⟨.lateralUnnest err, by
                simp [Expression.ofName, Expression.ofValue, Expression.Name, hname, hres,
                  sqlExprBuilder.returned, hlat, Except.mapError]⟩
            | ok lat =>
              obtain ⟨fr, okFlag⟩ := lat
              cases okFlag
              · exact ⟨.invalidExpression, by
                  simp [Expression.ofName, Expression.ofValue, Expression.Name, hname, hres,
                    sqlExprBuilder.returned, hlat, Except.mapError, hin _ _ _ hop]⟩
              · exact ⟨.invalidExpression, by
                  simp [Expression.ofName, Expression.ofValue, Expression.Name, hname, hres,
                    sqlExprBuilder.returned, hlat, Except.mapError, hin _ _ _ hh]⟩
    obtain ⟨err, hk⟩ := key
    exact ⟨err, by
      rw [AST.sqlForExpression, sqlExprBuilder.writeExpression_ofCondition,
        sqlExprBuilder.writeCondition_binary _ _ _ h1 h2 h3, hk]⟩

/-- Witness of C21: `country = NULL` written as a literal, in the example
context. -/
theorem invalid_expression_witness :
    Operator.Eq ∈ plainBinaryOperators ∧
    ∃ err, demoAST.sqlForExpression
        (some (.ofCondition .Eq [some (.ofName "country"), some (.ofValue .null)])) none false
      = .returned "" [] (some err) :=
  ⟨by decide, (invalid_expression demoAST none false).2 .Eq "country" (by decide)⟩

namespace sqlExprBuilder

/-- With an operator that is none of the twelve, `writeBinaryCondition`
returns an error for every operand list. -/
theorem writeBinaryCondition_unrecognized (b : sqlExprBuilder)
    (exprs : List (Option Expression)) (raw : String) :
    ∃ err, b.writeBinaryCondition exprs (.unrecognized raw) = .error (.error err) := by
  have hn := legacyInOperands_other exprs (.unrecognized raw) (by simp) (by simp)
  have hin : ∀ (d : sqlExprBuilder) left right lo,
      d.writeBinaryConditionInner left right lo (.unrecognized raw)
        = .error (.error (.invalidBinaryOperator (.unrecognized raw))) := by
    intro d left right lo
    simp [writeBinaryConditionInner]
  by_cases hes : ∃ left right, exprs = [left, right]
  · obtain ⟨left, right, hes⟩ := hes
    subst hes
    cases left with
    | none => exact ⟨_, writeBinaryCondition_of_leftNil _ _ _ _ hn⟩
    | some l =>
      cases right with
      | none => exact ⟨_, writeBinaryCondition_of_rightNil _ _ _ _ hn⟩
      | some r =>
        rw [writeBinaryCondition_pair _ _ _ l r hn]
        simp only [hin, hoistNot]
        by_cases hrn : r.Name = ""
        · simp only [hrn, ne_eq, not_true_eq_false, if_false, bind_ok_eq]
          by_cases hln : l.Name = ""
          · exact ⟨.invalidBinaryOperator (.unrecognized raw), by
              simp only [hln, ne_eq, not_true_eq_false, if_false]⟩
          · cases hres : b.sqlForName l.Name with
            | error err => exact ⟨err, by simp [hln, hres, returned]⟩
            | ok res =>
              obtain ⟨x, u⟩ := res
              cases u
              · exact ⟨.invalidBinaryOperator (.unrecognized raw), by
                  simp [hln, hres, returned]⟩
              · cases hlat : b.generateIdentifier.2.ast.dialect.LateralUnnest x
                  b.generateIdentifier.1 l.Name with
                | error err =>
                  exact ⟨.lateralUnnest err, by
                    simp [hln, hres, returned, hlat, Except.mapError]⟩
                | ok lat =>
                  obtain ⟨fr, okFlag⟩ := lat
                  cases okFlag <;>
                    exact ⟨.invalidBinaryOperator (.unrecognized raw), by
                      simp [hln, hres, returned, hlat, Except.mapError]⟩
        · cases hrres : b.sqlForName r.Name with
          | error err => exact ⟨err, by simp [hrn, hrres, returned]⟩
          | ok rres =>
            obtain ⟨y, ru⟩ := rres
            cases ru
            · by_cases hln : l.Name = ""
              · exact ⟨.invalidBinaryOperator (.unrecognized raw), by
                  simp [hrn, hrres, returned, hln]⟩
              · cases hres : b.sqlForName l.Name with
                | error err => exact ⟨err, by simp [hrn, hrres, hln, hres, returned]⟩
                | ok res =>
                  obtain ⟨x, u⟩ := res
                  cases u
                  · exact ⟨.invalidBinaryOperator (.unrecognized raw), by
                      simp [hrn, hrres, hln, hres, returned]⟩
                  · cases hlat : b.generateIdentifier.2.ast.dialect.LateralUnnest x
                      b.generateIdentifier.1 l.Name with
                    | error err =>
                      exact ⟨.lateralUnnest err, by
                        simp [hrn, hrres, hln, hres, returned, hlat, Except.mapError]⟩
                    | ok lat =>
                      obtain ⟨fr, okFlag⟩ := lat
                      cases okFlag <;>
                        exact ⟨.invalidBinaryOperator (.unrecognized raw), by
                          simp [hrn, hrres, hln, hres, returned, hlat, Except.mapError]⟩
            · exact ⟨.unnestOnRight r.Name, by simp [hrn, hrres, returned]⟩
  · have hes2 : ∀ left right, exprs ≠ [left, right] := fun left right h => hes ⟨left, right, h⟩
    exact ⟨_, writeBinaryCondition_of_arity _ _ exprs _ hn hes2⟩

end sqlExprBuilder

/-- C22. Invalid operator: for every Condition whose operator is none of
`Or`, `And`, `Eq`, `Neq`, `Lt`, `Lte`, `Gt`, `Gte`, `Ilike`, `Nilike`, `In`,
`Nin`, and for every operand list and context, compilation returns the error
"invalid expression operator", the same whatever the operands are; and behind
the validity check `writeBinaryCondition` returns an error, without a fault,
for such an operator and every operand list. -/
theorem invalid_operator (ast : AST) (n : Option SelectNode) (pseudoHaving : Bool)
    (raw : String) (exprs : List (Option Expression)) :
    ast.sqlForExpression (some (.ofCondition (.unrecognized raw) exprs)) n pseudoHaving
      = .returned "" [] (some (.invalidOperator (.unrecognized raw))) ∧
    (∀ b : sqlExprBuilder,
      ∃ err, b.writeBinaryCondition exprs (.unrecognized raw) = .error (.error err)) := by
  constructor
  · simp [AST.sqlForExpression, sqlExprBuilder.writeExpression_ofCondition,
      sqlExprBuilder.writeCondition, Operator.Valid]
  · intro b
    exact sqlExprBuilder.writeBinaryCondition_unrecognized b exprs raw

/-- The arity error of a binary condition. -/
theorem compile_arity (ast : AST) (n : Option SelectNode) (pseudoHaving : Bool)
    (op : Operator) (exprs : List (Option Expression))
    (hop : op ∈ plainBinaryOperators ∨ op = .In ∨ op = .Nin)
    (hn : sqlExprBuilder.legacyInOperands exprs op = .ok exprs)
    (hlen : exprs.length ≠ 2) :
    ast.sqlForExpression (some (.ofCondition op exprs)) n pseudoHaving
      = .returned "" [] (some .binaryArity) := by
  have hop2 : op ≠ .Or ∧ op ≠ .And ∧ op.Valid = true := by
    simp only [plainBinaryOperators, List.mem_cons, List.mem_singleton, List.not_mem_nil,
      or_false] at hop
    rcases hop with (h | h | h | h | h | h | h | h) | h | h <;> subst h <;>
      simp [Operator.Valid]
  have hes : ∀ l r, exprs ≠ [l, r] := by
    intro l r h
    subst h
    simp at hlen
  rw [AST.sqlForExpression, sqlExprBuilder.writeExpression_ofCondition,
    sqlExprBuilder.writeCondition_binary _ _ _ hop2.1 hop2.2.1 hop2.2.2,
    sqlExprBuilder.writeBinaryCondition_of_arity _ _ exprs _ hn hes]

/-- C23. Arity: a comparison or a case-insensitive match whose operand count
is not exactly 2 returns the arity error; `In` and `Nin` with fewer than 2
operands return the arity error; `In` and `Nin` with more than 2 operands are
flattened to two operands: the result is the fault of a nil operand behind the
first, or the result of the two-operand condition `[left, Value vals]`. -/
theorem binary_condition_arity (ast : AST) (n : Option SelectNode) (pseudoHaving : Bool) :
    (∀ (op : Operator) (exprs : List (Option Expression)),
      op ∈ plainBinaryOperators → exprs.length ≠ 2 →
      ast.sqlForExpression (some (.ofCondition op exprs)) n pseudoHaving
        = .returned "" [] (some .binaryArity)) ∧
    (∀ (op : Operator) (exprs : List (Option Expression)),
      op = .In ∨ op = .Nin → exprs.length < 2 →
      ast.sqlForExpression (some (.ofCondition op exprs)) n pseudoHaving
        = .returned "" [] (some .binaryArity)) ∧
    (∀ (op : Operator) (left : Option Expression) (rest : List (Option Expression)),
      op = .In ∨ op = .Nin → 2 ≤ rest.length →
      ast.sqlForExpression (some (.ofCondition op (left :: rest))) n pseudoHaving = .panicked ∨
      ∃ vals, ast.sqlForExpression (some (.ofCondition op (left :: rest))) n pseudoHaving
        = ast.sqlForExpression (some (.ofCondition op [left, some (.ofValue (.list vals))])) n
            pseudoHaving) := by
  refine ⟨?_, ?_, ?_⟩
  · intro op exprs hop hlen
    have hop2 : op ≠ .In ∧ op ≠ .Nin := by
      simp only [plainBinaryOperators, List.mem_cons, List.mem_singleton, List.not_mem_nil,
        or_false] at hop
      rcases hop with h | h | h | h | h | h | h | h <;> subst h <;> simp
    exact compile_arity ast n pseudoHaving op exprs (Or.inl hop)
      (sqlExprBuilder.legacyInOperands_other _ _ hop2.1 hop2.2) hlen
  · intro op exprs hop hlen
    have hn : sqlExprBuilder.legacyInOperands exprs op = .ok exprs := by
      match exprs, hlen with
      | [], _ => simp [sqlExprBuilder.legacyInOperands]
      | [x], _ => simp [sqlExprBuilder.legacyInOperands]
    exact compile_arity ast n pseudoHaving op exprs (Or.inr hop) hn (by omega)
  · intro op left rest hop hlen
    have hop2 : op ≠ .Or ∧ op ≠ .And ∧ op.Valid = true := by
      rcases hop with h | h <;> subst h <;> simp [Operator.Valid]
    match rest, hlen with
    | e1 :: e2 :: es, _ =>
      cases hc : sqlExprBuilder.collectValues (e1 :: e2 :: es) with
      | error f =>
        left
        have hf : f = .panic := by
          clear hlen
          generalize e1 :: e2 :: es = l at hc
          induction l generalizing f with
          | nil => simp [sqlExprBuilder.collectValues] at hc
          | cons x xs ih =>
            cases x with
            | none =>
              simp [sqlExprBuilder.collectValues] at hc
              exact hc.symm
            | some y =>
              simp only [sqlExprBuilder.collectValues] at hc
              cases hxs : sqlExprBuilder.collectValues xs with
              | error g =>
                rw [hxs] at hc
                simp at hc
                subst hc
                exact ih g hxs
              | ok vs =>
                rw [hxs] at hc
                simp at hc
        subst hf
        have hn : sqlExprBuilder.legacyInOperands (left :: e1 :: e2 :: es) op = .error .panic := by
          simp only [sqlExprBuilder.legacyInOperands, hop, if_true, hc]
        rw [AST.sqlForExpression, sqlExprBuilder.writeExpression_ofCondition,
          sqlExprBuilder.writeCondition_binary _ _ _ hop2.1 hop2.2.1 hop2.2.2,
          sqlExprBuilder.writeBinaryCondition_of_error _ _ _ _ hn]
      | ok vals =>
        right
        refine ⟨vals, compile_congr ast n pseudoHaving op _ _ ⟨hop2.1, hop2.2.1⟩ ?_⟩
        rw [sqlExprBuilder.legacyInOperands_list]
        simp only [sqlExprBuilder.legacyInOperands, hop, if_true, hc]
        rfl

/-- Witness of C23 in the example context: `Eq` with one operand, `In` with
one operand, and `In` with three operands. -/
theorem binary_condition_arity_witness :
    (Operator.Eq ∈ plainBinaryOperators ∧ [some (Expression.ofName "country")].length ≠ 2) ∧
    demoAST.sqlForExpression (some (.ofCondition .Eq [some (.ofName "country")])) none false
      = .returned "" [] (some .binaryArity) ∧
    demoAST.sqlForExpression (some (.ofCondition .In [some (.ofName "country")])) none false
      = .returned "" [] (some .binaryArity) ∧
    (demoAST.sqlForExpression
        (some (.ofCondition .In
          [some (.ofName "country"), some (.ofValue (.int 1)), some (.ofValue (.int 2))]))
        none false = .panicked ∨
      ∃ vals, demoAST.sqlForExpression
          (some (.ofCondition .In
            [some (.ofName "country"), some (.ofValue (.int 1)), some (.ofValue (.int 2))]))
          none false
        = demoAST.sqlForExpression
            (some (.ofCondition .In [some (.ofName "country"), some (.ofValue (.list vals))]))
            none false) :=
  ⟨⟨by decide, by decide⟩,
    (binary_condition_arity demoAST none false).1 .Eq [some (.ofName "country")] (by decide) (by decide),
    (binary_condition_arity demoAST none false).2.1 .In [some (.ofName "country")] (Or.inl rfl) (by decide),
    (binary_condition_arity demoAST none false).2.2 .In (some (.ofName "country"))
      [some (.ofValue (.int 1)), some (.ofValue (.int 2))] (Or.inl rfl) (by decide)⟩

/-! ## Errors, literals, membership against an expression, subqueries -/

/-- C26. No partial output on error: whenever `sqlForExpression` returns a
non-nil error, the SQL text it returns is empty and the params are nil. -/
theorem no_partial_output (ast : AST) (e : Option Expression) (n : Option SelectNode)
    (pseudoHaving : Bool) (sql : String) (params : List Val) (err : Err)
    (h : ast.sqlForExpression e n pseudoHaving = .returned sql params (some err)) :
    sql = "" ∧ params = [] := by
  simp only [AST.sqlForExpression] at h
  cases hw : (sqlExprBuilder.start ast n pseudoHaving).writeExpression e with
  | error f =>
    rw [hw] at h
    cases f with
    | error err2 =>
      simp at h
      exact ⟨h.1.symm, h.2.1⟩
    | panic => simp at h
  | ok d =>
    rw [hw] at h
    simp at h

/-- In the example context, `And` of `country = "US"` and an expression with
no case populated fails on its second child, after the text and the parameter
of the first child have been written. -/
theorem demo_error_after_output :
    (sqlExprBuilder.prepend "(" [] (sqlExprBuilder.start demoAST none false)).writeExpression
        (some (.ofCondition .Eq [some (.ofName "country"), some (.ofValue (.str "US"))]))
      = .ok (sqlExprBuilder.prepend "((t.country) = ?" [.str "US"]
          (sqlExprBuilder.start (demoAST.withNextIdentifier
            (demoAST.nextIdentifierAfter
              (some (.ofCondition .Eq [some (.ofName "country"), some (.ofValue (.str "US"))]))
              none false)) none false)) ∧
    demoAST.sqlForExpression
        (some (.ofCondition .And
          [some (.ofCondition .Eq [some (.ofName "country"), some (.ofValue (.str "US"))]),
            some (.mk "" .null none none)])) none false
      = .returned "" [] (some .invalidExpression) := by
  have h1 := compile_comparison_name demoAST none false .Eq " = " (.ofName "country")
    (.ofValue (.str "US")) "t.country" "?" [.str "US"] (by decide) (by decide) (by decide)
    (by rfl) (compile_value demoAST none false (.str "US") (by simp))
  have h2 := sqlExprBuilder.writeExpression_after demoAST none false _ _ _ "(" [] h1
  constructor
  · rw [h2]
    simp [sqlExprBuilder.prepend, String.ext_iff]
  · generalize some (Expression.ofCondition .Eq
      [some (.ofName "country"), some (.ofValue (.str "US"))]) = c1 at h2
    simp only [AST.sqlForExpression, sqlExprBuilder.writeExpression_ofCondition,
      sqlExprBuilder.writeCondition, sqlExprBuilder.writeJoinedExpressions, List.length_cons,
      List.length_nil, Nat.add_one_ne_zero, if_false, sqlExprBuilder.start_writeByte,
      sqlExprBuilder.writeJoinedLoop, Nat.lt_irrefl, gt_iff_lt]
    rw [show String.singleton '(' = "(" from rfl, h2]
    simp [sqlExprBuilder.writeExpression_noCase]

/-- Witness of C26: the failing `And` of the example context. -/
theorem no_partial_output_witness :
    demoAST.sqlForExpression
        (some (.ofCondition .And
          [some (.ofCondition .Eq [some (.ofName "country"), some (.ofValue (.str "US"))]),
            some (.mk "" .null none none)])) none false
      = .returned "" [] (some .invalidExpression) ∧
    (("" : String) = "" ∧ ([] : List Val) = []) :=
  ⟨demo_error_after_output.2,
    no_partial_output demoAST _ none false "" [] .invalidExpression demo_error_after_output.2⟩

/-- C27. Value literal: for every non-nil literal `v`, scalar or list,
compiling an expression without Name whose Value is `v` returns `?` with
params `[v]`; a list is bound as one parameter. -/
theorem value_literal (ast : AST) (n : Option SelectNode) (pseudoHaving : Bool) (v : Val)
    (s : Option Subquery) (c : Option Condition) (hv : v ≠ .null) :
    ast.sqlForExpression (some (.mk "" v s c)) n pseudoHaving = .returned "?" [v] none := by
  have hw : (sqlExprBuilder.start ast n pseudoHaving).writeExpression (some (.mk "" v s c))
      = (sqlExprBuilder.start ast n pseudoHaving).writeValue v := by
    cases v <;> cases s <;> cases c <;>
      simp [sqlExprBuilder.writeExpression, Val.isNull] at hv ⊢
  rw [sqlForExpression_eq_ok, hw]
  simp [sqlExprBuilder.writeValue, sqlExprBuilder.writeString, sqlExprBuilder.appendArgs,
    sqlExprBuilder.start]

/-- Witness of C27: the list `[1, 2]` as a literal. -/
theorem value_literal_witness :
    Val.list [.int 1, .int 2] ≠ .null ∧
    demoAST.sqlForExpression (some (.mk "" (.list [.int 1, .int 2]) none none)) none false
      = .returned "?" [.list [.int 1, .int 2]] none :=
  ⟨by simp, value_literal demoAST none false (.list [.int 1, .int 2]) none none (by simp)⟩

namespace sqlExprBuilder

/-- Membership against a right operand without a Value: the left side, the
keyword and the right operand as an expression (lines 382 to 400). -/
theorem writeInCondition_expression (b : sqlExprBuilder) (left : Option Expression)
    (r : Expression) (lo : String) (not : Bool) (hv : r.Value = .null) :
    b.writeInCondition left (some r) lo not
      = (if lo ≠ "" then .ok (b.writeParenthesizedString lo) else b.writeExpression left)
        >>= fun d =>
          (if not then d.writeString " NOT IN " else d.writeString " IN ").writeExpression
            (some r) := by
  by_cases hlo : lo = "" <;> simp [writeInCondition, hv, Val.isNull, hlo]

/-- An operand that compiles and has no Value is not wrapped by the
backwards-compatibility block. -/
theorem legacyInOperands_expression (b d : sqlExprBuilder) (left : Option Expression)
    (r : Expression) (op : Operator) (hv : r.Value = .null)
    (h : b.writeExpression (some r) = .ok d) :
    legacyInOperands [left, some r] op = .ok [left, some r] := by
  obtain ⟨rn, rv, rs, rc⟩ := r
  simp only [Expression.Value] at hv
  subst hv
  by_cases hall : rn = "" ∧ rc.isNone ∧ rs.isNone
  · obtain ⟨h1, h2, h3⟩ := hall
    cases rc <;> cases rs <;> simp at h2 h3
    subst h1
    rw [writeExpression_noCase] at h
    simp at h
  · simp only [legacyInOperands]
    split
    · have : ¬ (rn = "" ∧ (Val.null).asList.isNone ∧ rc.isNone ∧ rs.isNone) := by
        intro hh
        exact hall ⟨hh.1, hh.2.2.1, hh.2.2.2⟩
      simp only [Expression.Name, Expression.Value, Expression.Condition, Expression.Subquery,
        this, if_false]
    · rfl

end sqlExprBuilder

/-- Membership of a name that resolves without unnest against a right
operand without a Value that compiles to `(r, pr)`. -/
theorem compile_membership_expression (ast : AST) (n : Option SelectNode)
    (pseudoHaving : Bool) (name e r : String) (pr : List Val) (right : Expression)
    (not : Bool) (hname : name ≠ "") (he : e ≠ "")
    (hres : (sqlExprBuilder.start ast n pseudoHaving).sqlForName name = .ok (e, false))
    (hv : right.Value = .null)
    (hright : ast.sqlForExpression (some right) n pseudoHaving = .returned r pr none) :
    ast.sqlForExpression
        (some (.ofCondition (membershipOp not) [some (.ofName name), some right])) n
        pseudoHaving
      = .returned ("(" ++ e ++ ")" ++ (if not then " NOT IN " else " IN ") ++ r) pr none := by
  obtain ⟨d, hd, -, -⟩ := (sqlForExpression_eq_ok ast n pseudoHaving _ r pr).mp hright
  have hcheck := sqlExprBuilder.rightCheck_of_ok _ _ _ hd
  have hleg := sqlExprBuilder.legacyInOperands_expression _ _ (some (.ofName name)) right
    (membershipOp not) hv hd
  have hinner : ∀ (b : sqlExprBuilder) left lo,
      b.writeBinaryConditionInner left (some right) lo (membershipOp not)
        = b.writeInCondition left (some right) lo not := by
    intro b left lo
    cases not <;> simp [sqlExprBuilder.writeBinaryConditionInner, membershipOp]
  rw [sqlForExpression_eq_ok, sqlExprBuilder.writeExpression_ofCondition,
    sqlExprBuilder.writeCondition_binary _ _ _ (by cases not <;> decide)
      (by cases not <;> decide) (by cases not <;> decide),
    sqlExprBuilder.writeBinaryCondition_name _ _ _ (.ofName name) right e hleg hname hcheck
      hres,
    hinner, sqlExprBuilder.writeInCondition_expression _ _ _ _ _ hv]
  cases not
  · simp only [ne_eq, he, not_false_eq_true, if_true, bind_ok_eq, Bool.false_eq_true, if_false,
      sqlExprBuilder.start_writeParenthesizedString, sqlExprBuilder.prepend_start_writeString,
      sqlExprBuilder.writeExpression_after ast n pseudoHaving (some right) r pr _ _ hright]
    exact ⟨_, rfl, by simp [sqlExprBuilder.prepend, sqlExprBuilder.start], by
      simp [sqlExprBuilder.prepend, sqlExprBuilder.start]⟩
  · simp only [ne_eq, he, not_false_eq_true, if_true, bind_ok_eq,
      sqlExprBuilder.start_writeParenthesizedString, sqlExprBuilder.prepend_start_writeString,
      sqlExprBuilder.writeExpression_after ast n pseudoHaving (some right) r pr _ _ hright]
    exact ⟨_, rfl, by simp [sqlExprBuilder.prepend, sqlExprBuilder.start], by
      simp [sqlExprBuilder.prepend, sqlExprBuilder.start]⟩

/-- C28. Membership against a non-literal right side: for a left name that
resolves without unnest to a non-empty fragment `e` and a non-nil right
operand without a Value (a Name, a Subquery or a Condition) that compiles to
`(r, pr)`, `In` compiles to exactly `"(" ++ e ++ ") IN " ++ r` and `Nin` to
exactly `"(" ++ e ++ ") NOT IN " ++ r`, with params `pr`: no enclosing
parentheses and no IS NULL clause. -/
theorem membership_non_literal (ast : AST) (n : Option SelectNode) (pseudoHaving : Bool)
    (name e r : String) (pr : List Val) (right : Expression)
    (hname : name ≠ "") (he : e ≠ "")
    (hres : (sqlExprBuilder.start ast n pseudoHaving).sqlForName name = .ok (e, false))
    (hv : right.Value = .null)
    (hright : ast.sqlForExpression (some right) n pseudoHaving = .returned r pr none) :
    ast.sqlForExpression (some (.ofCondition .In [some (.ofName name), some right])) n
        pseudoHaving
      = .returned ("(" ++ e ++ ") IN " ++ r) pr none ∧
    ast.sqlForExpression (some (.ofCondition .Nin [some (.ofName name), some right])) n
        pseudoHaving
      = .returned ("(" ++ e ++ ") NOT IN " ++ r) pr none := by
  have h1 := compile_membership_expression ast n pseudoHaving name e r pr right false hname he
    hres hv hright
  have h2 := compile_membership_expression ast n pseudoHaving name e r pr right true hname he
    hres hv hright
  simp only [membershipOp, Bool.false_eq_true, if_false, if_true] at h1 h2
  rw [h1, h2]
  constructor <;> simp [String.ext_iff]

/-- The subquery node compiled by `sqlForExpression`. -/
theorem compile_subquery (ast : AST) (n : Option SelectNode) (pseudoHaving : Bool)
    (sub : Subquery) (c : Option Condition) (inner : InnerAST) (childSQL : String)
    (childArgs : List Val)
    (hnew : ast.NewAST (sub.innerQuery ast.query) = .ok inner)
    (hsql : inner.SQL = .ok (childSQL, childArgs)) :
    ast.sqlForExpression (some (.mk "" .null (some sub) c)) n pseudoHaving
      = .returned ("(SELECT " ++ ast.dialect.EscapeIdentifier sub.Dimension.Name ++ " FROM ("
          ++ childSQL ++ "))") childArgs none := by
  simp only [Subquery.innerQuery] at hnew
  rw [sqlForExpression_eq_ok]
  cases c <;>
    simp [sqlExprBuilder.writeExpression, Val.isNull, sqlExprBuilder.writeSubquery, hnew, hsql,
      sqlExprBuilder.writeString, sqlExprBuilder.appendArgs, sqlExprBuilder.start,
      String.append_assoc]

/-- Witness of C28 in the example context with an outer query compiler:
`status` against a subquery on `country`. -/
theorem membership_non_literal_witness :
    ((sqlExprBuilder.start demoSubqueryAST none false).sqlForName "status"
        = .ok ("status", false) ∧
      (Expression.mk "" .null (some demoSubquery) none).Value = .null ∧
      demoSubqueryAST.sqlForExpression (some (.mk "" .null (some demoSubquery) none)) none
          false
        = .returned ("(SELECT " ++ "\"country\"" ++ " FROM (" ++ "SELECT country FROM mv"
            ++ "))") [.int 1] none) ∧
    demoSubqueryAST.sqlForExpression
        (some (.ofCondition .In
          [some (.ofName "status"), some (.mk "" .null (some demoSubquery) none)])) none false
      = .returned ("(" ++ "status" ++ ") IN "
          ++ ("(SELECT " ++ "\"country\"" ++ " FROM (" ++ "SELECT country FROM mv" ++ "))"))
          [.int 1] none :=
  ⟨⟨by rfl, rfl,
      compile_subquery demoSubqueryAST none false demoSubquery none _ _ _ (by rfl) (by rfl)⟩,
    (membership_non_literal demoSubqueryAST none false "status" "status" _ [.int 1]
      (.mk "" .null (some demoSubquery) none) (by decide) (by decide) (by rfl) rfl
      (compile_subquery demoSubqueryAST none false demoSubquery none _ _ _ (by rfl)
        (by rfl))).1⟩

/-- C29. Subquery output: when the outer query compiler returns
`(childSQL, childArgs)` for the synthesized child query, `writeSubquery`
appends exactly `"(SELECT " ++ EscapeIdentifier(sub.Dimension.Name) ++
" FROM (" ++ childSQL ++ "))"` to the output and `childArgs` behind the params
accumulated before, and leaves the context as it was; when the construction of
the child AST or its SQL generation fails, `writeSubquery` returns an error;
and `sqlForExpression` on a subquery node returns that text and `childArgs`. -/
theorem subquery_output (b : sqlExprBuilder) (sub : Subquery) :
    (∀ (inner : InnerAST) (childSQL : String) (childArgs : List Val),
      b.ast.NewAST (sub.innerQuery b.ast.query) = .ok inner →
      inner.SQL = .ok (childSQL, childArgs) →
      b.writeSubquery sub
        = .ok { b with
            out := b.out ++ ("(SELECT " ++ b.ast.dialect.EscapeIdentifier sub.Dimension.Name
              ++ " FROM (" ++ childSQL ++ "))")
            args := b.args ++ childArgs } ∧
      ∀ c, b.ast.sqlForExpression (some (.mk "" .null (some sub) c)) b.node b.pseudoHaving
        = .returned ("(SELECT " ++ b.ast.dialect.EscapeIdentifier sub.Dimension.Name
            ++ " FROM (" ++ childSQL ++ "))") childArgs none) ∧
    (∀ err, b.ast.NewAST (sub.innerQuery b.ast.query) = .error err →
      b.writeSubquery sub = .error (.error (.subqueryAST err))) ∧
    (∀ (inner : InnerAST) (err : String),
      b.ast.NewAST (sub.innerQuery b.ast.query) = .ok inner → inner.SQL = .error err →
      b.writeSubquery sub = .error (.error (.subquerySQL err))) := by
  refine ⟨?_, ?_, ?_⟩
  · intro inner childSQL childArgs hnew hsql
    refine ⟨?_, fun c => compile_subquery b.ast b.node b.pseudoHaving sub c inner childSQL
      childArgs hnew hsql⟩
    simp only [Subquery.innerQuery] at hnew
    simp [sqlExprBuilder.writeSubquery, hnew, hsql, sqlExprBuilder.writeString,
      sqlExprBuilder.appendArgs, String.append_assoc]
  · intro err hnew
    simp only [Subquery.innerQuery] at hnew
    simp [sqlExprBuilder.writeSubquery, hnew]
  · intro inner err hnew hsql
    simp only [Subquery.innerQuery] at hnew
    simp [sqlExprBuilder.writeSubquery, hnew, hsql]

/-- Witness of C29: the subquery on `country` written behind text and a
parameter already accumulated, with the outer query compiler of the example
context. -/
theorem subquery_output_witness :
    ((sqlExprBuilder.prepend "x IN " [.int 0]
        (sqlExprBuilder.start demoSubqueryAST none false)).ast.NewAST
        (demoSubquery.innerQuery demoSubqueryAST.query)
      = .ok { SQL := .ok ("SELECT country FROM mv", [.int 1]) }) ∧
    (sqlExprBuilder.prepend "x IN " [.int 0]
      (sqlExprBuilder.start demoSubqueryAST none false)).writeSubquery demoSubquery
      = .ok { ast := demoSubqueryAST, node := none, pseudoHaving := false,
              out := "x IN " ++ "" ++ ("(SELECT " ++ "\"country\"" ++ " FROM ("
                ++ "SELECT country FROM mv" ++ "))"),
              args := [.int 0] ++ [] ++ [.int 1] } :=
  ⟨by rfl,
    ((subquery_output (sqlExprBuilder.prepend "x IN " [.int 0]
      (sqlExprBuilder.start demoSubqueryAST none false)) demoSubquery).1
        { SQL := .ok ("SELECT country FROM mv", [.int 1]) } "SELECT country FROM mv" [.int 1]
        (by rfl) rfl).1⟩

/-! ## Recompiling a tree that was normalized in place -/

theorem Alike.refl (x : Option Expression) : Alike x x :=
  ⟨Iff.rfl, fun ex ey hx hy => by
    rw [hx] at hy
    cases hy
    exact ⟨rfl, rfl, rfl, rfl⟩, fun _ => rfl⟩

theorem Alike.trans {x y z : Option Expression} (h1 : Alike x y) (h2 : Alike y z) :
    Alike x z := by
  refine ⟨h1.nil.trans h2.nil, ?_, fun b => (h1.write b).trans (h2.write b)⟩
  intro ex ez hx hz
  cases hy : y with
  | none => exact absurd (h1.nil.mpr hy) (by simp [hx])
  | some ey =>
    obtain ⟨a1, a2, a3, a4⟩ := h1.fields ex ey hx hy
    obtain ⟨b1, b2, b3, b4⟩ := h2.fields ey ez hy hz
    exact ⟨a1.trans b1, a2.trans b2, a3.trans b3, a4.trans b4⟩

namespace sqlExprBuilder

theorem collectValues_alike (l1 l2 : List (Option Expression))
    (h : List.Forall₂ Alike l1 l2) : collectValues l1 = collectValues l2 := by
  induction h with
  | nil => rfl
  | @cons x y xs ys hxy _ ih =>
    cases x with
    | none =>
      have hy := hxy.nil.mp rfl
      subst hy
      rfl
    | some ex =>
      cases y with
      | none => exact absurd (hxy.nil.mpr rfl) (by simp)
      | some ey =>
        have hv := (hxy.fields ex ey rfl rfl).2.1
        simp only [collectValues, ih, hv]

/-- The backwards-compatibility block makes alike operand lists of alike
operand lists. -/
theorem legacyInOperands_alike (l1 l2 : List (Option Expression)) (op : Operator)
    (h : List.Forall₂ Alike l1 l2) :
    (∃ f, legacyInOperands l1 op = .error f ∧ legacyInOperands l2 op = .error f) ∨
    ∃ m1 m2, legacyInOperands l1 op = .ok m1 ∧ legacyInOperands l2 op = .ok m2 ∧
      List.Forall₂ Alike m1 m2 := by
  by_cases hop : op = .In ∨ op = .Nin
  · cases h with
    | nil => exact Or.inr ⟨[], [], by simp [legacyInOperands], by simp [legacyInOperands], .nil⟩
    | @cons x y xs ys hxy hrest =>
      cases hrest with
      | nil =>
        exact Or.inr ⟨[x], [y], by simp [legacyInOperands], by simp [legacyInOperands],
          .cons hxy .nil⟩
      | @cons x2 y2 xs2 ys2 hxy2 hrest2 =>
        cases hrest2 with
        | nil =>
          cases x2 with
          | none =>
            have hy := hxy2.nil.mp rfl
            subst hy
            exact Or.inl ⟨.panic, by simp [legacyInOperands, hop],
              by simp [legacyInOperands, hop]⟩
          | some r1 =>
            cases y2 with
            | none => exact absurd (hxy2.nil.mpr rfl) (by simp)
            | some r2 =>
              obtain ⟨f1, f2, f3, f4⟩ := hxy2.fields r1 r2 rfl rfl
              by_cases hw : r2.Name = "" ∧ r2.Value.asList.isNone ∧ r2.Condition.isNone ∧
                  r2.Subquery.isNone
              · have hw1 : r1.Name = "" ∧ r1.Value.asList.isNone ∧ r1.Condition.isNone ∧
                    r1.Subquery.isNone := by
                  rw [f1, f2, f3, f4]
                  exact hw
                refine Or.inr ⟨[x, some (.mk "" (.list [r1.Value]) none none)],
                  [y, some (.mk "" (.list [r2.Value]) none none)], ?_, ?_, ?_⟩
                · simp only [legacyInOperands, hop, if_true]
                  rw [if_pos hw1]
                · simp only [legacyInOperands, hop, if_true]
                  rw [if_pos hw]
                · rw [f2]
                  exact .cons hxy (.cons (Alike.refl _) .nil)
              · have hw1 : ¬ (r1.Name = "" ∧ r1.Value.asList.isNone ∧ r1.Condition.isNone ∧
                    r1.Subquery.isNone) := by
                  rw [f1, f2, f3, f4]
                  exact hw
                refine Or.inr ⟨[x, some r1], [y, some r2], ?_, ?_, .cons hxy (.cons hxy2 .nil)⟩
                · simp only [legacyInOperands, hop, if_true]
                  rw [if_neg hw1]
                · simp only [legacyInOperands, hop, if_true]
                  rw [if_neg hw]
        | @cons x3 y3 xs3 ys3 hxy3 hrest3 =>
          have hc := collectValues_alike (x2 :: x3 :: xs3) (y2 :: y3 :: ys3)
            (.cons hxy2 (.cons hxy3 hrest3))
          cases hcv : collectValues (y2 :: y3 :: ys3) with
          | error f =>
            rw [hcv] at hc
            exact Or.inl ⟨f, by simp only [legacyInOperands, hop, if_true, hc],
              by simp only [legacyInOperands, hop, if_true, hcv]⟩
          | ok vals =>
            rw [hcv] at hc
            exact Or.inr ⟨[x, some (.mk "" (.list vals) none none)],
              [y, some (.mk "" (.list vals) none none)],
              by simp only [legacyInOperands, hop, if_true, hc],
              by simp only [legacyInOperands, hop, if_true, hcv],
              .cons hxy (.cons (Alike.refl _) .nil)⟩
  · exact Or.inr ⟨l1, l2, by simp [legacyInOperands, hop], by simp [legacyInOperands, hop], h⟩

theorem writeInConditionForValues_alike (left1 left2 : Option Expression)
    (hl : ∀ b : sqlExprBuilder, b.writeExpression left1 = b.writeExpression left2)
    (b : sqlExprBuilder) (lo : String) (vals : List Val) (not : Bool) :
    b.writeInConditionForValues left1 lo vals not
      = b.writeInConditionForValues left2 lo vals not := by
  simp only [writeInConditionForValues, hl]

theorem writeInCondition_alike (left1 left2 right1 right2 : Option Expression)
    (hl : ∀ b : sqlExprBuilder, b.writeExpression left1 = b.writeExpression left2)
    (hr : Alike right1 right2) (b : sqlExprBuilder) (lo : String) (not : Bool) :
    b.writeInCondition left1 right1 lo not = b.writeInCondition left2 right2 lo not := by
  cases right1 with
  | none =>
    have h2 := hr.nil.mp rfl
    subst h2
    simp only [writeInCondition]
  | some r1 =>
    cases right2 with
    | none => exact absurd (hr.nil.mpr rfl) (by simp)
    | some r2 =>
      have hv := (hr.fields r1 r2 rfl rfl).2.1
      have hw := hr.write
      simp only [writeInCondition, hv, hl, hw,
        writeInConditionForValues_alike left1 left2 hl]

theorem writeILikeCondition_alike (left1 left2 right1 right2 : Option Expression)
    (hl : ∀ b : sqlExprBuilder, b.writeExpression left1 = b.writeExpression left2)
    (hr : ∀ b : sqlExprBuilder, b.writeExpression right1 = b.writeExpression right2)
    (b : sqlExprBuilder) (lo : String) (not : Bool) :
    b.writeILikeCondition left1 right1 lo not = b.writeILikeCondition left2 right2 lo not := by
  simp only [writeILikeCondition, hl, hr]

theorem writeBinaryConditionInner_alike (left1 left2 right1 right2 : Option Expression)
    (hl : ∀ b : sqlExprBuilder, b.writeExpression left1 = b.writeExpression left2)
    (hr : Alike right1 right2) (b : sqlExprBuilder) (lo : String) (op : Operator) :
    b.writeBinaryConditionInner left1 right1 lo op
      = b.writeBinaryConditionInner left2 right2 lo op := by
  have hw := hr.write
  cases op <;>
    simp only [writeBinaryConditionInner, hl, hw,
      writeILikeCondition_alike left1 left2 right1 right2 hl hw,
      writeInCondition_alike left1 left2 right1 right2 hl hr]

/-- Alike operand lists make `writeBinaryCondition` return alike. -/
theorem writeBinaryCondition_alike (l1 l2 : List (Option Expression)) (op : Operator)
    (h : List.Forall₂ Alike l1 l2) (b : sqlExprBuilder) :
    b.writeBinaryCondition l1 op = b.writeBinaryCondition l2 op := by
  rcases legacyInOperands_alike l1 l2 op h with ⟨f, h1, h2⟩ | ⟨m1, m2, h1, h2, hm⟩
  · rw [writeBinaryCondition_of_error _ _ _ f h1, writeBinaryCondition_of_error _ _ _ f h2]
  · cases hm with
    | nil =>
      rw [writeBinaryCondition_of_arity _ _ [] _ h1 (by simp),
        writeBinaryCondition_of_arity _ _ [] _ h2 (by simp)]
    | @cons x y xs ys hxy hrest =>
      cases hrest with
      | nil =>
        rw [writeBinaryCondition_of_arity _ _ [x] _ h1 (by simp),
          writeBinaryCondition_of_arity _ _ [y] _ h2 (by simp)]
      | @cons x2 y2 xs2 ys2 hxy2 hrest2 =>
        cases hrest2 with
        | nil =>
          cases x with
          | none =>
            have hy := hxy.nil.mp rfl
            subst hy
            rw [writeBinaryCondition_of_leftNil _ _ _ _ h1,
              writeBinaryCondition_of_leftNil _ _ _ _ h2]
          | some e1 =>
            cases y with
            | none => exact absurd (hxy.nil.mpr rfl) (by simp)
            | some e2 =>
              cases x2 with
              | none =>
                have hy := hxy2.nil.mp rfl
                subst hy
                rw [writeBinaryCondition_of_rightNil _ _ _ _ h1,
                  writeBinaryCondition_of_rightNil _ _ _ _ h2]
              | some r1 =>
                cases y2 with
                | none => exact absurd (hxy2.nil.mpr rfl) (by simp)
                | some r2 =>
                  have hln := (hxy.fields e1 e2 rfl rfl).1
                  have hrn := (hxy2.fields r1 r2 rfl rfl).1
                  have hnone : ∀ b : sqlExprBuilder,
                      b.writeExpression none = b.writeExpression none := fun _ => rfl
                  rw [writeBinaryCondition_pair _ _ _ e1 r1 h1,
                    writeBinaryCondition_pair _ _ _ e2 r2 h2]
                  simp only [hln, hrn,
                    writeBinaryConditionInner_alike none none (some r1) (some r2) hnone hxy2,
                    writeBinaryConditionInner_alike (some e1) (some e2) (some r1) (some r2)
                      hxy.write hxy2]
        | @cons x3 y3 xs3 ys3 hxy3 hrest3 =>
          rw [writeBinaryCondition_of_arity _ _ (x :: x2 :: x3 :: xs3) _ h1 (by simp),
            writeBinaryCondition_of_arity _ _ (y :: y2 :: y3 :: ys3) _ h2 (by simp)]

theorem writeJoinedLoop_alike (l1 l2 : List (Option Expression))
    (h : List.Forall₂ Alike l1 l2) :
    ∀ (b : sqlExprBuilder) (joiner : String) (i : Nat),
      b.writeJoinedLoop l1 joiner i = b.writeJoinedLoop l2 joiner i := by
  induction h with
  | nil =>
    intro b joiner i
    rfl
  | @cons x y xs ys hxy _ ih =>
    intro b joiner i
    have hw := hxy.write
    simp only [writeJoinedLoop, hw, ih]

theorem writeJoinedExpressions_alike (l1 l2 : List (Option Expression))
    (h : List.Forall₂ Alike l1 l2) (b : sqlExprBuilder) (joiner : String) :
    b.writeJoinedExpressions l1 joiner = b.writeJoinedExpressions l2 joiner := by
  simp only [writeJoinedExpressions, h.length_eq, writeJoinedLoop_alike l1 l2 h]

/-- Alike operand lists under the same operator are compiled alike. -/
theorem writeCondition_alike (l1 l2 : List (Option Expression)) (op : Operator)
    (h : List.Forall₂ Alike l1 l2) (b : sqlExprBuilder) :
    b.writeCondition (.mk op l1) = b.writeCondition (.mk op l2) := by
  cases op <;>
    simp only [writeCondition, writeJoinedExpressions_alike l1 l2 h,
      writeBinaryCondition_alike l1 l2 _ h]

/-- The store of line 158 does not change what the backwards-compatibility
block yields the next time. -/
theorem legacyInOperands_storedOperands (exprs : List (Option Expression)) (op : Operator) :
    legacyInOperands (storedOperands op exprs) op = legacyInOperands exprs op := by
  by_cases hop : op = .In ∨ op = .Nin
  · simp only [storedOperands, hop, if_true]
    split
    · rename_i left r
      split
      · rename_i hw
        rw [show Expression.mk "" (.list [r.Value]) none none = .ofValue (.list [r.Value])
          from rfl, legacyInOperands_list]
        simp only [legacyInOperands, hop, if_true]
        rw [if_pos hw]
        rfl
      · rfl
    · rfl
  · simp only [storedOperands, hop, if_false]

/-- Expressions that differ in the operands of their condition only, by alike
operands, are alike. -/
theorem alike_of_operands (n : String) (v : Val) (s : Option Subquery) (op : Operator)
    (l1 l2 : List (Option Expression))
    (h : ∀ b : sqlExprBuilder, b.writeCondition (.mk op l1) = b.writeCondition (.mk op l2)) :
    Alike (some (.mk n v s (some (.mk op l1)))) (some (.mk n v s (some (.mk op l2)))) := by
  refine ⟨by simp, ?_, ?_⟩
  · intro ex ey hx hy
    cases hx
    cases hy
    exact ⟨rfl, rfl, rfl, rfl⟩
  · intro b
    cases s <;> simp only [writeExpression, h]

end sqlExprBuilder

/-- A tree normalized in place is alike the tree it comes from. -/
theorem alike_of_inPlaceNormalized (t1 t2 : Option Expression) (h : InPlaceNormalized t1 t2) :
    Alike t1 t2 := by
  induction h with
  | refl t => exact Alike.refl t
  | store n v s op exprs =>
    apply sqlExprBuilder.alike_of_operands
    intro b
    cases op <;>
      first
      | rfl
      | (simp only [sqlExprBuilder.writeCondition]
         rw [sqlExprBuilder.writeBinaryCondition_congr _ _ _ _
           (sqlExprBuilder.legacyInOperands_storedOperands exprs _).symm])
  | operand n v s op front back x y _ ih =>
    apply sqlExprBuilder.alike_of_operands
    intro b
    apply sqlExprBuilder.writeCondition_alike
    apply List.rel_append (List.forall₂_same.mpr fun z _ => Alike.refl z)
    exact .cons ih (List.forall₂_same.mpr fun z _ => Alike.refl z)
  | trans t1 t2 t3 _ _ ih1 ih2 => exact ih1.trans ih2

/-- C30. Compilation does not change what a later compilation of the same
tree yields: when `t2` is the tree `t1` normalized in place, by the stores of
line 158 that compiling `t1` can make, compiling `t2` in the same context
gives the identical result as compiling `t1`: the same SQL, params and error,
or the same fault. -/
theorem recompilation_stable (ast : AST) (n : Option SelectNode) (pseudoHaving : Bool)
    (t1 t2 : Option Expression) (h : InPlaceNormalized t1 t2) :
    ast.sqlForExpression t2 n pseudoHaving = ast.sqlForExpression t1 n pseudoHaving := by
  simp only [AST.sqlForExpression, (alike_of_inPlaceNormalized t1 t2 h).write]

/-- Witness of C30: `country IN "US"` and the tree after the store, whose
right operand is the list `["US"]`, in the example context. -/
theorem recompilation_stable_witness :
    InPlaceNormalized
      (some (.ofCondition .In [some (.ofName "country"), some (.ofValue (.str "US"))]))
      (some (.ofCondition .In [some (.ofName "country"), some (.ofValue (.list [.str "US"]))])) ∧
    demoAST.sqlForExpression
        (some (.ofCondition .In
          [some (.ofName "country"), some (.ofValue (.list [.str "US"]))])) none false
      = demoAST.sqlForExpression
          (some (.ofCondition .In [some (.ofName "country"), some (.ofValue (.str "US"))]))
          none false :=
  ⟨InPlaceNormalized.store "" .null none .In
      [some (.ofName "country"), some (.ofValue (.str "US"))],
    recompilation_stable demoAST none false _ _
      (InPlaceNormalized.store "" .null none .In
        [some (.ofName "country"), some (.ofValue (.str "US"))])⟩

/-! ## Nil operands, the child query of a subquery, flattened non-literals -/

/-- Compiling a nil expression leaves the identifier generator where it was. -/
theorem withNextIdentifier_after_nil (ast : AST) (n : Option SelectNode) (pseudoHaving : Bool) :
    ast.withNextIdentifier (ast.nextIdentifierAfter none n pseudoHaving) = ast := by
  simp [AST.nextIdentifierAfter, sqlExprBuilder.writeExpression, sqlExprBuilder.start,
    AST.withNextIdentifier]

/-- C40. A nil expression compiles to nothing without error:
`sqlForExpression` on a nil expression pointer returns the empty text, no
params and no error; and a nil child inside `And`/`Or` contributes empty text
between the joiners: with `c` compiling to `(s, p)`, `And [nil, c]` yields
`"( AND " ++ s ++ ")"` and `Or [nil, c]` yields `"( OR " ++ s ++ ")"`, with
params `p`. -/
theorem nil_expression (ast : AST) (n : Option SelectNode) (pseudoHaving : Bool) :
    ast.sqlForExpression none n pseudoHaving = .returned "" [] none ∧
    (∀ (c : Option Expression) (s : String) (p : List Val),
      ast.sqlForExpression c n pseudoHaving = .returned s p none →
      ast.sqlForExpression (some (.ofCondition .And [none, c])) n pseudoHaving
        = .returned ("( AND " ++ s ++ ")") p none ∧
      ast.sqlForExpression (some (.ofCondition .Or [none, c])) n pseudoHaving
        = .returned ("( OR " ++ s ++ ")") p none) := by
  have hnil : ast.sqlForExpression none n pseudoHaving = .returned "" [] none := by
    simp [AST.sqlForExpression, sqlExprBuilder.writeExpression, sqlExprBuilder.start]
  refine ⟨hnil, ?_⟩
  intro c s p hc
  have hseq : ast.sqlForExpressions n pseudoHaving [none, c]
      = [("", ([] : List Val)), (s, p)].map (fun sp => .returned sp.1 sp.2 none) := by
    simp [AST.sqlForExpressions, hnil, withNextIdentifier_after_nil, hc]
  have h1 := compile_joined ast n pseudoHaving .And " AND " [none, c] [("", []), (s, p)]
    (Or.inl ⟨rfl, rfl⟩) (by simp) hseq
  have h2 := compile_joined ast n pseudoHaving .Or " OR " [none, c] [("", []), (s, p)]
    (Or.inr ⟨rfl, rfl⟩) (by simp) hseq
  rw [h1, h2]
  constructor <;> simp [String.intercalate, String.intercalate.go, String.ext_iff]

/-- Witness of C40: `And [nil, country = "US"]` in the example context. -/
theorem nil_expression_witness :
    demoAST.sqlForExpression
        (some (.ofCondition .Eq [some (.ofName "country"), some (.ofValue (.str "US"))])) none
        false
      = .returned ("(" ++ "t.country" ++ ")" ++ " = " ++ "?") [.str "US"] none ∧
    demoAST.sqlForExpression
        (some (.ofCondition .And
          [none, some (.ofCondition .Eq
            [some (.ofName "country"), some (.ofValue (.str "US"))])])) none false
      = .returned ("( AND " ++ ("(" ++ "t.country" ++ ")" ++ " = " ++ "?") ++ ")")
          [.str "US"] none :=
  ⟨compile_comparison_name demoAST none false .Eq " = " (.ofName "country")
      (.ofValue (.str "US")) "t.country" "?" [.str "US"] (by decide) (by decide) (by decide)
      (by rfl) (compile_value demoAST none false (.str "US") (by simp)),
    ((nil_expression demoAST none false).2 _ _ _
      (compile_comparison_name demoAST none false .Eq " = " (.ofName "country")
        (.ofValue (.str "US")) "t.country" "?" [.str "US"] (by decide) (by decide) (by decide)
        (by rfl) (compile_value demoAST none false (.str "US") (by simp)))).1⟩

/-- C32. Subquery child query construction: the query that `writeSubquery`
hands to the outer query compiler takes MetricsView, TimeRange,
ComparisonTimeRange and TimeZone from the parent query, has Dimensions equal
to the one-element list `[sub.Dimension]`, takes Measures, Where and Having
from the Subquery node, and has PivotOn, Sort, Limit and Offset empty and
Label false; it is the same for parent queries that agree on the four
inherited fields. -/
theorem subquery_child_query (b : sqlExprBuilder) (sub : Subquery) :
    b.writeSubquery sub
      = (match b.ast.NewAST (sub.innerQuery b.ast.query) with
        | .error err => .error (.error (.subqueryAST err))
        | .ok innerAST =>
          match innerAST.SQL with
          | .error err => .error (.error (.subquerySQL err))
          | .ok (sql, args) =>
            .ok { b with
              out := b.out ++ "(SELECT " ++ b.ast.dialect.EscapeIdentifier sub.Dimension.Name
                ++ " FROM (" ++ sql ++ "))"
              args := b.args ++ args }) ∧
    (∀ outer : Query,
      (sub.innerQuery outer).MetricsView = outer.MetricsView ∧
      (sub.innerQuery outer).TimeRange = outer.TimeRange ∧
      (sub.innerQuery outer).ComparisonTimeRange = outer.ComparisonTimeRange ∧
      (sub.innerQuery outer).TimeZone = outer.TimeZone ∧
      (sub.innerQuery outer).Dimensions = [sub.Dimension] ∧
      (sub.innerQuery outer).Measures = sub.Measures ∧
      (sub.innerQuery outer).Where = sub.Where ∧
      (sub.innerQuery outer).Having = sub.Having ∧
      (sub.innerQuery outer).PivotOn = [] ∧
      (sub.innerQuery outer).SortFields = [] ∧
      (sub.innerQuery outer).Limit = none ∧
      (sub.innerQuery outer).Offset = none ∧
      (sub.innerQuery outer).Label = false) ∧
    (∀ outer outer2 : Query,
      outer.MetricsView = outer2.MetricsView → outer.TimeRange = outer2.TimeRange →
      outer.ComparisonTimeRange = outer2.ComparisonTimeRange →
      outer.TimeZone = outer2.TimeZone →
      sub.innerQuery outer = sub.innerQuery outer2) := by
  refine ⟨?_, fun outer => ⟨rfl, rfl, rfl, rfl, rfl, rfl, rfl, rfl, rfl, rfl, rfl, rfl, rfl⟩, ?_⟩
  · simp only [sqlExprBuilder.writeSubquery, Subquery.innerQuery, sqlExprBuilder.writeString,
      sqlExprBuilder.appendArgs]
  · intro outer outer2 h1 h2 h3 h4
    simp only [Subquery.innerQuery, h1, h2, h3, h4]

/-- Witness of C32: a parent query with a pivot, a sort, a limit and a label
gives the same child query as the parent query of the example context. -/
theorem subquery_child_query_witness :
    demoSubquery.innerQuery
        { demoQuery with PivotOn := ["country"], SortFields := ["status"], Limit := some 10,
                         Offset := some 5, Label := true }
      = demoSubquery.innerQuery demoQuery :=
  (subquery_child_query (sqlExprBuilder.start demoAST none false) demoSubquery).2.2 _ _
    rfl rfl rfl rfl

/-- C33. A nil right operand of `In` or `Nin` is dereferenced before the nil
checks of lines 174 to 182: in the example context `In [country, nil]`,
`Nin [country, nil]` and the flattened `In [country, nil, 1]` end in a
run-time fault, while `Eq [country, nil]` returns the error "right expression
is nil". -/
theorem nil_operand_of_membership_faults :
    demoAST.sqlForExpression (some (.ofCondition .In [some (.ofName "country"), none])) none
        false = .panicked ∧
    demoAST.sqlForExpression (some (.ofCondition .Nin [some (.ofName "country"), none])) none
        false = .panicked ∧
    demoAST.sqlForExpression
        (some (.ofCondition .In [some (.ofName "country"), none, some (.ofValue (.int 1))]))
        none false = .panicked ∧
    demoAST.sqlForExpression (some (.ofCondition .Eq [some (.ofName "country"), none])) none
        false = .returned "" [] (some .rightNil) := by
  refine ⟨?_, ?_, ?_, ?_⟩
  · rw [AST.sqlForExpression, sqlExprBuilder.writeExpression_ofCondition,
      sqlExprBuilder.writeCondition_binary _ _ _ (by decide) (by decide) (by decide),
      sqlExprBuilder.writeBinaryCondition_of_error _ _ _ .panic (by rfl)]
  · rw [AST.sqlForExpression, sqlExprBuilder.writeExpression_ofCondition,
      sqlExprBuilder.writeCondition_binary _ _ _ (by decide) (by decide) (by decide),
      sqlExprBuilder.writeBinaryCondition_of_error _ _ _ .panic (by rfl)]
  · rw [AST.sqlForExpression, sqlExprBuilder.writeExpression_ofCondition,
      sqlExprBuilder.writeCondition_binary _ _ _ (by decide) (by decide) (by decide),
      sqlExprBuilder.writeBinaryCondition_of_error _ _ _ .panic (by rfl)]
  · rw [AST.sqlForExpression, sqlExprBuilder.writeExpression_ofCondition,
      sqlExprBuilder.writeCondition_binary _ _ _ (by decide) (by decide) (by decide),
      sqlExprBuilder.writeBinaryCondition_of_rightNil _ _ _ (.ofName "country") (by rfl)]

namespace sqlExprBuilder

end sqlExprBuilder

theorem sqlForExpression_eq_ofExcept (ast : AST) (e : Option Expression)
    (n : Option SelectNode) (pseudoHaving : Bool) :
    ast.sqlForExpression e n pseudoHaving
      = GoResult.ofExcept ((sqlExprBuilder.start ast n pseudoHaving).writeExpression e) := by
  simp only [AST.sqlForExpression, GoResult.ofExcept]

theorem ofExcept_failed (x : Except Failure sqlExprBuilder)
    (h : (GoResult.ofExcept x).failed = true) :
    ∃ f, x = .error f := by
  cases x with
  | error f => exact ⟨f, rfl⟩
  | ok b => simp [GoResult.ofExcept, GoResult.failed] at h

theorem not_failed_iff (r : GoResult) : r.failed = false ↔ ∃ s p, r = .returned s p none := by
  cases r with
  | returned s p err =>
    cases err with
    | none => simp [GoResult.failed]
    | some e => simp [GoResult.failed]
  | panicked => simp [GoResult.failed]

theorem all_succeed_iff (rs : List GoResult) :
    (∀ r ∈ rs, r.failed = false) ↔
      ∃ sps : List (String × List Val), rs = sps.map (fun sp => .returned sp.1 sp.2 none) := by
  induction rs with
  | nil => exact ⟨fun _ => ⟨[], rfl⟩, fun _ r hr => by simp at hr⟩
  | cons r rs ih =>
    constructor
    · intro h
      obtain ⟨s, p, hr⟩ := (not_failed_iff r).mp (h r (by simp))
      obtain ⟨sps, hsps⟩ := ih.mp (fun x hx => h x (by simp [hx]))
      exact ⟨(s, p) :: sps, by simp [hr, hsps]⟩
    · rintro ⟨sps, hsps⟩ x hx
      rw [hsps] at hx
      obtain ⟨sp, -, rfl⟩ := List.mem_map.mp hx
      rfl

theorem sqlForExpressions_length (n : Option SelectNode) (ph : Bool)
    (cs : List (Option Expression)) :
    ∀ ast : AST, (ast.sqlForExpressions n ph cs).length = cs.length := by
  induction cs with
  | nil => intro ast; rfl
  | cons c cs ih =>
    intro ast
    simp [AST.sqlForExpressions, ih]

namespace sqlExprBuilder

/-- The loop of `writeJoinedExpressions` stops at the first operand that
fails, with its failure: the operands before it were written one after
another, the operands after it are not looked at. -/
theorem writeJoinedLoop_failure (n : Option SelectNode) (ph : Bool) (joiner : String)
    (c : Option Expression) (back : List (Option Expression)) (r : GoResult)
    (hr : r.failed = true) (front : List (Option Expression)) :
    ∀ (sps : List (String × List Val)) (ast : AST) (i : Nat) (o : String) (a : List Val),
      ast.sqlForExpressions n ph (front ++ [c])
        = sps.map (fun sp => .returned sp.1 sp.2 none) ++ [r] →
      GoResult.ofExcept
          ((prepend o a (start ast n ph)).writeJoinedLoop (front ++ c :: back) joiner i)
        = r := by
  have hs : ∀ o a b, writeExpression (prepend o a b) c
      = Except.map (prepend o a) (writeExpression b c) := shift_writeExpression c
  induction front with
  | nil =>
    intro sps ast i o a h
    cases sps with
    | nil =>
      simp only [List.nil_append, AST.sqlForExpressions, List.map_nil, List.cons.injEq,
        and_true] at h
      rw [sqlForExpression_eq_ofExcept] at h
      subst h
      obtain ⟨f, hf⟩ := ofExcept_failed _ hr
      by_cases hi : i > 0 <;>
        simp [writeJoinedLoop, hi, start_writeString, hs, hf]
    | cons sp sps =>
      have := congrArg List.length h
      simp [sqlForExpressions_length] at this
  | cons x xs ih =>
    intro sps ast i o a h
    cases sps with
    | nil =>
      have := congrArg List.length h
      simp [sqlForExpressions_length] at this
    | cons sp sps =>
      simp only [List.cons_append, AST.sqlForExpressions, List.map_cons, List.cons.injEq] at h
      obtain ⟨h1, h2⟩ := h
      by_cases hi : i > 0
      · simp only [List.cons_append, writeJoinedLoop, hi, if_true, prepend_start_writeString,
          writeExpression_after ast n ph x sp.1 sp.2 _ _ h1, bind_ok_eq]
        exact ih sps _ (i + 1) _ _ h2
      · simp only [List.cons_append, writeJoinedLoop, hi, if_false,
          writeExpression_after ast n ph x sp.1 sp.2 _ _ h1, bind_ok_eq]
        exact ih sps _ (i + 1) _ _ h2

end sqlExprBuilder

/-- A boolean combinator whose children before `c` compile one after another
and whose child `c` then fails, returns the result of `c`. -/
theorem compile_joined_failure (ast : AST) (n : Option SelectNode) (pseudoHaving : Bool)
    (op : Operator) (front back : List (Option Expression)) (c : Option Expression)
    (sps : List (String × List Val)) (r : GoResult)
    (hop : op = .And ∨ op = .Or)
    (h : ast.sqlForExpressions n pseudoHaving (front ++ [c])
      = sps.map (fun sp => .returned sp.1 sp.2 none) ++ [r])
    (hr : r.failed = true) :
    ast.sqlForExpression (some (.ofCondition op (front ++ c :: back))) n pseudoHaving = r := by
  have hloop := fun joiner => sqlExprBuilder.writeJoinedLoop_failure n pseudoHaving joiner c
    back r hr front sps ast 0 "(" [] h
  have hlen : (front ++ c :: back).length ≠ 0 := by simp
  obtain ⟨f, hf⟩ : ∃ f, r = GoResult.ofExcept (.error f) := by
    cases r with
    | returned s p err =>
      cases err with
      | none => simp [GoResult.failed] at hr
      | some e =>
        have h2 := hloop " AND "
        cases hw : (sqlExprBuilder.prepend "(" [] (sqlExprBuilder.start ast n
            pseudoHaving)).writeJoinedLoop (front ++ c :: back) " AND " 0 with
        | error f =>
          rw [hw] at h2
          exact ⟨f, h2.symm⟩
        | ok d =>
          rw [hw] at h2
          simp [GoResult.ofExcept] at h2
    | panicked => exact ⟨.panic, rfl⟩
  have hloop2 : ∀ joiner, (sqlExprBuilder.prepend "(" [] (sqlExprBuilder.start ast n
      pseudoHaving)).writeJoinedLoop (front ++ c :: back) joiner 0 = .error f := by
    intro joiner
    have h2 := hloop joiner
    rw [hf] at h2
    cases hw : (sqlExprBuilder.prepend "(" [] (sqlExprBuilder.start ast n
        pseudoHaving)).writeJoinedLoop (front ++ c :: back) joiner 0 with
    | error g =>
      rw [hw] at h2
      cases g <;> cases f <;> simp [GoResult.ofExcept] at h2 ⊢
      exact h2
    | ok d =>
      rw [hw] at h2
      cases f <;> simp [GoResult.ofExcept] at h2
  rw [sqlForExpression_eq_ofExcept, sqlExprBuilder.writeExpression_ofCondition, hf]
  rcases hop with h1 | h1 <;> subst h1 <;>
    simp only [sqlExprBuilder.writeCondition, sqlExprBuilder.writeJoinedExpressions, hlen,
      if_false, sqlExprBuilder.start_writeByte] <;>
    rw [show String.singleton '(' = "(" from rfl, hloop2] <;> rfl

/-- When a child fails in the sequence, there is a first one that does. -/
theorem first_failure (n : Option SelectNode) (ph : Bool) (cs : List (Option Expression)) :
    ∀ ast : AST, (∃ r ∈ ast.sqlForExpressions n ph cs, r.failed = true) →
      ∃ (front : List (Option Expression)) (c : Option Expression)
        (back : List (Option Expression)) (sps : List (String × List Val)) (r : GoResult),
        cs = front ++ c :: back ∧
        ast.sqlForExpressions n ph (front ++ [c])
          = sps.map (fun sp => .returned sp.1 sp.2 none) ++ [r] ∧ r.failed = true := by
  induction cs with
  | nil =>
    intro ast h
    simp [AST.sqlForExpressions] at h
  | cons x xs ih =>
    intro ast h
    cases hx : (ast.sqlForExpression x n ph).failed with
    | true =>
      exact ⟨[], x, xs, [], ast.sqlForExpression x n ph, rfl, by
        simp [AST.sqlForExpressions], hx⟩
    | false =>
      obtain ⟨s, p, hsp⟩ := (not_failed_iff _).mp hx
      obtain ⟨r, hr, hrf⟩ := h
      simp only [AST.sqlForExpressions, List.mem_cons] at hr
      rcases hr with hr | hr
      · rw [hr, hx] at hrf
        simp at hrf
      · obtain ⟨front, c, back, sps, r2, h1, h2, h3⟩ := ih _ ⟨r, hr, hrf⟩
        exact ⟨x :: front, c, back, (s, p) :: sps, r2, by rw [h1]; rfl, by
          simp [AST.sqlForExpressions, hsp, h2], h3⟩

/-- C38. Error propagation through boolean combinators: with the children
compiled in list order on the same AST, each from the state of the identifier
generator left by the ones before it, `Condition{And, cs}` (and likewise
`Condition{Or, cs}`) succeeds if and only if every child does; and when the
children before `c` succeed and `c` fails, the combinator returns the result
of `c` (its error, or its fault), whatever the children after `c` are. -/
theorem combinator_error_propagation (ast : AST) (n : Option SelectNode)
    (pseudoHaving : Bool) (op : Operator) (hop : op = .And ∨ op = .Or) :
    (∀ cs : List (Option Expression),
      (ast.sqlForExpression (some (.ofCondition op cs)) n pseudoHaving).failed = false ↔
        ∀ r ∈ ast.sqlForExpressions n pseudoHaving cs, r.failed = false) ∧
    (∀ (front back : List (Option Expression)) (c : Option Expression)
      (sps : List (String × List Val)) (r : GoResult),
      ast.sqlForExpressions n pseudoHaving (front ++ [c])
        = sps.map (fun sp => .returned sp.1 sp.2 none) ++ [r] →
      r.failed = true →
      ast.sqlForExpression (some (.ofCondition op (front ++ c :: back))) n pseudoHaving
        = r) := by
  refine ⟨?_, fun front back c sps r h hr =>
    compile_joined_failure ast n pseudoHaving op front back c sps r hop h hr⟩
  intro cs
  constructor
  · intro hok r hr
    by_contra hne
    have hrf : r.failed = true := by
      cases hf : r.failed with
      | true => rfl
      | false => exact absurd hf hne
    obtain ⟨front, c, back, sps, r2, h1, h2, h3⟩ :=
      first_failure n pseudoHaving cs ast ⟨r, hr, hrf⟩
    have := compile_joined_failure ast n pseudoHaving op front back c sps r2 hop h2 h3
    rw [← h1] at this
    rw [this, h3] at hok
    simp at hok
  · intro hall
    obtain ⟨sps, hsps⟩ := (all_succeed_iff _).mp hall
    by_cases hcs : cs = []
    · subst hcs
      rcases hop with h1 | h1 <;> subst h1 <;>
        simp [AST.sqlForExpression, sqlExprBuilder.writeExpression_ofCondition,
          sqlExprBuilder.writeCondition, sqlExprBuilder.writeJoinedExpressions,
          GoResult.failed]
    · rcases hop with h1 | h1
      · subst h1
        rw [compile_joined ast n pseudoHaving .And " AND " cs sps (Or.inl ⟨rfl, rfl⟩) hcs hsps]
        rfl
      · subst h1
        rw [compile_joined ast n pseudoHaving .Or " OR " cs sps (Or.inr ⟨rfl, rfl⟩) hcs hsps]
        rfl

/-- Witness of C38 in the example context: `And` of `country = "US"`, an
expression with no case populated and an unknown name returns the error of
the second child. -/
theorem combinator_error_propagation_witness :
    ((Operator.And = .And ∨ Operator.And = .Or) ∧
      demoAST.sqlForExpressions none false
          ([some (.ofCondition .Eq [some (.ofName "country"), some (.ofValue (.str "US"))])]
            ++ [some (.mk "" .null none none)])
        = [("(t.country) = ?", [Val.str "US"])].map (fun sp => .returned sp.1 sp.2 none)
            ++ [.returned "" [] (some .invalidExpression)] ∧
      (GoResult.returned "" [] (some .invalidExpression)).failed = true) ∧
    demoAST.sqlForExpression
        (some (.ofCondition .And
          ([some (.ofCondition .Eq [some (.ofName "country"), some (.ofValue (.str "US"))])]
            ++ some (.mk "" .null none none) :: [some (.ofName "nope")]))) none false
      = .returned "" [] (some .invalidExpression) := by
  have h1 := compile_comparison_name demoAST none false .Eq " = " (.ofName "country")
    (.ofValue (.str "US")) "t.country" "?" [.str "US"] (by decide) (by decide) (by decide)
    (by rfl) (compile_value demoAST none false (.str "US") (by simp))
  have hseq : demoAST.sqlForExpressions none false
      ([some (.ofCondition .Eq [some (.ofName "country"), some (.ofValue (.str "US"))])]
        ++ [some (.mk "" .null none none)])
      = [("(t.country) = ?", [Val.str "US"])].map (fun sp => .returned sp.1 sp.2 none)
          ++ [.returned "" [] (some .invalidExpression)] := by
    simp only [List.singleton_append, AST.sqlForExpressions, h1, List.map_cons, List.map_nil]
    simp [AST.sqlForExpression, sqlExprBuilder.writeExpression_noCase, String.ext_iff]
  exact ⟨⟨Or.inl rfl, hseq, rfl⟩,
    (combinator_error_propagation demoAST none false .And (Or.inl rfl)).2 _ _ _ _ _ hseq rfl⟩

/-! ## A left operand that is compiled more than once -/

namespace sqlExprBuilder

theorem start_ast (ast : AST) (n : Option SelectNode) (ph : Bool) :
    (start ast n ph).ast = ast := rfl

theorem prepend_start_appendArgs (ast : AST) (n : Option SelectNode) (ph : Bool)
    (o : String) (a vals : List Val) :
    (prepend o a (start ast n ph)).appendArgs vals = prepend o (a ++ vals) (start ast n ph) := by
  simp [prepend, start, appendArgs]

theorem prepend_start_writePlaceholders (ast : AST) (n : Option SelectNode) (ph : Bool)
    (o : String) (a : List Val) (k : Nat) :
    (prepend o a (start ast n ph)).writePlaceholders 0 k
      = prepend (o ++ placeholders k) a (start ast n ph) := by
  rw [writePlaceholders_zero, prepend_start_writeString]

end sqlExprBuilder

/-- A negated case-insensitive match with native ILIKE whose left operand has
no name: the left operand is compiled in front of the keyword and again in
the NULL clause, each time from the generator state reached. -/
theorem compile_nilike_unnamed (ast : AST) (n : Option SelectNode) (pseudoHaving : Bool)
    (left right : Expression) (l1 r l2 : String) (pl1 pr pl2 : List Val)
    (hname : left.Name = "") (hnative : ast.dialect.SupportsILike = true)
    (h : ast.sqlForExpressions n pseudoHaving [some left, some right, some left]
      = [.returned l1 pl1 none, .returned r pr none, .returned l2 pl2 none]) :
    ast.sqlForExpression (some (.ofCondition .Nilike [some left, some right])) n pseudoHaving
      = .returned ("(" ++ l1 ++ " NOT ILIKE " ++ r ++ " OR " ++ l2 ++ " IS NULL)")
          (pl1 ++ pr ++ pl2) none := by
  simp only [AST.sqlForExpressions, List.cons.injEq, and_true] at h
  obtain ⟨h1, h2, h3⟩ := h
  obtain ⟨d, hd, -, -⟩ := (sqlForExpression_eq_ok _ n pseudoHaving _ r pr).mp h2
  have hcheck := sqlExprBuilder.rightCheck_of_ok _ _ _ hd
  rw [sqlExprBuilder.sqlForName_withNextIdentifier] at hcheck
  have h1c := fun o a =>
    sqlExprBuilder.writeExpression_after ast n pseudoHaving (some left) l1 pl1 o a h1
  have h2c := fun o a =>
    sqlExprBuilder.writeExpression_after _ n pseudoHaving (some right) r pr o a h2
  have h3c := fun o a =>
    sqlExprBuilder.writeExpression_after _ n pseudoHaving (some left) l2 pl2 o a h3
  rw [sqlForExpression_eq_ok, sqlExprBuilder.writeExpression_ofCondition,
    sqlExprBuilder.writeCondition_binary _ _ _ (by decide) (by decide) (by decide),
    sqlExprBuilder.writeBinaryCondition_unnamed _ _ _ left right
      (sqlExprBuilder.legacyInOperands_other _ _ (by decide) (by decide)) hname hcheck]
  simp only [sqlExprBuilder.writeBinaryConditionInner, sqlExprBuilder.writeILikeCondition,
    if_true, sqlExprBuilder.start_writeByte, sqlExprBuilder.prepend_ast,
    sqlExprBuilder.start_ast, hnative, ne_eq, not_true_eq_false, if_false, h1c, bind_ok_eq,
    sqlExprBuilder.prepend_start_writeString, h2c, h3c, sqlExprBuilder.prepend_start_writeByte]
  refine ⟨_, rfl, ?_, ?_⟩
  · simp [sqlExprBuilder.prepend, sqlExprBuilder.start, String.ext_iff]
  · simp [sqlExprBuilder.prepend, sqlExprBuilder.start]

/-- A list membership test in its NULL-inclusive form whose left operand has
no name: the left operand is compiled in front of the keyword and again in
the NULL clause. -/
theorem compile_membership_unnamed (ast : AST) (n : Option SelectNode) (pseudoHaving : Bool)
    (left : Expression) (vs : List Val) (not : Bool) (l1 l2 : String) (pl1 pl2 : List Val)
    (hname : left.Name = "") (hvs : vs ≠ [])
    (hform : not = true ∨ sqlExprBuilder.hasNull vs = true)
    (h : ast.sqlForExpressions n pseudoHaving [some left, some left]
      = [.returned l1 pl1 none, .returned l2 pl2 none]) :
    ast.sqlForExpression
        (some (.ofCondition (membershipOp not) [some left, some (.ofValue (.list vs))])) n
        pseudoHaving
      = .returned (nullInclusiveMembershipSQL l1 l2 vs.length not (sqlExprBuilder.hasNull vs))
          (pl1 ++ vs ++ pl2) none := by
  simp only [AST.sqlForExpressions, List.cons.injEq, and_true] at h
  obtain ⟨h1, h2⟩ := h
  have h1c := fun o a =>
    sqlExprBuilder.writeExpression_after ast n pseudoHaving (some left) l1 pl1 o a h1
  have h2c := fun o a =>
    sqlExprBuilder.writeExpression_after _ n pseudoHaving (some left) l2 pl2 o a h2
  have hlen : vs.length ≠ 0 := by
    intro h0
    exact hvs (List.length_eq_zero.mp h0)
  rw [sqlForExpression_eq_ok, sqlExprBuilder.writeExpression_ofCondition,
    sqlExprBuilder.writeCondition_binary _ _ _ (by cases not <;> decide)
      (by cases not <;> decide) (by cases not <;> decide),
    sqlExprBuilder.writeBinaryCondition_unnamed _ _ _ left (.ofValue (.list vs))
      (sqlExprBuilder.legacyInOperands_list _ _ _) hname (Or.inl rfl),
    sqlExprBuilder.writeBinaryConditionInner_membership]
  cases not <;> cases hN : sqlExprBuilder.hasNull vs <;> simp [hN] at hform <;>
    simp only [sqlExprBuilder.writeInConditionForValues, hN, hlen, if_false, if_true,
      Bool.false_eq_true, Bool.or_true, Bool.true_or, Bool.or_false, Bool.not_true,
      Bool.not_false, Bool.and_true, Bool.and_false, Bool.false_and, Bool.true_and,
      sqlExprBuilder.start_writeByte, ne_eq, not_true_eq_false, h1c, bind_ok_eq,
      sqlExprBuilder.prepend_start_writeString, sqlExprBuilder.prepend_start_writeByte,
      sqlExprBuilder.prepend_start_writePlaceholders, sqlExprBuilder.prepend_start_appendArgs,
      h2c] <;>
    refine ⟨_, rfl, ?_, ?_⟩ <;>
    simp [sqlExprBuilder.prepend, sqlExprBuilder.start, nullInclusiveMembershipSQL,
      String.ext_iff]

/-- Compiling a literal leaves the identifier generator where it was. -/
theorem nextIdentifierAfter_value (ast : AST) (n : Option SelectNode) (pseudoHaving : Bool)
    (v : Val) (hv : v ≠ .null) :
    ast.nextIdentifierAfter (some (.ofValue v)) n pseudoHaving = ast.nextIdentifier := by
  simp [AST.nextIdentifierAfter, sqlExprBuilder.writeExpression_ofValue _ _ hv,
    sqlExprBuilder.writeValue, sqlExprBuilder.start]

/-- In the example context: `tags = "a"`, a literal, and `tags = "a"` again,
compiled one after another. -/
theorem demo_tags_value_tags (v w : Val) (hv : v ≠ .null) (hw : w ≠ .null) :
    demoAST.sqlForExpressions none false
        [some (demoTagsEq v), some (.ofValue w), some (demoTagsEq v)]
      = [.returned (demoTagsEqSQL "t") [v] none, .returned "?" [w] none,
          .returned (demoTagsEqSQL "tt") [v] none] := by
  have h0 := demo_tags_eq 0 v hv
  have h1 := demo_tags_eq 1 v hv
  have e0 : demoAST.withNextIdentifier 0 = demoAST := rfl
  rw [e0] at h0
  have hval := compile_value (demoAST.withNextIdentifier 1) none false w hw
  have hnext := nextIdentifierAfter_value (demoAST.withNextIdentifier 1) none false w hw
  have e1 : (demoAST.withNextIdentifier 1).withNextIdentifier
      (demoAST.withNextIdentifier 1).nextIdentifier = demoAST.withNextIdentifier 1 := rfl
  simp only [AST.sqlForExpressions, h0.1, h0.2, hval, hnext, e1, h1.1]
  rfl

/-- C36. A left operand without a Name is compiled more than once in the
NULL-inclusive forms, and its parameters are bound each time: when the left
operand compiles to `(l1, pl1)`, then the right operand to `(r, pr)`, then the
left operand again to `(l2, pl2)`, one after another on the same AST,
`Nilike [L, R]` with native ILIKE compiles to
`"(" ++ l1 ++ " NOT ILIKE " ++ r ++ " OR " ++ l2 ++ " IS NULL)"` with params
`pl1 ++ pr ++ pl2`; and `Nin`, or `In` with a NULL element, against a
non-empty literal list `vs` compiles to the NULL-inclusive membership test
with `l1` in front of the keyword and `l2` in the NULL clause, with params
`pl1 ++ vs ++ pl2`. -/
theorem left_operand_compiled_twice (ast : AST) (n : Option SelectNode)
    (pseudoHaving : Bool) (left : Expression) (hname : left.Name = "") :
    (∀ (right : Expression) (l1 r l2 : String) (pl1 pr pl2 : List Val),
      ast.dialect.SupportsILike = true →
      ast.sqlForExpressions n pseudoHaving [some left, some right, some left]
        = [.returned l1 pl1 none, .returned r pr none, .returned l2 pl2 none] →
      ast.sqlForExpression (some (.ofCondition .Nilike [some left, some right])) n
          pseudoHaving
        = .returned ("(" ++ l1 ++ " NOT ILIKE " ++ r ++ " OR " ++ l2 ++ " IS NULL)")
            (pl1 ++ pr ++ pl2) none) ∧
    (∀ (vs : List Val) (not : Bool) (l1 l2 : String) (pl1 pl2 : List Val),
      vs ≠ [] → (not = true ∨ sqlExprBuilder.hasNull vs = true) →
      ast.sqlForExpressions n pseudoHaving [some left, some left]
        = [.returned l1 pl1 none, .returned l2 pl2 none] →
      ast.sqlForExpression
          (some (.ofCondition (membershipOp not) [some left, some (.ofValue (.list vs))])) n
          pseudoHaving
        = .returned
            (nullInclusiveMembershipSQL l1 l2 vs.length not (sqlExprBuilder.hasNull vs))
            (pl1 ++ vs ++ pl2) none) :=
  ⟨fun right l1 r l2 pl1 pr pl2 hnative h =>
      compile_nilike_unnamed ast n pseudoHaving left right l1 r l2 pl1 pr pl2 hname hnative h,
    fun vs not l1 l2 pl1 pl2 hvs hform h =>
      compile_membership_unnamed ast n pseudoHaving left vs not l1 l2 pl1 pl2 hname hvs hform
        h⟩

/-- Witness of C36 in the example context: the condition `tags = "a"` as left
operand of `Nilike` against `"x%"`, and of `Nin` against the list `[1]`. -/
theorem left_operand_compiled_twice_witness :
    ((demoTagsEq (.str "a")).Name = "" ∧ demoAST.dialect.SupportsILike = true) ∧
    demoAST.sqlForExpression
        (some (.ofCondition .Nilike
          [some (demoTagsEq (.str "a")), some (.ofValue (.str "x%"))])) none false
      = .returned ("(" ++ demoTagsEqSQL "t" ++ " NOT ILIKE " ++ "?" ++ " OR "
          ++ demoTagsEqSQL "tt" ++ " IS NULL)") ([.str "a"] ++ [.str "x%"] ++ [.str "a"])
          none ∧
    demoAST.sqlForExpression
        (some (.ofCondition .Nin
          [some (demoTagsEq (.str "a")), some (.ofValue (.list [.int 1]))])) none false
      = .returned (nullInclusiveMembershipSQL (demoTagsEqSQL "t") (demoTagsEqSQL "tt") 1 true
          false) ([.str "a"] ++ [.int 1] ++ [.str "a"]) none :=
  ⟨⟨rfl, rfl⟩,
    (left_operand_compiled_twice demoAST none false (demoTagsEq (.str "a")) rfl).1
      (.ofValue (.str "x%")) _ _ _ _ _ _ rfl
      (demo_tags_value_tags (.str "a") (.str "x%") (by simp) (by simp)),
    (left_operand_compiled_twice demoAST none false (demoTagsEq (.str "a")) rfl).2
      [.int 1] true _ _ _ _ (by simp) (Or.inl rfl)
      (demo_tags_sequence (.str "a") (.str "a") (by simp) (by simp))⟩

/-- C36, against the reading in which the left operand has one text `l`: in
the example context `tags = "a"` compiles on its own to the EXISTS subquery
with the alias `t` and parameter `"a"`, and `"x%"` to `?`; `Nilike` of the two
has the alias `tt` in its NULL clause, so it is not
`"(" ++ l ++ " NOT ILIKE " ++ r ++ " OR " ++ l ++ " IS NULL)"`. -/
theorem nilike_left_operand_recompiled :
    (demoTagsEq (.str "a")).Name = "" ∧ demoAST.dialect.SupportsILike = true ∧
    demoAST.sqlForExpression (some (demoTagsEq (.str "a"))) none false
      = .returned "EXISTS (SELECT 1 FROM LATERAL UNNEST(tags) t WHERE (t.tags) = ?)"
          [.str "a"] none ∧
    demoAST.sqlForExpression (some (.ofValue (.str "x%"))) none false
      = .returned "?" [.str "x%"] none ∧
    demoAST.sqlForExpression
        (some (.ofCondition .Nilike
          [some (demoTagsEq (.str "a")), some (.ofValue (.str "x%"))])) none false
      = .returned ("(" ++ "EXISTS (SELECT 1 FROM LATERAL UNNEST(tags) t WHERE (t.tags) = ?)"
          ++ " NOT ILIKE " ++ "?" ++ " OR "
          ++ "EXISTS (SELECT 1 FROM LATERAL UNNEST(tags) tt WHERE (tt.tags) = ?)"
          ++ " IS NULL)") [.str "a", .str "x%", .str "a"] none ∧
    demoAST.sqlForExpression
        (some (.ofCondition .Nilike
          [some (demoTagsEq (.str "a")), some (.ofValue (.str "x%"))])) none false
      ≠ .returned ("(" ++ "EXISTS (SELECT 1 FROM LATERAL UNNEST(tags) t WHERE (t.tags) = ?)"
          ++ " NOT ILIKE " ++ "?" ++ " OR "
          ++ "EXISTS (SELECT 1 FROM LATERAL UNNEST(tags) t WHERE (t.tags) = ?)"
          ++ " IS NULL)") ([.str "a"] ++ [.str "x%"] ++ [.str "a"]) none := by
  have ha := (demo_tags_eq 0 (.str "a") (by simp)).1
  have e0 : demoAST.withNextIdentifier 0 = demoAST := rfl
  rw [e0] at ha
  have hn := compile_nilike_unnamed demoAST none false (demoTagsEq (.str "a"))
    (.ofValue (.str "x%")) _ _ _ _ _ _ rfl rfl
    (demo_tags_value_tags (.str "a") (.str "x%") (by simp) (by simp))
  refine ⟨rfl, rfl, ha, compile_value demoAST none false _ (by simp), ?_, ?_⟩
  · rw [hn]
    simp [demoTagsEqSQL, String.ext_iff]
  · rw [hn]
    simp [demoTagsEqSQL, String.ext_iff]

/-! ## Dialects that unnest by themselves -/

namespace sqlExprBuilder

end sqlExprBuilder

theorem parenDepth_append (a b : List Char) (k : Nat) :
    parenDepth (a ++ b) k = (parenDepth a k).bind (parenDepth b) := by
  induction a generalizing k with
  | nil => simp [parenDepth]
  | cons c cs ih =>
    simp only [List.cons_append, parenDepth]
    split
    · exact ih _
    · split
      · cases k with
        | zero => simp
        | succ k => exact ih _
      · exact ih _

theorem parenDepth_iff (l : List Char) (k m : Nat) :
    parenDepth l k = some m ↔
      (∀ p, p <+: l → p.count ')' ≤ k + p.count '(') ∧ k + l.count '(' = m + l.count ')' := by
  induction l generalizing k with
  | nil => simp [parenDepth]
  | cons c cs ih =>
    simp only [parenDepth, List.prefix_cons_iff]
    by_cases h1 : c = '('
    · subst h1
      simp only [if_true, ih]
      constructor
      · rintro ⟨hp, ht⟩
        refine ⟨?_, by simp [List.count_cons] at ht ⊢; omega⟩
        rintro p (rfl | ⟨t, rfl, ht2⟩)
        · simp
        · have := hp t ht2
          simp [List.count_cons] at this ⊢
          omega
      · rintro ⟨hp, ht⟩
        refine ⟨?_, by simp [List.count_cons] at ht ⊢; omega⟩
        intro p hp2
        have := hp ('(' :: p) (Or.inr ⟨p, rfl, hp2⟩)
        simp [List.count_cons] at this ⊢
        omega
    · by_cases h2 : c = ')'
      · subst h2
        simp only [h1, if_false, if_true]
        cases k with
        | zero =>
          simp only [false_iff, reduceCtorEq]
          rintro ⟨hp, -⟩
          have := hp [')'] (Or.inr ⟨[], rfl, List.nil_prefix⟩)
          simp at this
        | succ k =>
          simp only [ih]
          constructor
          · rintro ⟨hp, ht⟩
            refine ⟨?_, by simp [List.count_cons] at ht ⊢; omega⟩
            rintro p (rfl | ⟨t, rfl, ht2⟩)
            · simp
            · have := hp t ht2
              simp [List.count_cons] at this ⊢
              omega
          · rintro ⟨hp, ht⟩
            refine ⟨?_, by simp [List.count_cons] at ht ⊢; omega⟩
            intro p hp2
            have := hp (')' :: p) (Or.inr ⟨p, rfl, hp2⟩)
            simp [List.count_cons] at this ⊢
            omega
      · simp only [h1, h2, if_false, ih]
        have e1 : ∀ t : List Char, (c :: t).count '(' = t.count '(' := fun t => by
          simp [List.count_cons, h1]
        have e2 : ∀ t : List Char, (c :: t).count ')' = t.count ')' := fun t => by
          simp [List.count_cons, h2]
        constructor
        · rintro ⟨hp, ht⟩
          refine ⟨?_, by rw [e1, e2]; exact ht⟩
          rintro p (rfl | ⟨t, rfl, ht2⟩)
          · simp
          · rw [e1, e2]
            exact hp t ht2
        · rintro ⟨hp, ht⟩
          refine ⟨?_, by rw [e1, e2] at ht; exact ht⟩
          intro p hp2
          have := hp (c :: p) (Or.inr ⟨p, rfl, hp2⟩)
          rw [e1, e2] at this
          exact this

theorem balanced_iff (s : String) : Balanced s ↔ parenDepth s.data 0 = some 0 := by
  rw [parenDepth_iff]
  simp [Balanced]

theorem parenDepth_shift (l : List Char) (k m j : Nat) (h : parenDepth l k = some m) :
    parenDepth l (k + j) = some (m + j) := by
  rw [parenDepth_iff] at h ⊢
  refine ⟨fun p hp => ?_, by omega⟩
  have := h.1 p hp
  omega

theorem parenDepth_of_balanced (s : String) (h : Balanced s) (k : Nat) :
    parenDepth s.data k = some k := by
  have := parenDepth_shift _ 0 0 k ((balanced_iff s).mp h)
  simpa using this

/-- A text without parentheses. -/
theorem parenDepth_plain (l : List Char) (k : Nat)
    (h : l.all (fun c => c != '(' && c != ')') = true) : parenDepth l k = some k := by
  induction l with
  | nil => rfl
  | cons c cs ih =>
    simp at h
    simp [parenDepth, h.1.1, h.1.2]
    exact ih (by simpa using h.2)

namespace sqlExprBuilder

@[simp] theorem level_writeString (b : sqlExprBuilder) (s : String) :
    (b.writeString s).level = b.level.bind (parenDepth s.data) := by
  simp [level, writeString, String.data_append, parenDepth_append]

@[simp] theorem level_writeByte (b : sqlExprBuilder) (c : Char) :
    (b.writeByte c).level = b.level.bind (parenDepth [c]) := by
  simp [level, writeByte, String.data_push, parenDepth_append]

@[simp] theorem level_writeParenthesizedString (b : sqlExprBuilder) (s : String) :
    (b.writeParenthesizedString s).level
      = b.level.bind (fun k => (parenDepth s.data (k + 1)).bind (parenDepth [')'])) := by
  simp [level, writeParenthesizedString, String.data_push, String.data_append,
    parenDepth_append, Option.bind_assoc, parenDepth]

@[simp] theorem level_appendArgs (b : sqlExprBuilder) (vals : List Val) :
    (b.appendArgs vals).level = b.level := rfl

@[simp] theorem level_generateIdentifier (b : sqlExprBuilder) :
    b.generateIdentifier.2.level = b.level := rfl

@[simp] theorem level_writePlaceholders (b : sqlExprBuilder) (i n : Nat) :
    (b.writePlaceholders i n).level = b.level := by
  induction n generalizing b i with
  | zero => simp [writePlaceholders]
  | succ n ih =>
    simp only [writePlaceholders]
    split <;> rw [ih, level_writeString] <;> cases b.level <;> simp [parenDepth]

@[simp] theorem Tidy_writeString (b : sqlExprBuilder) (s : String) :
    (b.writeString s).Tidy = b.Tidy := rfl
@[simp] theorem Tidy_writeByte (b : sqlExprBuilder) (c : Char) :
    (b.writeByte c).Tidy = b.Tidy := rfl
@[simp] theorem Tidy_writeParenthesizedString (b : sqlExprBuilder) (s : String) :
    (b.writeParenthesizedString s).Tidy = b.Tidy := rfl
@[simp] theorem Tidy_appendArgs (b : sqlExprBuilder) (vals : List Val) :
    (b.appendArgs vals).Tidy = b.Tidy := rfl
@[simp] theorem Tidy_generateIdentifier (b : sqlExprBuilder) :
    b.generateIdentifier.2.Tidy = b.Tidy := rfl
@[simp] theorem Tidy_writePlaceholders (b : sqlExprBuilder) (i n : Nat) :
    (b.writePlaceholders i n).Tidy = b.Tidy := by
  induction n generalizing b i with
  | zero => rfl
  | succ n ih =>
    simp only [writePlaceholders]
    split <;> rw [ih] <;> rfl

theorem levelled_writeInConditionForValues (left : Option Expression) (lo : String)
    (vals : List Val) (not : Bool) (hlo0 : ∀ k, parenDepth lo.data k = some k)
    (hl : Levelled (fun b => b.writeExpression left)) :
    Levelled (fun b => b.writeInConditionForValues left lo vals not) := by
  intro b d hq h
  have hl2 : ∀ b d, b.Tidy → writeExpression b left = .ok d → d.Tidy ∧ d.level = b.level := hl
  simp only [writeInConditionForValues] at h
  cases not <;> cases hN : hasNull vals <;> by_cases hlo : lo = "" <;>
    by_cases hv : vals.length = 0 <;>
    simp [hN, hlo, hv, bind_eq_ok] at h
  all_goals first
    | (obtain ⟨d1, h1, d2, h2, h⟩ := h
       have q1 := hl2 _ _ (by simpa using hq) h1
       have q2 := hl2 _ _ (by simpa using q1.1) h2
       subst h
       refine ⟨by simpa using q2.1, ?_⟩
       have q1 := q1.2
       have q2 := q2.2
       cases hk : b.level <;> simp [hk, parenDepth, hlo0] at q1 <;>
         simp [hk, q1, parenDepth, hlo0] at q2 <;> simp [hk, q1, q2, parenDepth, hlo0])
    | (obtain ⟨d1, h1, h⟩ := h
       have q1 := hl2 _ _ (by simpa using hq) h1
       subst h
       refine ⟨by simpa using q1.1, ?_⟩
       have q1 := q1.2
       cases hk : b.level <;> simp [hk, parenDepth, hlo0] at q1 <;>
         simp [hk, q1, parenDepth, hlo0])
    | (subst h
       refine ⟨by simpa using hq, ?_⟩
       cases hk : b.level <;> simp [hk, parenDepth, hlo0])

theorem levelled_writeInCondition (left right : Option Expression) (lo : String) (not : Bool)
    (hlo0 : ∀ k, parenDepth lo.data k = some k)
    (hl : Levelled (fun b => b.writeExpression left))
    (hr : Levelled (fun b => b.writeExpression right)) :
    Levelled (fun b => b.writeInCondition left right lo not) := by
  intro b d hq h
  have hl2 : ∀ b d, b.Tidy → writeExpression b left = .ok d → d.Tidy ∧ d.level = b.level := hl
  cases right with
  | none => simp [writeInCondition] at h
  | some r =>
    have hr2 : ∀ b d, b.Tidy → writeExpression b (some r) = .ok d →
      d.Tidy ∧ d.level = b.level := hr
    simp only [writeInCondition] at h
    split at h
    · split at h
      · simp at h
      · exact levelled_writeInConditionForValues left lo _ not hlo0 hl b d hq h
    · cases not <;> by_cases hlo : lo = "" <;> simp [hlo, bind_eq_ok] at h
      all_goals first
        | (obtain ⟨d1, h1, h2⟩ := h
           have q1 := hl2 _ _ (by simpa using hq) h1
           have q2 := hr2 _ _ (by simpa using q1.1) h2
           refine ⟨by simpa using q2.1, ?_⟩
           have q1 := q1.2
           have q2 := q2.2
           cases hk : b.level <;> simp [hk, parenDepth, hlo0] at q1 <;>
             simp [hk, q1, parenDepth, hlo0] at q2 <;> simp [hk, q1, q2, parenDepth, hlo0])
        | (have q2 := hr2 _ _ (by simpa using hq) h
           refine ⟨by simpa using q2.1, ?_⟩
           have q2 := q2.2
           cases hk : b.level <;> simp [hk, parenDepth, hlo0] at q2 <;>
             simp [hk, q2, parenDepth, hlo0])

theorem levelled_writeILikeCondition (left right : Option Expression) (lo : String)
    (not : Bool) (hlo0 : ∀ k, parenDepth lo.data k = some k)
    (hl : Levelled (fun b => b.writeExpression left))
    (hr : Levelled (fun b => b.writeExpression right)) :
    Levelled (fun b => b.writeILikeCondition left right lo not) := by
  intro b d hq h
  have hl2 : ∀ b d, b.Tidy → writeExpression b left = .ok d → d.Tidy ∧ d.level = b.level := hl
  have hr2 : ∀ b d, b.Tidy → writeExpression b right = .ok d → d.Tidy ∧ d.level = b.level := hr
  simp only [writeILikeCondition] at h
  cases not <;> cases hs : b.ast.dialect.SupportsILike <;> by_cases hlo : lo = "" <;>
    simp [hs, hlo, bind_eq_ok] at h
  all_goals
    repeat
      refine Exists.elim h ?_
      clear h
      intro d1 h
      obtain ⟨h1, h⟩ := h
      first
        | have q := hl2 _ _ (by simpa using hq) h1
        | have q := hr2 _ _ (by simpa using hq) h1
      clear hq h1
      obtain ⟨hq, hw⟩ := q
      revert hw
  all_goals first
    | (first
         | have q := hl2 _ _ (by simpa using hq) h
         | have q := hr2 _ _ (by simpa using hq) h
       clear hl hr hl2 hr2 h hs
       intros
       refine ⟨by simpa using q.1, ?_⟩
       have q := q.2
       clear hq
       cases hk : b.level <;> simp_all [parenDepth])
    | (subst h
       clear hl hr hl2 hr2 hs
       intros
       refine ⟨by simpa using hq, ?_⟩
       clear hq
       cases hk : b.level <;> simp_all [parenDepth])

theorem levelled_none : Levelled (fun b => b.writeExpression none) := by
  intro b d hq h
  simp [writeExpression] at h
  subst h
  exact ⟨hq, rfl⟩

theorem levelled_writeBinaryConditionInner (left right : Option Expression) (lo : String)
    (op : Operator) (hlo0 : ∀ k, parenDepth lo.data k = some k)
    (hl : Levelled (fun b => b.writeExpression left))
    (hr : Levelled (fun b => b.writeExpression right)) :
    Levelled (fun b => b.writeBinaryConditionInner left right lo op) := by
  intro b d hq h
  have hl2 : ∀ b d, b.Tidy → writeExpression b left = .ok d → d.Tidy ∧ d.level = b.level := hl
  have hr2 : ∀ b d, b.Tidy → writeExpression b right = .ok d → d.Tidy ∧ d.level = b.level := hr
  have hI := fun not => levelled_writeILikeCondition left right lo not hlo0 hl hr b d hq
  have hN := fun not => levelled_writeInCondition left right lo not hlo0 hl hr b d hq
  cases op <;> simp only [writeBinaryConditionInner] at h <;>
    first
    | exact hI _ h
    | exact hN _ h
    | (by_cases hlo : lo = "" <;> simp [hlo, bind_eq_ok] at h <;>
        first
        | (obtain ⟨d1, h1, h⟩ := h
           have q1 := hl2 _ _ hq h1
           have q2 := hr2 _ _ (by simpa using q1.1) h
           refine ⟨by simpa using q2.1, ?_⟩
           have q1 := q1.2
           have q2 := q2.2
           clear hl hr hl2 hr2 hI hN h h1 hq
           cases hk : b.level <;> simp_all [parenDepth])
        | (have q2 := hr2 _ _ (by simpa using hq) h
           refine ⟨by simpa using q2.1, ?_⟩
           have q2 := q2.2
           clear hl hr hl2 hr2 hI hN h hq
           cases hk : b.level <;> simp_all [parenDepth]))

theorem levelled_value_leaf (vals : List Val) :
    Levelled (fun b => b.writeExpression (some (.mk "" (.list vals) none none))) := by
  intro b d hq h
  simp [writeExpression, Val.isNull, writeValue] at h
  subst h
  refine ⟨by simpa using hq, ?_⟩
  cases hk : b.level <;> simp [hk, parenDepth]

theorem levelled_writeBinaryCondition (exprs : List (Option Expression)) (op : Operator)
    (h : ∀ e ∈ exprs, Levelled (fun b => b.writeExpression e)) :
    Levelled (fun b => b.writeBinaryCondition exprs op) := by
  intro b d hq hw
  simp only [writeBinaryCondition] at hw
  split at hw
  · simp at hw
  · rename_i left right hn
    have h2 := legacyInOperands_forall (fun e => Levelled (fun b => b.writeExpression e))
      levelled_value_leaf exprs _ op h hn
    cases left with
    | none => simp at hw
    | some l =>
      cases right with
      | none => simp at hw
      | some r =>
        have hl := h2 (some l) (by simp)
        have hr := h2 (some r) (by simp)
        have i1 := fun lo op h0 => levelled_writeBinaryConditionInner none (some r) lo op h0
          levelled_none hr
        have i2 := levelled_writeBinaryConditionInner (some l) (some r) "" op
          (fun k => rfl) hl hr
        simp only [bind_eq_ok] at hw
        obtain ⟨u, -, hw⟩ := hw
        by_cases hln : l.Name = ""
        · simp [hln] at hw
          exact i2 b d hq hw
        · simp [hln, bind_eq_ok, returned_eq_ok, mapError_eq_ok] at hw
          obtain ⟨x, hw⟩ := hw
          rcases hw with ⟨hres, hw⟩ | ⟨hres, fr, hw⟩
          · exact i1 x op (parenDepth_of_balanced _ (hq.1 _ _ _ hres)) b d hq hw
          · rcases hw with ⟨-, hw⟩ | ⟨hlat, d1, hw, hd⟩
            · have q := i1 x op (parenDepth_of_balanced _ (hq.1 _ _ _ hres))
                b.generateIdentifier.2 d (by simpa using hq) hw
              simpa using q
            · have hfr := parenDepth_of_balanced _ (hq.2.1 _ _ _ _ _ hres hlat)
              have q := i1 _ _ (parenDepth_of_balanced _ (hq.2.2 b.ast.nextIdentifier _ _ hres))
                _ d1 (by split <;> simpa using hq) hw
              subst hd
              refine ⟨by simpa using q.1, ?_⟩
              have q2 := q.2
              clear q i1 i2 hl hr h2 h hw hq hlat hres
              cases hk : b.level <;> split at q2 <;> simp_all [parenDepth]
  · simp at hw

theorem levelled_writeJoinedLoop (exprs : List (Option Expression)) (joiner : String)
    (hj : ∀ k, parenDepth joiner.data k = some k)
    (h : ∀ e ∈ exprs, Levelled (fun b => b.writeExpression e)) (i : Nat) :
    Levelled (fun b => b.writeJoinedLoop exprs joiner i) := by
  induction exprs generalizing i with
  | nil =>
    intro b d hq hw
    simp [writeJoinedLoop] at hw
    subst hw
    exact ⟨hq, rfl⟩
  | cons e rest ih =>
    intro b d hq hw
    simp only [writeJoinedLoop, bind_eq_ok] at hw
    obtain ⟨d1, h1, h2⟩ := hw
    have q1 := h e (by simp) _ d1 (by split <;> simpa using hq) h1
    have q2 := ih (fun x hx => h x (by simp [hx])) (i + 1) d1 d q1.1 h2
    refine ⟨q2.1, ?_⟩
    have q1w := q1.2
    have q2w := q2.2
    clear q1 q2 h1 h2 ih h hq
    cases hk : b.level <;> split at q1w <;> simp_all [parenDepth]

theorem levelled_writeJoinedExpressions (exprs : List (Option Expression)) (joiner : String)
    (hj : ∀ k, parenDepth joiner.data k = some k)
    (h : ∀ e ∈ exprs, Levelled (fun b => b.writeExpression e)) :
    Levelled (fun b => b.writeJoinedExpressions exprs joiner) := by
  intro b d hq hw
  simp only [writeJoinedExpressions] at hw
  split at hw
  · simp at hw
    subst hw
    exact ⟨hq, rfl⟩
  · simp only [bind_eq_ok] at hw
    obtain ⟨d1, h1, h2⟩ := hw
    have q1 := levelled_writeJoinedLoop exprs joiner hj h 0 _ d1 (by simpa using hq) h1
    simp at h2
    subst h2
    refine ⟨by simpa using q1.1, ?_⟩
    have q1w := q1.2
    clear q1 h1 h hq
    cases hk : b.level <;> simp_all [parenDepth]

theorem levelled_writeCondition (op : Operator) (exprs : List (Option Expression))
    (h : ∀ e ∈ exprs, Levelled (fun b => b.writeExpression e)) :
    Levelled (fun b => b.writeCondition (.mk op exprs)) := by
  intro b d hq hw
  have hj := fun j hj0 => levelled_writeJoinedExpressions exprs j hj0 h b d hq
  have hb := levelled_writeBinaryCondition exprs op h b d hq
  cases op <;> simp only [writeCondition] at hw <;>
    first
    | exact hj _ (fun k => by simp [parenDepth]) hw
    | (simp [Operator.Valid] at hw; exact hb hw)
    | simp [Operator.Valid] at hw

theorem levelled_leaf (n : String) (v : Val) :
    Levelled (fun b => b.writeExpression (some (.mk n v none none))) := by
  intro b d hq hw
  simp only [writeExpression] at hw
  split at hw
  · simp only [writeName, bind_eq_ok, returned_eq_ok] at hw
    obtain ⟨res, hres, hw⟩ := hw
    split at hw
    · simp at hw
    · simp at hw
      subst hw
      have := parenDepth_of_balanced _ (hq.1 n res.1 res.2 hres)
      refine ⟨by simpa using hq, ?_⟩
      cases hk : b.level <;> simp [hk, parenDepth, this]
  · split at hw
    · simp [writeValue] at hw
      subst hw
      refine ⟨by simpa using hq, ?_⟩
      cases hk : b.level <;> simp [hk, parenDepth]
    · simp at hw

end sqlExprBuilder

/-- Every successful write of a tree without Subquery node, in a context
whose fragments are parenthesis-balanced, leaves the nesting depth of the
output where it was. -/
theorem levelled_writeExpression (e : Option Expression) (hsub : noSubqueryOpt e = true) :
    sqlExprBuilder.Levelled (fun b => b.writeExpression e) := by
  revert hsub
  refine expression_induction
    (fun e => noSubqueryOpt e = true → sqlExprBuilder.Levelled (fun b => b.writeExpression e))
    ?_ ?_ ?_ e
  · intro _
    exact sqlExprBuilder.levelled_none
  · intro n v s hs
    cases s with
    | some sub => simp [noSubqueryOpt, Expression.noSubquery] at hs
    | none => exact sqlExprBuilder.levelled_leaf n v
  · intro n v s op es ih hs
    cases s with
    | some sub => simp [noSubqueryOpt, Expression.noSubquery] at hs
    | none =>
      simp [noSubqueryOpt, Expression.noSubquery, noSubqueryOptCondition,
        Condition.noSubquery] at hs
      have hes : ∀ e ∈ es, sqlExprBuilder.Levelled (fun b => b.writeExpression e) :=
        fun e he => ih e he (noSubqueryOpt_of_mem e es hs he)
      intro b d hq hw
      simp only [sqlExprBuilder.writeExpression] at hw
      split at hw
      · exact sqlExprBuilder.levelled_leaf n v b d hq (by
          simp only [sqlExprBuilder.writeExpression]
          simp [*])
      · split at hw
        · exact sqlExprBuilder.levelled_leaf n v b d hq (by
            simp only [sqlExprBuilder.writeExpression]
            simp [*])
        · exact sqlExprBuilder.levelled_writeCondition op es hes b d hq hw

/-- C37. Parenthesis balance: for an expression tree without Subquery node,
in a scope and dialect whose resolved name fragments, lateral-unnest FROM
clauses and correlated column references are parenthesis-balanced, whenever
`sqlForExpression` succeeds with `(sql, params)`, no prefix of `sql` has more
`)` than `(` and `sql` has as many `(` as `)`. -/
theorem parenthesis_balance (ast : AST) (n : Option SelectNode)
    (pseudoHaving : Bool) (e : Option Expression) (sql : String) (params : List Val)
    (hsub : noSubqueryOpt e = true)
    (htidy : (sqlExprBuilder.start ast n pseudoHaving).Tidy)
    (h : ast.sqlForExpression e n pseudoHaving = .returned sql params none) :
    (∀ p, p <+: sql.data → p.count ')' ≤ p.count '(') ∧
      sql.data.count '(' = sql.data.count ')' := by
  obtain ⟨d, hw, h1, h2⟩ := (sqlForExpression_eq_ok ast n pseudoHaving e sql params).mp h
  have q := levelled_writeExpression e hsub _ d htidy hw
  have hw2 := q.2
  simp only [sqlExprBuilder.level, h1] at hw2
  exact (balanced_iff sql).mpr (by rw [hw2]; rfl)

theorem parenDepth_replicate (n k : Nat) :
    parenDepth (List.replicate n 't') k = some k := by
  induction n with
  | zero => rfl
  | succ n ih => simp [List.replicate_succ, parenDepth, ih]

theorem demo_tidy (k : Nat) :
    (sqlExprBuilder.start (demoAST.withNextIdentifier k) none false).Tidy := by
  have hname : ∀ name x u,
      (sqlExprBuilder.start (demoAST.withNextIdentifier k) none false).sqlForName name
        = .ok (x, u) →
      (x = "t.country" ∧ u = false) ∨ (x = "status" ∧ u = false) ∨
        (name = "tags" ∧ x = "tags" ∧ u = true) := fun name x u h =>
    demo_sqlForName name x u h
  refine ⟨?_, ?_, ?_⟩
  · intro name x u h
    rw [balanced_iff]
    rcases hname name x u h with ⟨hx, -⟩ | ⟨hx, -⟩ | ⟨-, hx, -⟩ <;> subst hx <;> decide
  · intro j name x fr ok h hl
    rcases hname name x true h with ⟨-, hu⟩ | ⟨-, hu⟩ | ⟨hn, hx, -⟩
    · simp at hu
    · simp at hu
    · subst hn hx
      simp [sqlExprBuilder.start, demoAST, demoDialect, AST.withNextIdentifier] at hl
      rw [← hl.1, balanced_iff]
      simp [String.data_append, parenDepth_append, parenDepth, parenDepth_replicate]
  · intro j name x h
    rcases hname name x true h with ⟨-, hu⟩ | ⟨-, hu⟩ | ⟨hn, hx, -⟩
    · simp at hu
    · simp at hu
    · subst hn hx
      rw [balanced_iff]
      simp [sqlExprBuilder.start, demoAST, AST.withNextIdentifier, String.data_append,
        parenDepth_append, parenDepth, parenDepth_replicate]

/-- Witness of C37: the condition `tags = "a"` of the example context, which
takes the unnest path. -/
theorem parenthesis_balance_witness :
    (noSubqueryOpt (some (demoTagsEq (.str "a"))) = true ∧
      (sqlExprBuilder.start (demoAST.withNextIdentifier 0) none false).Tidy ∧
      (demoAST.withNextIdentifier 0).sqlForExpression (some (demoTagsEq (.str "a"))) none false
        = .returned "EXISTS (SELECT 1 FROM LATERAL UNNEST(tags) t WHERE (t.tags) = ?)"
            [.str "a"] none) ∧
    ((∀ p, p <+: "EXISTS (SELECT 1 FROM LATERAL UNNEST(tags) t WHERE (t.tags) = ?)".data →
        p.count ')' ≤ p.count '(') ∧
      "EXISTS (SELECT 1 FROM LATERAL UNNEST(tags) t WHERE (t.tags) = ?)".data.count '('
        = "EXISTS (SELECT 1 FROM LATERAL UNNEST(tags) t WHERE (t.tags) = ?)".data.count ')') :=
  ⟨⟨by rfl, demo_tidy 0, (demo_tags_eq 0 (.str "a") (by simp)).1⟩,
    parenthesis_balance (demoAST.withNextIdentifier 0) none false _ _ _ (by rfl) (demo_tidy 0)
      (demo_tags_eq 0 (.str "a") (by simp)).1⟩

/-! ## The list-type error of a membership test -/

theorem bind_eq_error {ε α β : Type} (x : Except ε α) (k : α → Except ε β) (f : ε) :
    (x >>= k) = .error f ↔ x = .error f ∨ ∃ a, x = .ok a ∧ k a = .error f := by
  cases x <;> simp [bind, Except.bind]

theorem returned_ne_listError {α : Type} (x : Except Err α)
    (h : x ≠ .error .inRightNotList) :
    sqlExprBuilder.returned x ≠ .error (.error .inRightNotList) := by
  cases x with
  | error e =>
    simp [sqlExprBuilder.returned]
    intro he
    exact h (by rw [he])
  | ok a => simp [sqlExprBuilder.returned]

namespace sqlExprBuilder

theorem sqlForName_ne_listError (b : sqlExprBuilder) (name : String) :
    b.sqlForName name ≠ .error .inRightNotList := by
  unfold sqlForName
  repeat' split
  all_goals simp

theorem noListError_none : NoListError (fun b => b.writeExpression none) := by
  intro b
  simp [writeExpression]

theorem noListError_writeInConditionForValues (left : Option Expression) (lo : String)
    (vals : List Val) (not : Bool)
    (hl : NoListError (fun b => b.writeExpression left)) :
    NoListError (fun b => b.writeInConditionForValues left lo vals not) := by
  intro b h
  have hl2 : ∀ b, writeExpression b left ≠ .error (.error .inRightNotList) := hl
  simp only [writeInConditionForValues] at h
  cases not <;> cases hN : hasNull vals <;> by_cases hlo : lo = "" <;>
    by_cases hv : vals.length = 0 <;>
    simp [hN, hlo, hv, bind_eq_error, hl2] at h

theorem noListError_writeInCondition (left right : Option Expression) (lo : String)
    (not : Bool)
    (hv : ∀ r, right = some r → r.Value.isNull = true ∨ r.Value.asList.isSome = true)
    (hl : NoListError (fun b => b.writeExpression left))
    (hr : NoListError (fun b => b.writeExpression right)) :
    NoListError (fun b => b.writeInCondition left right lo not) := by
  intro b h
  have hl2 : ∀ b, writeExpression b left ≠ .error (.error .inRightNotList) := hl
  cases right with
  | none => simp [writeInCondition] at h
  | some r =>
    have hr2 : ∀ b, writeExpression b (some r) ≠ .error (.error .inRightNotList) := hr
    simp only [writeInCondition] at h
    split at h
    · split at h
      · rename_i hnn _ hnone
        rcases hv r rfl with h1 | h1
        · simp [h1] at hnn
        · simp [hnone] at h1
      · exact noListError_writeInConditionForValues left lo _ not hl b h
    · cases not <;> by_cases hlo : lo = "" <;> simp [hlo, bind_eq_error, hl2, hr2] at h

theorem noListError_writeILikeCondition (left right : Option Expression) (lo : String)
    (not : Bool)
    (hl : NoListError (fun b => b.writeExpression left))
    (hr : NoListError (fun b => b.writeExpression right)) :
    NoListError (fun b => b.writeILikeCondition left right lo not) := by
  intro b h
  have hl2 : ∀ b, writeExpression b left ≠ .error (.error .inRightNotList) := hl
  have hr2 : ∀ b, writeExpression b right ≠ .error (.error .inRightNotList) := hr
  simp only [writeILikeCondition] at h
  cases not <;> cases hs : b.ast.dialect.SupportsILike <;> by_cases hlo : lo = "" <;>
    simp [hs, hlo, bind_eq_error, hl2, hr2] at h

theorem noListError_writeBinaryConditionInner (left right : Option Expression) (lo : String)
    (op : Operator)
    (hv : op = .In ∨ op = .Nin →
      ∀ r, right = some r → r.Value.isNull = true ∨ r.Value.asList.isSome = true)
    (hl : NoListError (fun b => b.writeExpression left))
    (hr : NoListError (fun b => b.writeExpression right)) :
    NoListError (fun b => b.writeBinaryConditionInner left right lo op) := by
  intro b h
  have hl2 : ∀ b, writeExpression b left ≠ .error (.error .inRightNotList) := hl
  have hr2 : ∀ b, writeExpression b right ≠ .error (.error .inRightNotList) := hr
  have hI := fun not => noListError_writeILikeCondition left right lo not hl hr b
  have hN := fun not hv => noListError_writeInCondition left right lo not hv hl hr b
  cases op <;> simp only [writeBinaryConditionInner] at h <;>
    first
    | exact hI _ h
    | exact hN _ (hv (by simp)) h
    | (by_cases hlo : lo = "" <;> simp [hlo, bind_eq_error, hl2, hr2] at h)

/-- The right operand left by the backwards-compatibility block of an In/Nin
condition whose right operand populates at most one field has a nil or a list
Value. -/
theorem legacyInOperands_rightValue (exprs : List (Option Expression)) (op : Operator)
    (left : Option Expression) (r : Expression) (hop : op = .In ∨ op = .Nin)
    (hwf : rightPopulatesAtMostOne exprs = true)
    (hn : legacyInOperands exprs op = .ok [left, some r]) :
    r.Value.isNull = true ∨ r.Value.asList.isSome = true := by
  unfold legacyInOperands at hn
  simp only [hop, if_true] at hn
  split at hn
  · split at hn
    · simp at hn
    · rename_i l0 rhs r0
      split at hn
      · simp at hn
        rw [← hn.2]
        simp [Expression.Value, Val.asList]
      · rename_i hcond
        simp at hn
        obtain ⟨-, rfl⟩ := hn
        cases r0 with
        | mk name value sub cond =>
          simp [rightPopulatesAtMostOne, Expression.populatesAtMostOne] at hwf
          simp [Expression.Name, Expression.Value, Expression.Condition,
            Expression.Subquery] at hcond ⊢
          cases value <;> simp [Val.isNull, Val.asList] at hwf hcond ⊢
          all_goals
            by_cases h1 : name = "" <;> cases sub <;> cases cond <;> simp [h1] at hwf hcond
  · split at hn
    · simp at hn
    · simp at hn
      rw [← hn.2]
      simp [Expression.Value, Val.asList]
  · rename_i h1 h2
    simp at hn
    subst hn
    exact absurd rfl (h1 _ _)

theorem collectValues_error (es : List (Option Expression)) (f : Failure)
    (h : collectValues es = .error f) : f = .panic := by
  induction es with
  | nil => simp [collectValues] at h
  | cons e es ih =>
    cases e with
    | none =>
      simp [collectValues] at h
      exact h.symm
    | some e =>
      simp only [collectValues] at h
      split at h
      · rename_i hc
        simp at h
        subst h
        exact ih hc
      · simp at h

theorem noListError_value_leaf (vals : List Val) :
    NoListError (fun b => b.writeExpression (some (.mk "" (.list vals) none none))) := by
  intro b h
  simp [writeExpression, Val.isNull, writeValue] at h

theorem noListError_writeBinaryCondition (exprs : List (Option Expression)) (op : Operator)
    (hwf : op = .In ∨ op = .Nin → rightPopulatesAtMostOne exprs = true)
    (h : ∀ e ∈ exprs, NoListError (fun b => b.writeExpression e)) :
    NoListError (fun b => b.writeBinaryCondition exprs op) := by
  intro b hw
  simp only [writeBinaryCondition] at hw
  split at hw
  · rename_i f hn
    simp at hw
    subst hw
    unfold legacyInOperands at hn
    repeat' split at hn
    all_goals first
      | (simp at hn; done)
      | (rename_i hc
         simp at hn
         rw [hn] at hc
         have := collectValues_error _ _ hc
         simp at this)
  · rename_i left right hn
    have h2 := legacyInOperands_forall (fun e => NoListError (fun b => b.writeExpression e))
      noListError_value_leaf exprs _ op h hn
    cases left with
    | none => simp at hw
    | some l =>
      cases right with
      | none => simp at hw
      | some r =>
        have hl := h2 (some l) (by simp)
        have hr := h2 (some r) (by simp)
        have hv : op = .In ∨ op = .Nin →
            ∀ r2, some r = some r2 → r2.Value.isNull = true ∨ r2.Value.asList.isSome = true := by
          intro hop r2 hr2
          simp at hr2
          subst hr2
          exact legacyInOperands_rightValue exprs op _ _ hop (hwf hop) hn
        have hv2 : (hoistNot op).1 = .In ∨ (hoistNot op).1 = .Nin →
            ∀ r2, some r = some r2 → r2.Value.isNull = true ∨ r2.Value.asList.isSome = true := by
          intro hop
          apply hv
          cases op <;> simp [hoistNot] at hop ⊢
        have i1 := fun lo => noListError_writeBinaryConditionInner none (some r) lo op hv
          noListError_none hr
        have i3 := fun lo => noListError_writeBinaryConditionInner none (some r) lo
          (hoistNot op).1 hv2 noListError_none hr
        have i2 := noListError_writeBinaryConditionInner (some l) (some r) "" op hv hl hr
        have hs := fun name => returned_ne_listError _ (sqlForName_ne_listError b name)
        simp only [bind_eq_error] at hw
        rcases hw with hw | ⟨u, -, hw⟩
        · by_cases hrn : r.Name = ""
          · simp [hrn] at hw
          · simp [hrn, bind_eq_error, hs] at hw
        · by_cases hln : l.Name = ""
          · simp [hln] at hw
            exact i2 b hw
          · simp only [hln, ne_eq, not_false_eq_true, if_true, bind_eq_error] at hw
            rcases hw with hw | ⟨res, -, hw⟩
            · exact hs _ hw
            · split at hw
              · exact i1 _ _ hw
              · simp only [bind_eq_error] at hw
                rcases hw with hw | ⟨lat, -, hw⟩
                · revert hw
                  apply returned_ne_listError
                  cases (b.generateIdentifier.2.ast.dialect.LateralUnnest res.1
                    b.generateIdentifier.1 l.Name) <;> simp [Except.mapError]
                · split at hw
                  · exact i1 _ _ hw
                  · simp only [bind_eq_error] at hw
                    rcases hw with hw | ⟨d, -, hw⟩
                    · exact i3 _ _ hw
                    · simp at hw
  · simp at hw

theorem noListError_writeJoinedLoop (exprs : List (Option Expression)) (joiner : String)
    (h : ∀ e ∈ exprs, NoListError (fun b => b.writeExpression e)) (i : Nat) :
    NoListError (fun b => b.writeJoinedLoop exprs joiner i) := by
  induction exprs generalizing i with
  | nil =>
    intro b hw
    simp [writeJoinedLoop] at hw
  | cons e rest ih =>
    intro b hw
    simp only [writeJoinedLoop, bind_eq_error] at hw
    rcases hw with hw | ⟨d, -, hw⟩
    · exact h e (by simp) _ hw
    · exact ih (fun x hx => h x (by simp [hx])) (i + 1) d hw

theorem noListError_writeJoinedExpressions (exprs : List (Option Expression))
    (joiner : String) (h : ∀ e ∈ exprs, NoListError (fun b => b.writeExpression e)) :
    NoListError (fun b => b.writeJoinedExpressions exprs joiner) := by
  intro b hw
  simp only [writeJoinedExpressions] at hw
  split at hw
  · simp at hw
  · simp only [bind_eq_error] at hw
    rcases hw with hw | ⟨d, -, hw⟩
    · exact noListError_writeJoinedLoop exprs joiner h 0 _ hw
    · simp at hw

theorem noListError_writeCondition (op : Operator) (exprs : List (Option Expression))
    (hwf : op = .In ∨ op = .Nin → rightPopulatesAtMostOne exprs = true)
    (h : ∀ e ∈ exprs, NoListError (fun b => b.writeExpression e)) :
    NoListError (fun b => b.writeCondition (.mk op exprs)) := by
  intro b hw
  have hj := fun j => noListError_writeJoinedExpressions exprs j h b
  have hb := noListError_writeBinaryCondition exprs op hwf h b
  cases op <;> simp only [writeCondition] at hw <;>
    first
    | exact hj _ hw
    | (simp [Operator.Valid] at hw; exact hb hw)
    | simp [Operator.Valid] at hw

theorem noListError_leaf (n : String) (v : Val) (s : Option Subquery) :
    NoListError (fun b => b.writeExpression (some (.mk n v s none))) := by
  intro b hw
  have hs := fun name => returned_ne_listError _ (sqlForName_ne_listError b name)
  have hname : b.writeName n ≠ .error (.error .inRightNotList) := by
    intro hw
    simp only [writeName, bind_eq_error] at hw
    rcases hw with hw | ⟨res, -, hw⟩
    · exact hs _ hw
    · split at hw <;> simp at hw
  cases s with
  | none =>
    simp only [writeExpression] at hw
    split at hw
    · exact hname hw
    · split at hw
      · simp [writeValue] at hw
      · simp at hw
  | some sub =>
    simp only [writeExpression] at hw
    split at hw
    · exact hname hw
    · split at hw
      · simp [writeValue] at hw
      · simp only [writeSubquery] at hw
        repeat' split at hw
        all_goals simp at hw

end sqlExprBuilder

theorem inWellFormedOpt_of_mem (e : Option Expression) (es : List (Option Expression))
    (h : inWellFormedList es = true) (he : e ∈ es) : inWellFormedOpt e = true := by
  induction es with
  | nil => simp at he
  | cons x xs ih =>
    simp [inWellFormedList] at h
    rcases List.mem_cons.mp he with h1 | h1
    · subst h1
      exact h.1
    · exact ih h.2 h1

/-- No write of a tree whose In/Nin conditions are well-formed returns the
list-type error. -/
theorem noListError_writeExpression (e : Option Expression) (hwf : inWellFormedOpt e = true) :
    sqlExprBuilder.NoListError (fun b => b.writeExpression e) := by
  revert hwf
  refine expression_induction
    (fun e => inWellFormedOpt e = true →
      sqlExprBuilder.NoListError (fun b => b.writeExpression e))
    ?_ ?_ ?_ e
  · intro _
    exact sqlExprBuilder.noListError_none
  · intro n v s _
    exact sqlExprBuilder.noListError_leaf n v s
  · intro n v s op es ih hs
    simp [inWellFormedOpt, Expression.inWellFormed, inWellFormedOptCondition,
      Condition.inWellFormed] at hs
    have hes : ∀ e ∈ es, sqlExprBuilder.NoListError (fun b => b.writeExpression e) :=
      fun e he => ih e he (inWellFormedOpt_of_mem e es hs.2 he)
    intro b hw
    have hleaf := sqlExprBuilder.noListError_leaf n v s b
    cases s with
    | none =>
      simp only [sqlExprBuilder.writeExpression] at hw hleaf
      split at hw
      · exact hleaf (by simp [*])
      · split at hw
        · exact hleaf (by simp [*])
        · exact sqlExprBuilder.noListError_writeCondition op es
            (fun hop => by
              rcases hs.1 with h1 | h1
              · rcases hop with h2 | h2
                · exact absurd h2 h1.1
                · exact absurd h2 h1.2
              · exact h1) hes b hw
    | some sub =>
      simp only [sqlExprBuilder.writeExpression] at hw hleaf
      split at hw
      · exact hleaf (by simp [*])
      · split at hw
        · exact hleaf (by simp [*])
        · exact hleaf (by simp [*])

/-- C35. The list-type error is unreachable for well-formed input: when
every In/Nin condition of the tree with two operands has a right operand
that populates at most one of Name, Value, Subquery and Condition (conditions
with more operands are flattened into a list and need no hypothesis),
`sqlForExpression` never returns the error "the right value must be a list of
values for an IN condition". -/
theorem list_error_unreachable (ast : AST) (n : Option SelectNode) (pseudoHaving : Bool)
    (e : Option Expression) (hwf : inWellFormedOpt e = true) (sql : String)
    (params : List Val) :
    ast.sqlForExpression e n pseudoHaving ≠ .returned sql params (some .inRightNotList) := by
  intro h
  have hne := noListError_writeExpression e hwf (sqlExprBuilder.start ast n pseudoHaving)
  simp only [AST.sqlForExpression] at h
  split at h
  · rename_i err hw
    simp at h
    rw [h.2.2] at hw
    exact hne hw
  · simp at h
  · simp at h

/-- A right operand with both a Name and a scalar Value does reach the error:
the hypothesis of well-formedness cannot be dropped. -/
theorem list_error_reachable :
    inWellFormedOpt (some (.ofCondition .In
        [some (.ofName "country"), some (.mk "status" (.int 5) none none)])) = false ∧
    demoAST.sqlForExpression (some (.ofCondition .In
        [some (.ofName "country"), some (.mk "status" (.int 5) none none)])) none false
      = .returned "" [] (some .inRightNotList) := by
  refine ⟨by rfl, ?_⟩
  apply sqlForExpression_of_error
  rw [sqlExprBuilder.writeExpression_ofCondition,
    sqlExprBuilder.writeCondition_binary _ _ _ (by decide) (by decide) (by decide),
    sqlExprBuilder.writeBinaryCondition_name _ _ _ (.ofName "country")
      (.mk "status" (.int 5) none none) "t.country" (by rfl) (by decide)
      (Or.inr ⟨"status", by rfl⟩) (by rfl)]
  simp [sqlExprBuilder.writeBinaryConditionInner, sqlExprBuilder.writeInCondition,
    Val.isNull, Val.asList, Expression.Value]

/-- The condition `status IN 5` of the example context, whose right operand
is a bare scalar. -/
theorem demo_bare_scalar_compiled :
    demoAST.sqlForExpression (some (.ofCondition .In
        [some (.ofName "status"), some (.ofValue (.int 5))])) none false
      = .returned "(status) IN (?)" [.int 5] none := by
  have h := compile_membership_cons demoAST none false
    [some (.ofName "status"), some (.ofValue (.int 5))] "status" "status" [.int 5] false
    (by rfl) (by decide) (by decide) (by simp) (by rfl)
  exact h

/-- Witness of C35: the condition `status IN 5` of the example context, whose
right operand is a bare scalar. -/
theorem list_error_unreachable_witness :
    (inWellFormedOpt (some (.ofCondition .In
        [some (.ofName "status"), some (.ofValue (.int 5))])) = true ∧
      demoAST.sqlForExpression (some (.ofCondition .In
          [some (.ofName "status"), some (.ofValue (.int 5))])) none false
        = .returned "(status) IN (?)" [.int 5] none) ∧
    demoAST.sqlForExpression (some (.ofCondition .In
        [some (.ofName "status"), some (.ofValue (.int 5))])) none false
      ≠ .returned "" [] (some .inRightNotList) :=
  ⟨⟨by rfl, demo_bare_scalar_compiled⟩,
    list_error_unreachable demoAST none false _ (by rfl) "" []⟩

/-! ## The tree of the caller after a compilation -/

theorem getElem?_modifyAt {α : Type} (f : α → α) (i j : Nat) (es : List α) :
    (modifyAt f i es)[j]? = if i = j then es[j]?.map f else es[j]? := by
  induction es generalizing i j with
  | nil => cases i <;> simp [modifyAt]
  | cons x xs ih =>
    cases i with
    | zero =>
      cases j with
      | zero => simp [modifyAt]
      | succ j => simp [modifyAt]
    | succ i =>
      cases j with
      | zero => simp [modifyAt]
      | succ j => simp [modifyAt, ih]

theorem length_modifyAt {α : Type} (f : α → α) (i : Nat) (es : List α) :
    (modifyAt f i es).length = es.length := by
  induction es generalizing i with
  | nil => cases i <;> simp [modifyAt]
  | cons x xs ih => cases i <;> simp [modifyAt, ih]

/-- The store of line 158 leaves the slice as it is, or replaces a right
operand without condition by the wrapped value. -/
theorem storedOperands_cases (op : Operator) (es : List (Option Expression)) :
    sqlExprBuilder.storedOperands op es = es ∨
      ∃ left r, es = [left, some r] ∧ r.Condition = none ∧
        sqlExprBuilder.storedOperands op es
          = [left, some (.mk "" (.list [r.Value]) none none)] := by
  unfold sqlExprBuilder.storedOperands
  split
  · split
    · rename_i left r
      split
      · rename_i h
        right
        refine ⟨left, r, rfl, ?_, rfl⟩
        have := h.2.2.1
        cases hc : r.Condition <;> simp [hc] at this ⊢
      · left; rfl
    · left; rfl
  · left; rfl

/-- A wrapped right operand is an expression without condition. -/
theorem getElem?_storedOperands (op : Operator) (es : List (Option Expression)) (i : Nat)
    (q : List Nat) :
    (match (sqlExprBuilder.storedOperands op es)[i]? with
      | some e => hasConditionAt q e
      | none => false)
    = (match es[i]? with
      | some e => hasConditionAt q e
      | none => false) := by
  rcases storedOperands_cases op es with h | ⟨left, r, hes, hc, h⟩
  · rw [h]
  · rw [h, hes]
    cases r with
    | mk n v s c =>
      simp only [Expression.Condition] at hc
      subst hc
      match i with
      | 0 => rfl
      | 1 => cases q <;> simp [hasConditionAt]
      | i + 2 => rfl

theorem hasConditionAt_storeAt (q p : List Nat) (e : Option Expression) :
    hasConditionAt p (storeAt q e) = hasConditionAt p e := by
  induction q generalizing p e with
  | nil =>
    match e with
    | none => rfl
    | some (.mk n v s none) => rfl
    | some (.mk n v s (some (.mk op es))) =>
      cases p with
      | nil => rfl
      | cons i p => simp only [storeAt, hasConditionAt, getElem?_storedOperands]
  | cons j q ih =>
    match e with
    | none => rfl
    | some (.mk n v s none) => rfl
    | some (.mk n v s (some (.mk op es))) =>
      cases p with
      | nil => rfl
      | cons i p =>
        simp only [storeAt, hasConditionAt, getElem?_modifyAt]
        by_cases hij : j = i
        · subst hij
          cases es[j]? <;> simp [ih]
        · simp [hij]

theorem hasConditionAt_applyStores (qs : List (List Nat)) (p : List Nat)
    (e : Option Expression) : hasConditionAt p (applyStores qs e) = hasConditionAt p e := by
  induction qs generalizing e with
  | nil => rfl
  | cons q qs ih => simp only [applyStores, List.foldl_cons] at ih ⊢; rw [ih, hasConditionAt_storeAt]

namespace Tracked

theorem valid_foldl {τ : Type} (act : List Nat → τ → τ) (valid : List Nat → τ → Bool)
    (hinv : ∀ q p s, valid p (act q s) = valid p s) (qs : List (List Nat)) (p : List Nat)
    (s : τ) : valid p (qs.foldl (fun s q => act q s) s) = valid p s := by
  induction qs generalizing s with
  | nil => rfl
  | cons q qs ih => simp only [List.foldl_cons]; rw [ih, hinv]

theorem Sound.ok {τ : Type} (act : List Nat → τ → τ) (valid : List Nat → τ → Bool)
    (b : sqlExprBuilder) (x : τ) : Sound act valid x (Tracked.ok b x) :=
  ⟨rfl, by simp [Tracked.ok]⟩

theorem Sound.fail {τ : Type} (act : List Nat → τ → τ) (valid : List Nat → τ → Bool)
    (f : Failure) (x : τ) : Sound act valid x (Tracked.fail f x) :=
  ⟨rfl, by simp [Tracked.fail]⟩

theorem Sound.andThen {τ : Type} (act : List Nat → τ → τ) (valid : List Nat → τ → Bool)
    (hinv : ∀ q p s, valid p (act q s) = valid p s) (x : τ) (t : Tracked τ)
    (k : sqlExprBuilder → τ → Tracked τ) (ht : Sound act valid x t)
    (hk : ∀ b, Sound act valid t.tree (k b t.tree)) : Sound act valid x (t.andThen k) := by
  unfold Tracked.andThen
  split
  · rename_i b hb
    have h2 := hk b
    refine ⟨?_, ?_⟩
    · simp only [List.foldl_append]
      rw [← ht.1]
      exact h2.1
    · intro p hp
      simp only [List.mem_append] at hp
      rcases hp with hp | hp
      · exact ht.2 p hp
      · have := h2.2 p hp
        rw [ht.1, valid_foldl act valid hinv] at this
        exact this
  · exact ht

theorem foldl_storeAtPair_left (qs : List (List Nat)) (l r : Option Expression) :
    (qs.map (List.cons 0)).foldl (fun s p => storeAtPair p s) (l, r)
      = (qs.foldl (fun s p => storeAt p s) l, r) := by
  induction qs generalizing l with
  | nil => rfl
  | cons q qs ih => exact ih (storeAt q l)

theorem foldl_storeAtPair_right (qs : List (List Nat)) (l r : Option Expression) :
    (qs.map (List.cons 1)).foldl (fun s p => storeAtPair p s) (l, r)
      = (l, qs.foldl (fun s p => storeAt p s) r) := by
  induction qs generalizing r with
  | nil => rfl
  | cons q qs ih => exact ih (storeAt q r)

theorem Sound.asLeft (l r : Option Expression) (t : Tracked (Option Expression))
    (ht : Sound storeAt hasConditionAt l t) :
    Sound storeAtPair hasConditionAtPair (l, r) (t.asLeft r) := by
  refine ⟨?_, ?_⟩
  · simp only [Tracked.asLeft, ht.1, foldl_storeAtPair_left]
  · intro p hp
    simp only [Tracked.asLeft, List.mem_map] at hp
    obtain ⟨q, hq, rfl⟩ := hp
    exact ht.2 q hq

theorem Sound.asRight (l r : Option Expression) (t : Tracked (Option Expression))
    (ht : Sound storeAt hasConditionAt r t) :
    Sound storeAtPair hasConditionAtPair (l, r) (t.asRight l) := by
  refine ⟨?_, ?_⟩
  · simp only [Tracked.asRight, ht.1, foldl_storeAtPair_right]
  · intro p hp
    simp only [Tracked.asRight, List.mem_map] at hp
    obtain ⟨q, hq, rfl⟩ := hp
    exact ht.2 q hq

end Tracked

namespace tracked

end tracked

namespace Tracked

theorem andThen_result {τ : Type} (x : Tracked τ) (k : sqlExprBuilder → τ → Tracked τ) :
    (x.andThen k).result
      = match x.result with
        | some (.ok b) => (k b x.tree).result
        | r => r := by
  unfold Tracked.andThen
  split <;> simp_all

/-- A step that agrees with the untracked method, followed by steps that
agree with the rest of it. -/
theorem andThen_agree {τ : Type} (x : Tracked τ) (k : sqlExprBuilder → τ → Tracked τ)
    (r : Except Failure sqlExprBuilder) (f : sqlExprBuilder → Except Failure sqlExprBuilder)
    (hx : x.result = some r) (hk : ∀ b, r = .ok b → (k b x.tree).result = some (f b)) :
    (x.andThen k).result = some (r >>= f) := by
  rw [andThen_result, hx]
  cases r with
  | error e => rfl
  | ok b => exact hk b rfl

end Tracked

namespace tracked

end tracked

/-- The tracked compilation of `country IN "US"` in the example context: the
condition is visited and the tree of the caller has the list `["US"]` as right
operand afterwards. -/
theorem demo_mutation :
    (demoAST.sqlForExpressionTracked
        (some (.ofCondition .In [some (.ofName "country"), some (.ofValue (.str "US"))]))
        none false).visited = [[]] ∧
    (demoAST.sqlForExpressionTracked
        (some (.ofCondition .In [some (.ofName "country"), some (.ofValue (.str "US"))]))
        none false).tree
      = some (.ofCondition .In [some (.ofName "country"), some (.ofValue (.list [.str "US"]))]) := by
  constructor <;> rfl

end metricsview
